import Mathlib

/-!
Planar curve-network utilities of `GeoUtils.cpp`: a shallow embedding.

The development embeds the curve splitter, the intersection collector, the
connectivity-DFS loop finder, the half-edge face tracer and the region
classifier of `FGeomUtils` and settles properties of them.

Conventions of the embedding.

* Coordinates, parameters and tolerances are exact rationals; the rounding of
  `float` and `double` arithmetic is outside the model. Where the source
  stores a `double` in a `float` variable, the conversion is the parameter
  `toFloat` of the embedded function.
* A `UGeomCurve*` is a valid object; two pointers are the same object exactly
  when their `id` fields agree. All pointer comparisons of the source
  (`==`, `TArray::Contains`, `TMap` keys) are comparisons of `id`.
* `P.Distance(Q) < Tol` is `0 < Tol` together with `|PQ|^2 < Tol^2`, which is
  the same condition over the reals but needs no square root.
* Calls into the B-Rep kernel (intersector, projector, trim, wire, face,
  area, bounds) are fields of the structure `Kernel`; they are inputs of the
  embedded functions.
* `FPrecision::Confusion()` and the default tolerance of
  `RemoveRepeatedLines` are declared outside the translated file and are
  parameters (`eps`, `tolRep`); so is `BuildConnectedGeometryGroups`
  (`sortGroups`).
-/

namespace GeoUtils

/-! ## Data model -/

/-- Three-dimensional point or vector (`FVector`). -/
structure FVector where
  X : ℚ
  Y : ℚ
  Z : ℚ
deriving DecidableEq

/-- Two-dimensional point (`FVector2D`). -/
structure FVector2D where
  X : ℚ
  Y : ℚ
deriving DecidableEq

/-- Squared euclidean distance of two points. -/
def FVector.DistSquared (a b : FVector) : ℚ :=
  (a.X - b.X) ^ 2 + (a.Y - b.Y) ^ 2 + (a.Z - b.Z) ^ 2

/-- The test `a.Distance(b) < Tol` (also `FVector::Dist(a, b) < Tol`). -/
def FVector.DistLt (a b : FVector) (Tol : ℚ) : Bool :=
  decide (0 < Tol) && decide (FVector.DistSquared a b < Tol ^ 2)

/-- The test `a.Equals(b, Tol)`: every coordinate differs by at most `Tol`. -/
def FVector.Equals (a b : FVector) (Tol : ℚ) : Bool :=
  decide (|a.X - b.X| ≤ Tol) && decide (|a.Y - b.Y| ≤ Tol) && decide (|a.Z - b.Z| ≤ Tol)

/-- Dynamic class of a curve object, as far as `IsA<...>` tests look at it.
`LineSegment` and `ArcOfCircle` are trimmed curves. -/
inductive CurveKind where
  | LineSegment
  | ArcOfCircle
  | OtherTrimmed
  | Other
deriving DecidableEq

/-- A curve object. `id` is the identity of the object (its address);
`StartPoint` and `EndPoint` are the values `D0(FirstParameter)` and
`D0(LastParameter)` of its geometric curve. -/
structure UGeomCurve where
  id : Nat
  kind : CurveKind
  StartPoint : FVector
  EndPoint : FVector
  FirstParameter : ℚ
  LastParameter : ℚ
  Bulge : ℚ
deriving DecidableEq

/-- The test `Curve->IsA<UGeomArcOfCircle>()`. -/
def UGeomCurve.IsArcOfCircle (c : UGeomCurve) : Bool :=
  decide (c.kind = CurveKind.ArcOfCircle)

/-- The test `Curve->IsA<UGeomTrimmedCurve>()`. -/
def UGeomCurve.IsTrimmedCurve (c : UGeomCurve) : Bool :=
  decide (c.kind ≠ CurveKind.Other)

/-- Pointer membership `Array.Contains(Curve)`. -/
def ContainsPtr (l : List UGeomCurve) (c : UGeomCurve) : Bool :=
  l.any (fun x => x.id == c.id)

/-- One intersection event between two input curves (`FCurveIntersectionInfo`). -/
structure FCurveIntersectionInfo where
  Position : FVector
  Curve1Index : Nat
  Curve2Index : Nat
  Parameter1 : ℚ
  Parameter2 : ℚ
  Tolerance : ℚ
deriving DecidableEq

/-- A common part reported by `IntTools_EdgeEdge`: a point with its parameter
on each edge, or an overlap with its range on the first edge and its ranges on
the second edge. -/
inductive CommonPrt where
  | Vertex (Point1 : FVector) (VertexParameter1 VertexParameter2 : ℚ)
  | Edge (Range1 : ℚ × ℚ) (Ranges2 : List (ℚ × ℚ))

/-- Axis-aligned box (`FBox`). -/
structure FBox where
  Min : FVector
  Max : FVector
  IsValid : Bool
deriving DecidableEq

/-- The centre `(Min + Max) * 0.5` of a box. -/
def FBox.GetCenter (b : FBox) : FVector :=
  ⟨(b.Min.X + b.Max.X) / 2, (b.Min.Y + b.Max.Y) / 2, (b.Min.Z + b.Max.Z) / 2⟩

/-- The services of the B-Rep kernel that the translated functions call.

* `IsEdge c`: `c->ToShape()` is an edge.
* `EdgeCurve c`: `BRep_Tool::Curve(edge, First, Last)`; `none` when the
  geometric curve is null, else the parameter range `(First, Last)`.
* `Value c t`: the point `Curve->Value(t)`.
* `Intersect c1 c2 tol`: `IntTools_EdgeEdge` with fuzzy value `tol`; `none`
  when `IsDone()` is false, else the common parts.
* `Project P c first last`: `GeomAPI_ProjectPointOnCurve`; `none` when it has
  no point, else `(LowerDistance, LowerDistanceParameter)`.
* `Trim c t0 t1`: the curve object made from `Geom_TrimmedCurve(c, t0, t1)`;
  `none` when the construction throws or yields a null object.
* `WireClosed cs`: `MakeWireFromCurves(cs)` is not null and `IsShapeClosed`.
* `Bounds cs`: `GetBounds` of that wire.
* `FaceArea cs`: `none` when `MakeFaceFromClosedWire` is null, else
  `CalculateShapeArea` of the face.
* `IsClockwise pts`: `FBKMath::IsClockwise`. -/
structure Kernel where
  IsEdge : UGeomCurve → Bool
  EdgeCurve : UGeomCurve → Option (ℚ × ℚ)
  Value : UGeomCurve → ℚ → FVector
  Intersect : UGeomCurve → UGeomCurve → ℚ → Option (List CommonPrt)
  Project : FVector → UGeomCurve → ℚ → ℚ → Option (ℚ × ℚ)
  Trim : UGeomCurve → ℚ → ℚ → Option UGeomCurve
  WireClosed : List UGeomCurve → Bool
  Bounds : List UGeomCurve → FBox
  FaceArea : List UGeomCurve → Option ℚ
  IsClockwise : List FVector → Bool

/-! ## Curve splitter (`SplitCurvesAtIntersections`) -/

/-- Model of `TArray::AddUnique`. -/
def AddUnique (l : List ℚ) (x : ℚ) : List ℚ :=
  if x ∈ l then l else l ++ [x]

/-- Model of `TMap<int32, TArray<float>>::FindOrAdd(Key).AddUnique(Value)` on an
association list. -/
def ParamsAddUnique : List (Nat × List ℚ) → Nat → ℚ → List (Nat × List ℚ)
  | [], k, x => [(k, [x])]
  | (k0, l) :: rest, k, x =>
    if k0 = k then (k0, AddUnique l x) :: rest else (k0, l) :: ParamsAddUnique rest k x

/-- Model of `TMap::Find(Key)` on an association list. -/
def ParamsFind : List (Nat × List ℚ) → Nat → Option (List ℚ)
  | [], _ => none
  | (k0, l) :: rest, k => if k0 = k then some l else ParamsFind rest k

/-- The first loop of `SplitCurvesAtIntersections`: the parameters of every
intersection record are filed under the index of their curve. The arrays are
`TArray<float>`: a parameter is converted to `float` when it is filed, which
changes nothing when it is the value of a `float` already. -/
def CollectIntersectionParams (toFloat : ℚ → ℚ) (ints : List FCurveIntersectionInfo) :
    List (Nat × List ℚ) :=
  ints.foldl
    (fun m I => ParamsAddUnique (ParamsAddUnique m I.Curve1Index (toFloat I.Parameter1))
      I.Curve2Index (toFloat I.Parameter2)) []

/-- Ascending insertion used for `TArray::Sort()`. -/
def SortParams (l : List ℚ) : List ℚ :=
  l.insertionSort (fun a b => a ≤ b)

/-- The fragment `[t0, t1]` of a curve: added to the output when the kernel
builds it, dropped otherwise. -/
def EmitFragment (K : Kernel) (c : UGeomCurve) (t0 t1 : ℚ) : List UGeomCurve :=
  match K.Trim c t0 t1 with
  | some f => [f]
  | none => []

/-- The loop over the sorted intersection parameters of one curve, followed by
the closing fragment up to `LastParam`. `prev` is `PreviousParam`, a `float`
like the parameters of the list; `FirstParam` and `LastParam` are `double`. -/
def SplitAtParams (K : Kernel) (eps : ℚ) (c : UGeomCurve) (FirstParam LastParam : ℚ) :
    ℚ → List ℚ → List UGeomCurve
  | prev, [] =>
    if LastParam > prev + eps then EmitFragment K c prev LastParam else []
  | prev, p :: ps =>
    if p ≤ FirstParam ∨ p ≥ LastParam then
      SplitAtParams K eps c FirstParam LastParam prev ps
    else if p > prev + eps then
      EmitFragment K c prev p ++ SplitAtParams K eps c FirstParam LastParam p ps
    else
      SplitAtParams K eps c FirstParam LastParam p ps

/-- The body of the loop over `CurveIndex`: what curve number `CurveIndex`
contributes to `OutSplitCurves`. The loop over the parameters starts with
`float PreviousParam = FirstParam`, the `double` first parameter converted to
`float`. -/
def SplitOneCurve (K : Kernel) (eps : ℚ) (toFloat : ℚ → ℚ) (pm : List (Nat × List ℚ))
    (CurveIndex : Nat) (c : UGeomCurve) : List UGeomCurve :=
  match ParamsFind pm CurveIndex with
  | none => [c]
  | some [] => [c]
  | some (p :: ps) =>
    if K.IsEdge c then
      match K.EdgeCurve c with
      | none => [c]
      | some (FirstParam, LastParam) =>
        SplitAtParams K eps c FirstParam LastParam (toFloat FirstParam) (SortParams (p :: ps))
    else [c]

/-- The loop over `CurveIndex`, starting at index `idx`. -/
def SplitLoop (K : Kernel) (eps : ℚ) (toFloat : ℚ → ℚ) (pm : List (Nat × List ℚ)) :
    Nat → List UGeomCurve → List UGeomCurve
  | _, [] => []
  | idx, c :: cs =>
    SplitOneCurve K eps toFloat pm idx c ++ SplitLoop K eps toFloat pm (idx + 1) cs

/-- Embedding of `FGeomUtils::SplitCurvesAtIntersections`: the returned flag and
`OutSplitCurves`. `toFloat` is the conversion of a `double` to `float`. -/
def SplitCurvesAtIntersections (K : Kernel) (eps : ℚ) (toFloat : ℚ → ℚ)
    (InCurves : List UGeomCurve) (InIntersections : List FCurveIntersectionInfo) :
    Bool × List UGeomCurve :=
  if InCurves.length = 0 then (false, [])
  else if InIntersections.length = 0 then (true, InCurves)
  else
    let out := SplitLoop K eps toFloat (CollectIntersectionParams toFloat InIntersections) 0
      InCurves
    (decide (out.length > 0), out)

/-! ## Intersection collector (`FindCurvesIntersections`) -/

/-- Embedding of `FGeomUtils::ProcessEdgeOverlap`: the records of one overlap common part. -/
def ProcessEdgeOverlap (K : Kernel) (Edge1 Edge2 : UGeomCurve) (Range1 : ℚ × ℚ)
    (Ranges2 : List (ℚ × ℚ)) (Curve1Index Curve2Index : Nat) (Tolerance : ℚ) :
    Bool × List FCurveIntersectionInfo :=
  match K.EdgeCurve Edge1, K.EdgeCurve Edge2 with
  | some _, some _ =>
    match Ranges2 with
    | [] => (false, [])
    | Range2 :: _ =>
      let StartInfo : FCurveIntersectionInfo :=
        { Position := K.Value Edge1 Range1.1, Curve1Index := Curve1Index,
          Curve2Index := Curve2Index, Parameter1 := Range1.1, Parameter2 := Range2.1,
          Tolerance := Tolerance }
      let EndInfo : FCurveIntersectionInfo :=
        { Position := K.Value Edge1 Range1.2, Curve1Index := Curve1Index,
          Curve2Index := Curve2Index, Parameter1 := Range1.2, Parameter2 := Range2.2,
          Tolerance := Tolerance }
      if FVector.DistSquared EndInfo.Position StartInfo.Position > Tolerance * Tolerance then
        (true, [StartInfo, EndInfo])
      else (true, [StartInfo])
  | _, _ => (false, [])

/-- The lambda `CheckPointOnCurve` of `CheckEndpointOnSegmentIntersection`.
`Curve1Index` is the captured index of the enclosing call; the result is the
record that the lambda appends, if any. -/
def CheckPointOnCurve (K : Kernel) (Tolerance : ℚ) (Curve1Index : Nat) (TestPoint : FVector)
    (TestPointParam : ℚ) (TargetCurve : UGeomCurve) (TargetFirstParam TargetLastParam : ℚ)
    (TestCurveIndex TargetCurveIndex : Nat) : Option FCurveIntersectionInfo :=
  match K.Project TestPoint TargetCurve TargetFirstParam TargetLastParam with
  | none => none
  | some (LowerDistance, ParamOnTargetCurve) =>
    if LowerDistance ≤ Tolerance then
      if ParamOnTargetCurve > TargetFirstParam + Tolerance ∧
          ParamOnTargetCurve < TargetLastParam - Tolerance then
        some
          { Position := TestPoint
            Curve1Index := TestCurveIndex
            Curve2Index := TargetCurveIndex
            Parameter1 := if TestCurveIndex = Curve1Index then TestPointParam
              else ParamOnTargetCurve
            Parameter2 := if TestCurveIndex = Curve1Index then ParamOnTargetCurve
              else TestPointParam
            Tolerance := Tolerance }
      else none
    else none

/-- Embedding of `FGeomUtils::CheckEndpointOnSegmentIntersection`: the four end point tests
in source order; the function returns at the first test that appends a
record. -/
def CheckEndpointOnSegmentIntersection (K : Kernel) (Edge1 Edge2 : UGeomCurve)
    (Curve1Index Curve2Index : Nat) (Tolerance : ℚ) : Bool × List FCurveIntersectionInfo :=
  match K.EdgeCurve Edge1, K.EdgeCurve Edge2 with
  | some (Edge1FirstParam, Edge1LastParam), some (Edge2FirstParam, Edge2LastParam) =>
    match CheckPointOnCurve K Tolerance Curve1Index (K.Value Edge1 Edge1FirstParam)
        Edge1FirstParam Edge2 Edge2FirstParam Edge2LastParam Curve1Index Curve2Index with
    | some r => (true, [r])
    | none =>
    match CheckPointOnCurve K Tolerance Curve1Index (K.Value Edge1 Edge1LastParam)
        Edge1LastParam Edge2 Edge2FirstParam Edge2LastParam Curve1Index Curve2Index with
    | some r => (true, [r])
    | none =>
    match CheckPointOnCurve K Tolerance Curve1Index (K.Value Edge2 Edge2FirstParam)
        Edge2FirstParam Edge1 Edge1FirstParam Edge1LastParam Curve1Index Curve2Index with
    | some r => (true, [r])
    | none =>
    match CheckPointOnCurve K Tolerance Curve1Index (K.Value Edge2 Edge2LastParam)
        Edge2LastParam Edge1 Edge1FirstParam Edge1LastParam Curve1Index Curve2Index with
    | some r => (true, [r])
    | none => (false, [])
  | _, _ => (false, [])

/-- The loop over the common parts of one pair: the records appended to
`OutIntersections`. -/
def CommonPartRecords (K : Kernel) (Edge1 Edge2 : UGeomCurve) (i j : Nat) (Tolerance : ℚ) :
    List CommonPrt → List FCurveIntersectionInfo
  | [] => []
  | CommonPrt.Vertex Point1 Param1 Param2 :: rest =>
    { Position := Point1, Curve1Index := i, Curve2Index := j, Parameter1 := Param1,
      Parameter2 := Param2, Tolerance := Tolerance } ::
      CommonPartRecords K Edge1 Edge2 i j Tolerance rest
  | CommonPrt.Edge Range1 Ranges2 :: rest =>
    (if (ProcessEdgeOverlap K Edge1 Edge2 Range1 Ranges2 i j Tolerance).1 then
      (ProcessEdgeOverlap K Edge1 Edge2 Range1 Ranges2 i j Tolerance).2 else []) ++
      CommonPartRecords K Edge1 Edge2 i j Tolerance rest

/-- The body of the double loop of `FindCurvesIntersections` for the pair
`(i, j)`: the records that the pair appends. -/
def PairIntersections (K : Kernel) (Tolerance : ℚ) (i j : Nat) (Curve1 Curve2 : UGeomCurve) :
    List FCurveIntersectionInfo :=
  if K.IsEdge Curve1 ∧ K.IsEdge Curve2 then
    let found :=
      match K.Intersect Curve1 Curve2 Tolerance with
      | none => []
      | some parts => CommonPartRecords K Curve1 Curve2 i j Tolerance parts
    if found.length > 0 then found
    else
      let r := CheckEndpointOnSegmentIntersection K Curve1 Curve2 i j Tolerance
      if r.1 then r.2 else []
  else []

/-- The inner loop `j = i + 1 ..` of `FindCurvesIntersections`. -/
def InnerPairs (K : Kernel) (Tolerance : ℚ) (i : Nat) (Curve1 : UGeomCurve) :
    Nat → List UGeomCurve → List FCurveIntersectionInfo
  | _, [] => []
  | j, Curve2 :: rest =>
    PairIntersections K Tolerance i j Curve1 Curve2 ++ InnerPairs K Tolerance i Curve1 (j + 1) rest

/-- The outer loop over `i` of `FindCurvesIntersections`. -/
def OuterPairs (K : Kernel) (Tolerance : ℚ) : Nat → List UGeomCurve → List FCurveIntersectionInfo
  | _, [] => []
  | i, Curve1 :: rest =>
    InnerPairs K Tolerance i Curve1 (i + 1) rest ++ OuterPairs K Tolerance (i + 1) rest

/-- Embedding of `FGeomUtils::FindCurvesIntersections`: the returned flag and
`OutIntersections`. -/
def FindCurvesIntersections (K : Kernel) (InCurves : List UGeomCurve) (Tolerance : ℚ) :
    Bool × List FCurveIntersectionInfo :=
  if InCurves.length < 2 then (false, [])
  else
    let out := OuterPairs K Tolerance 0 InCurves
    (decide (out.length > 0), out)


/-! ### Statement vocabulary for the splitter -/

/-- Point of a straight segment at parameter `t`. -/
def SegValue (c : UGeomCurve) (t : ℚ) : FVector :=
  let s := (t - c.FirstParameter) / (c.LastParameter - c.FirstParameter)
  ⟨c.StartPoint.X + s * (c.EndPoint.X - c.StartPoint.X),
   c.StartPoint.Y + s * (c.EndPoint.Y - c.StartPoint.Y),
   c.StartPoint.Z + s * (c.EndPoint.Z - c.StartPoint.Z)⟩

/-- Trimmed copy of a straight segment on `[t0, t1]`; the new object gets an
identity derived from the original and from the side of the cut. -/
def SegTrim (c : UGeomCurve) (t0 t1 : ℚ) : UGeomCurve :=
  { id := 2 * c.id + (if t0 = c.FirstParameter then 10 else 11)
    kind := c.kind
    StartPoint := SegValue c t0
    EndPoint := SegValue c t1
    FirstParameter := t0
    LastParameter := t1
    Bulge := c.Bulge }

/-- Orthogonal projection of a point on a segment that is parallel to the X
axis or to the Y axis in the plane of the point: the foot exists when it falls
inside the segment, and the result is `(distance, parameter)`. -/
def SegProject (P : FVector) (c : UGeomCurve) (first last : ℚ) : Option (ℚ × ℚ) :=
  if c.StartPoint.Y = c.EndPoint.Y ∧ c.StartPoint.Z = c.EndPoint.Z ∧ P.Z = c.StartPoint.Z then
    let t := first + (P.X - c.StartPoint.X) / (c.EndPoint.X - c.StartPoint.X) * (last - first)
    if first ≤ t ∧ t ≤ last then some (|P.Y - c.StartPoint.Y|, t) else none
  else if c.StartPoint.X = c.EndPoint.X ∧ c.StartPoint.Z = c.EndPoint.Z ∧ P.Z = c.StartPoint.Z then
    let t := first + (P.Y - c.StartPoint.Y) / (c.EndPoint.Y - c.StartPoint.Y) * (last - first)
    if first ≤ t ∧ t ≤ last then some (|P.X - c.StartPoint.X|, t) else none
  else none

/-- Kernel for straight segments whose intersector finds no common part. -/
def SegKernel : Kernel where
  IsEdge := fun _ => true
  EdgeCurve := fun c => some (c.FirstParameter, c.LastParameter)
  Value := SegValue
  Intersect := fun _ _ _ => some []
  Project := SegProject
  Trim := fun c t0 t1 => some (SegTrim c t0 t1)
  WireClosed := fun _ => true
  Bounds := fun _ => ⟨⟨0, 0, 0⟩, ⟨0, 0, 0⟩, true⟩
  FaceArea := fun _ => none
  IsClockwise := fun _ => false

/-- Straight segment object from `S` to `E`, parametrised on `[0, len]`. -/
def MakeSeg (id : Nat) (S E : FVector) (len : ℚ) : UGeomCurve :=
  { id := id, kind := CurveKind.LineSegment, StartPoint := S, EndPoint := E,
    FirstParameter := 0, LastParameter := len, Bulge := 0 }

/-- Horizontal segment of the cross `X`: from `(-1, 0)` to `(1, 0)`. -/
def CrossA : UGeomCurve := MakeSeg 0 ⟨-1, 0, 0⟩ ⟨1, 0, 0⟩ 2

/-- Vertical segment of the cross `X`: from `(0, -1)` to `(0, 1)`. -/
def CrossB : UGeomCurve := MakeSeg 1 ⟨0, -1, 0⟩ ⟨0, 1, 0⟩ 2

/-- The four end point tests of `CheckEndpointOnSegmentIntersection` in source
order: the tested end point, the target curve and the target domain. -/
def EndpointTests (K : Kernel) (A B : UGeomCurve) (fa la fb lb : ℚ) :
    List (FVector × UGeomCurve × ℚ × ℚ) :=
  [(K.Value A fa, B, fb, lb), (K.Value A la, B, fb, lb),
   (K.Value B fb, A, fa, la), (K.Value B lb, A, fa, la)]

/-- The point of a test lies within `tol` of the target curve, at a parameter
more than `tol` inside the target domain. -/
def TouchesInside (K : Kernel) (tol : ℚ) (T : FVector × UGeomCurve × ℚ × ℚ) : Prop :=
  ∃ d t, K.Project T.1 T.2.1 T.2.2.1 T.2.2.2 = some (d, t) ∧ d ≤ tol ∧
    T.2.2.1 + tol < t ∧ t < T.2.2.2 - tol

/-- Stem of the T-junction: from `(5, 0)` up to `(5, 5)`. -/
def TeeStem : UGeomCurve := MakeSeg 0 ⟨5, 0, 0⟩ ⟨5, 5, 0⟩ 5

/-- Bar of the T-junction: from `(0, 0)` to `(10, 0)`; the stem starts on its
interior point `(5, 0)`, at parameter 5 of the bar. -/
def TeeBar : UGeomCurve := MakeSeg 1 ⟨0, 0, 0⟩ ⟨10, 0, 0⟩ 10

/-- A stem from `(1/20, 0)` up to `(1/20, 5)`: it starts on the bar at
parameter `1/20`, inside the domain of the bar but less than the tolerance
`1/10` away from its first parameter. -/
def TeeStemNearEnd : UGeomCurve := MakeSeg 0 ⟨1 / 20, 0, 0⟩ ⟨1 / 20, 5, 0⟩ 5

/-! ## Connectivity-DFS loop finder (`GetClosedCurvesListFromUnorderCurves`) -/

/-- Embedding of `FGeomUtils::AreCurvesConnectedNoOrder`: some end point of the
first curve is closer than `Tolerance` to some end point of the second. -/
def AreCurvesConnectedNoOrder (c1 c2 : UGeomCurve) (Tolerance : ℚ) : Bool :=
  c1.StartPoint.DistLt c2.StartPoint Tolerance ||
  c1.EndPoint.DistLt c2.StartPoint Tolerance ||
  c1.StartPoint.DistLt c2.EndPoint Tolerance ||
  c1.EndPoint.DistLt c2.EndPoint Tolerance

/-- The test of `RemoveRepeatedLines` under which `Curves[j] = c2` is removed
as a repetition of `Curves[i] = c1`. -/
def IsRepeatedLine (Tolerance : ℚ) (c1 c2 : UGeomCurve) : Bool :=
  c1.IsTrimmedCurve && c2.IsTrimmedCurve &&
    (let BulgeDiff := |c1.Bulge - c2.Bulge|
     let BulgeOpp := |c1.Bulge + c2.Bulge|
     (decide (BulgeDiff ≤ Tolerance) || decide (BulgeOpp ≤ Tolerance)) &&
      (let bSameForward :=
          c1.StartPoint.Equals c2.StartPoint Tolerance && c1.EndPoint.Equals c2.EndPoint Tolerance
       let bSameReverse :=
          c1.StartPoint.Equals c2.EndPoint Tolerance && c1.EndPoint.Equals c2.StartPoint Tolerance
       if !(c1.IsArcOfCircle && c2.IsArcOfCircle) then bSameForward || bSameReverse
       else (bSameForward && decide (BulgeDiff ≤ Tolerance)) ||
            (bSameReverse && decide (BulgeOpp ≤ Tolerance))))

/-- Embedding of `FGeomUtils::RemoveRepeatedLines`. For each `i` the inner loop
runs `j` from the end down to `i + 1` and removes every `Curves[j]` that
repeats `Curves[i]`; the outer loop then goes on with what is left. -/
def RemoveRepeatedLines (Tolerance : ℚ) : List UGeomCurve → List UGeomCurve
  | [] => []
  | c :: rest =>
    c :: RemoveRepeatedLines Tolerance (rest.filter (fun d => !IsRepeatedLine Tolerance c d))
termination_by l => l.length
decreasing_by
  simp only [List.length_cons]
  exact Nat.lt_succ_of_le (List.length_filter_le _ _)

/-- Model of `TMap<UGeomCurve*, TArray<UGeomCurve*>>::Find`, keyed by object identity. -/
def MapFind : List (Nat × List UGeomCurve) → Nat → Option (List UGeomCurve)
  | [], _ => none
  | (k0, l) :: rest, k => if k0 = k then some l else MapFind rest k

/-- Model of `ConnectionMap.FindOrAdd(Curve1).Add(Curve2)`. -/
def MapFindOrAddPush : List (Nat × List UGeomCurve) → Nat → UGeomCurve →
    List (Nat × List UGeomCurve)
  | [], k, v => [(k, [v])]
  | (k0, l) :: rest, k, v =>
    if k0 = k then (k0, l ++ [v]) :: rest else (k0, l) :: MapFindOrAddPush rest k v

/-- The double loop that builds `ConnectionMap`: `Curve2` is filed under
`Curve1` when they are different objects with a common end point. -/
def BuildConnectionMap (eps : ℚ) (Curves : List UGeomCurve) : List (Nat × List UGeomCurve) :=
  Curves.foldl
    (fun m Curve1 =>
      Curves.foldl
        (fun m2 Curve2 =>
          if Curve1.id ≠ Curve2.id ∧ AreCurvesConnectedNoOrder Curve1 Curve2 eps = true then
            MapFindOrAddPush m2 Curve1.id Curve2
          else m2) m) []

/-- The value `ConnectionMap[Curve]` when the key is present, else the empty array. -/
def Connections (cmap : List (Nat × List UGeomCurve)) (c : UGeomCurve) : List UGeomCurve :=
  (MapFind cmap c.id).getD []

/-- An entry of the DFS stack: the marker object `MarkCurve`, or a curve. -/
inductive StackItem where
  | mark
  | curve (c : UGeomCurve)

/-- The pop of the stack top together with the inner `while (CurrentCurve ==
MarkCurve)` loop. `top` is the popped element and `rest` the stack below it
(head first); `rpath` is `CurrentPath` with its last element first. The result
is `CurrentCurve` (`none` for the null pointer), the stack and the path. -/
def PopMarks : StackItem → List StackItem → List UGeomCurve →
    Option UGeomCurve × List StackItem × List UGeomCurve
  | StackItem.curve c, rest, rpath => (some c, rest, rpath)
  | StackItem.mark, [], rpath => (none, [], rpath)
  | StackItem.mark, x :: rest, rpath => PopMarks x rest rpath.tail

/-- One round of the loop `for (ConnectedCurve : ConnectionMap[CurrentCurve])`.
The state is the stack and `ClosedCurvesList`; `start` is `Curves[i]`. -/
def VisitConnected (cmap : List (Nat × List UGeomCurve)) (start : UGeomCurve)
    (rpath : List UGeomCurve) (st : List StackItem × List (List UGeomCurve))
    (ConnectedCurve : UGeomCurve) : List StackItem × List (List UGeomCurve) :=
  if ConnectedCurve.id = start.id then
    if rpath.length > 2 then (st.1, st.2 ++ [rpath.reverse])
    else
      match rpath with
      | [p1, p0] =>
        if p0.IsArcOfCircle && p1.IsArcOfCircle then (st.1, st.2 ++ [rpath.reverse]) else st
      | _ => st
  else if ContainsPtr rpath ConnectedCurve then st
  else
    match rpath with
    | _ :: secondLast :: _ :: _ =>
      if ContainsPtr (Connections cmap ConnectedCurve) secondLast then st
      else (StackItem.curve ConnectedCurve :: st.1, st.2)
    | _ => (StackItem.curve ConnectedCurve :: st.1, st.2)

/-- The loop `while (Stack.Num() > 0)` of one search, with a bound on the
number of rounds; `none` when the bound is used up before the stack is empty.
The stack has its top first, `rpath` is `CurrentPath` reversed. -/
def DfsLoop (cmap : List (Nat × List UGeomCurve)) (start : UGeomCurve) :
    Nat → List StackItem → List UGeomCurve → List (List UGeomCurve) →
    Option (List (List UGeomCurve))
  | _, [], _, acc => some acc
  | 0, _ :: _, _, _ => none
  | fuel + 1, top :: rest, rpath, acc =>
    match PopMarks top rest rpath with
    | (none, stack1, rpath1) => DfsLoop cmap start fuel stack1 rpath1 acc
    | (some CurrentCurve, stack1, rpath1) =>
      if ContainsPtr rpath1 CurrentCurve then DfsLoop cmap start fuel stack1 rpath1 acc
      else
        let st := (Connections cmap CurrentCurve).foldl
          (VisitConnected cmap start (CurrentCurve :: rpath1))
          (StackItem.mark :: stack1, acc)
        DfsLoop cmap start fuel st.1 (CurrentCurve :: rpath1) st.2

/-- Number of rounds that always suffices for `DfsLoop` (see
`DfsLoop_terminates`): with `M` the total size of the connection lists,
`(M + 2) ^ (M + 2) + 1`. -/
def DfsFuel (cmap : List (Nat × List UGeomCurve)) : Nat :=
  ((cmap.flatMap (fun e => e.2)).length + 2) ^ ((cmap.flatMap (fun e => e.2)).length + 2) + 1

/-- The flag `bNeedCalc` for `Curves[i] = c`, where `before` are the curves
`Curves[0 .. i-1]`. -/
def NeedCalc (cmap : List (Nat × List UGeomCurve)) (before : List UGeomCurve)
    (c : UGeomCurve) : Bool :=
  match MapFind cmap c.id with
  | none => false
  | some ConnectedCurve =>
    if ConnectedCurve.length < 1 then false
    else if ConnectedCurve.length = 2 then
      !(before.any (fun cj => ContainsPtr ConnectedCurve cj &&
          (match MapFind cmap cj.id with
           | some l => decide (l.length ≤ 2)
           | none => false)))
    else true

/-- The loop `for i` over the start curves: `before` are the curves already
passed, the second list those still to come. -/
def SearchAll (cmap : List (Nat × List UGeomCurve)) (fuel : Nat) :
    List UGeomCurve → List UGeomCurve → List (List UGeomCurve) → Option (List (List UGeomCurve))
  | _, [], acc => some acc
  | before, c :: rest, acc =>
    if NeedCalc cmap before c then
      match DfsLoop cmap c fuel [StackItem.curve c] [] acc with
      | none => none
      | some acc1 => SearchAll cmap fuel (before ++ [c]) rest acc1
    else SearchAll cmap fuel (before ++ [c]) rest acc

/-- Model of `TMap<FVector, int>::Add`: the value of an existing key is
replaced, a new key is appended. -/
def PointCountAdd : List (FVector × Nat) → FVector → Nat → List (FVector × Nat)
  | [], k, v => [(k, v)]
  | (k0, v0) :: rest, k, v =>
    if k0 = k then (k0, v) :: rest else (k0, v0) :: PointCountAdd rest k v

/-- One round of the loop of `IsValidTriangle` over the curves: every stored
point that equals `Start` within `eps` is counted once more, likewise for
`End`, and a point that matched nothing is added with count 1. -/
def TriangleStep (eps : ℚ) (Data : List (FVector × Nat)) (c : UGeomCurve) :
    List (FVector × Nat) :=
  let bAddedStart := Data.any (fun e => e.1.Equals c.StartPoint eps)
  let bAddedEnd := Data.any (fun e => e.1.Equals c.EndPoint eps)
  let Data1 := Data.map (fun e =>
    (e.1, e.2 + (if e.1.Equals c.StartPoint eps then 1 else 0)
            + (if e.1.Equals c.EndPoint eps then 1 else 0)))
  let Data2 := if bAddedStart then Data1 else PointCountAdd Data1 c.StartPoint 1
  if bAddedEnd then Data2 else PointCountAdd Data2 c.EndPoint 1

/-- Embedding of `FGeomUtils::IsValidTriangle`. -/
def IsValidTriangle (eps : ℚ) (Curves : List UGeomCurve) : Bool :=
  if Curves.length ≠ 3 then false
  else
    let Data := Curves.foldl (TriangleStep eps) []
    decide (Data.length = 3) && Data.all (fun e => decide (e.2 = 2))

/-- The test of the loop that removes the T-shaped false regions: `true` when
the loop is kept. -/
def LoopIsValid (eps : ℚ) (cmap : List (Nat × List UGeomCurve)) (Loop : List UGeomCurve) :
    Bool :=
  if Loop.length = 3 then IsValidTriangle eps Loop
  else if Loop.length > 3 then
    !((List.range Loop.length).any (fun j =>
        match Loop[j]?, Loop[(j + Loop.length - 2) % Loop.length]? with
        | some cj, some ck => ContainsPtr (Connections cmap cj) ck
        | _, _ => false))
  else if Loop.length = 2 then
    match Loop with
    | [p0, p1] => p0.IsArcOfCircle && p1.IsArcOfCircle
    | _ => false
  else false

/-- The test of the loop that removes repeated loops: `Lj` has the size of
`Li` and every curve of `Lj` is in `Li`. -/
def IsSameLoop (Li Lj : List UGeomCurve) : Bool :=
  decide (Li.length = Lj.length) && Lj.all (fun c => ContainsPtr Li c)

/-- The loop that removes repeated loops: for each `i`, every later loop that
repeats loop `i` is removed. -/
def RemoveRepeatedLoops : List (List UGeomCurve) → List (List UGeomCurve)
  | [] => []
  | L :: rest => L :: RemoveRepeatedLoops (rest.filter (fun L2 => !IsSameLoop L L2))
termination_by l => l.length
decreasing_by
  simp only [List.length_cons]
  exact Nat.lt_succ_of_le (List.length_filter_le _ _)

/-- Embedding of `FGeomUtils::GetClosedCurvesListFromUnorderCurves`.
`sortGroups` is `BuildConnectedGeometryGroups`, `tolRep` the default tolerance
of `RemoveRepeatedLines`, `eps` is `FPrecision::Confusion()`. Each search runs
with `DfsFuel` rounds, which `DfsLoop_terminates` shows to be enough; the
result is `ClosedCurvesList`. -/
def GetClosedCurvesListFromUnorderCurves (sortGroups : List UGeomCurve → List UGeomCurve)
    (tolRep eps : ℚ) (InCurves : List UGeomCurve) : List (List UGeomCurve) :=
  if InCurves.length = 0 then []
  else
    let Curves := sortGroups (RemoveRepeatedLines tolRep InCurves)
    let cmap := BuildConnectionMap eps Curves
    let found := (SearchAll cmap (DfsFuel cmap) [] Curves []).getD []
    RemoveRepeatedLoops (found.filter (LoopIsValid eps cmap))

/-! ### Termination measure of the search loop -/

/-- Number of marker entries on a stack. -/
def MarkCount : List StackItem → Nat
  | [] => 0
  | StackItem.mark :: s => MarkCount s + 1
  | StackItem.curve _ :: s => MarkCount s

/-- Termination measure of `DfsLoop`: a marker weighs 1, a curve that lies above
`d` markers weighs `(M + 2) ^ (M + 1 - d + 1)`. -/
def StackWeight (M : Nat) : List StackItem → Nat
  | [] => 0
  | StackItem.mark :: s => StackWeight M s + 1
  | StackItem.curve _ :: s => StackWeight M s + (M + 2) ^ (M + 1 - MarkCount s + 1)

/-- The object identities that a search from `start` can meet. -/
def SearchUniverse (cmap : List (Nat × List UGeomCurve)) (start : UGeomCurve) : List Nat :=
  start.id :: (cmap.flatMap (fun e => e.2)).map (fun c => c.id)

/-- Invariant of `DfsLoop`: as many markers on the stack as curves on the path,
no object twice on the path, and only known objects on path and stack. -/
def DfsInv (cmap : List (Nat × List UGeomCurve)) (start : UGeomCurve)
    (stack : List StackItem) (rpath : List UGeomCurve) : Prop :=
  MarkCount stack = rpath.length ∧ (rpath.map (fun c => c.id)).Nodup ∧
    (∀ c ∈ rpath, c.id ∈ SearchUniverse cmap start) ∧
    (∀ c, StackItem.curve c ∈ stack → c.id ∈ SearchUniverse cmap start)

/-- The curves of `Curves` that the connection map files under `Curve1` in one
pass of the inner loop. -/
def ConnectedTo (eps : ℚ) (Curves : List UGeomCurve) (Curve1 : UGeomCurve) : List UGeomCurve :=
  Curves.filter (fun Curve2 =>
    decide (Curve1.id ≠ Curve2.id) && AreCurvesConnectedNoOrder Curve1 Curve2 eps)

/-- Invariant of `DfsLoop` with respect to the curve array: no object twice on
the path, and path and stack hold curves of the array only. -/
def DfsGood (Curves : List UGeomCurve) (stack : List StackItem) (rpath : List UGeomCurve) :
    Prop :=
  (rpath.map (fun c => c.id)).Nodup ∧ (∀ c ∈ rpath, c ∈ Curves) ∧
    (∀ c, StackItem.curve c ∈ stack → c ∈ Curves)

/-- A loop without repeated object, made of curves of the array. -/
def LoopGood (Curves : List UGeomCurve) (L : List UGeomCurve) : Prop :=
  (L.map (fun c => c.id)).Nodup ∧ ∀ c ∈ L, c ∈ Curves

/-! ## Region classifier -/

/-- A discovered closed loop (`FClosedRegion`). -/
structure FClosedRegion where
  BoundaryCurves : List UGeomCurve
  BoundingBox : FBox
  Area : ℚ
  CenterPoint : FVector
  bIsClockwise : Bool
  bIsOuterBoundary : Bool

/-- The body of the loop of `IdentifyClosedRegionsFromSplitCurves` over the
closed curve groups: the region appended for `CurveGroup`, if any.
`Curve->PointAtParameter(Curve->GetFirstParameter())` is `StartPoint`. -/
def RegionOfGroup (K : Kernel) (CurveGroup : List UGeomCurve) : Option FClosedRegion :=
  if CurveGroup.length < 3 then none
  else if K.WireClosed CurveGroup = false then none
  else
    let BoundingBox := K.Bounds CurveGroup
    let Area : ℚ := (K.FaceArea CurveGroup).getD 0
    let CenterPoint : FVector := if BoundingBox.IsValid then BoundingBox.GetCenter else ⟨0, 0, 0⟩
    let Points := CurveGroup.map (fun c => c.StartPoint)
    let bIsClockwise := if Points.length ≥ 3 then K.IsClockwise Points else false
    if Area > 1 ∧ BoundingBox.IsValid = true then
      some { BoundaryCurves := CurveGroup, BoundingBox := BoundingBox, Area := Area,
             CenterPoint := CenterPoint, bIsClockwise := bIsClockwise,
             bIsOuterBoundary := true }
    else none

/-- Embedding of `FGeomUtils::IdentifyClosedRegionsFromSplitCurves`: the
returned flag and `OutClosedRegions`. The parameter `Tolerance` of the source
is not used by its body and is left out. -/
def IdentifyClosedRegionsFromSplitCurves (K : Kernel)
    (sortGroups : List UGeomCurve → List UGeomCurve) (tolRep eps : ℚ)
    (InSplitCurves : List UGeomCurve) : Bool × List FClosedRegion :=
  if InSplitCurves.length < 3 then (false, [])
  else
    let ClosedCurveGroups := GetClosedCurvesListFromUnorderCurves sortGroups tolRep eps InSplitCurves
    let out := ClosedCurveGroups.filterMap (RegionOfGroup K)
    (decide (out.length > 0), out)

/-- The test `a.Equals(b, Tol)` of `FVector2D`. -/
def FVector2D.Equals (a b : FVector2D) (Tol : ℚ) : Bool :=
  decide (|a.X - b.X| ≤ Tol) && decide (|a.Y - b.Y| ≤ Tol)

/-- The loop of `IsPointInOrOnPolygon2D` over the polygon edges, each given as
`(P1, P2) = (InPolygon[i], InPolygon[j])`; `bInside` is the running parity. -/
def PolygonScan (InPoint : FVector2D) (Tolerance : ℚ) :
    List (FVector2D × FVector2D) → Bool → Bool
  | [], bInside => bInside
  | (P1, P2) :: rest, bInside =>
    if |InPoint.X - P1.X| < Tolerance ∧ |InPoint.Y - P1.Y| < Tolerance then true
    else if |P1.Y - P2.Y| < Tolerance ∧ |InPoint.Y - P1.Y| < Tolerance ∧
        InPoint.X ≥ min P1.X P2.X ∧ InPoint.X ≤ max P1.X P2.X then true
    else if |P1.X - P2.X| < Tolerance ∧ |InPoint.X - P1.X| < Tolerance ∧
        InPoint.Y ≥ min P1.Y P2.Y ∧ InPoint.Y ≤ max P1.Y P2.Y then true
    else if decide (P1.Y > InPoint.Y) ≠ decide (P2.Y > InPoint.Y) then
      if InPoint.X ≤ (P2.X - P1.X) * (InPoint.Y - P1.Y) / (P2.Y - P1.Y) + P1.X then
        PolygonScan InPoint Tolerance rest (!bInside)
      else PolygonScan InPoint Tolerance rest bInside
    else PolygonScan InPoint Tolerance rest bInside

/-- The pairs `(InPolygon[i], InPolygon[j])` visited by `for (i = 0, j = Num - 1;
i < Num; j = i++)`: every vertex with its predecessor, the first with the last. -/
def PolygonEdges (InPolygon : List FVector2D) : List (FVector2D × FVector2D) :=
  match InPolygon.getLast? with
  | none => []
  | some last => List.zip InPolygon (last :: InPolygon.dropLast)

/-- Embedding of `FGeomUtils::IsPointInOrOnPolygon2D`. -/
def IsPointInOrOnPolygon2D (InPoint : FVector2D) (InPolygon : List FVector2D)
    (Tolerance : ℚ) : Bool :=
  if InPolygon.length < 3 then false
  else PolygonScan InPoint Tolerance (PolygonEdges InPolygon) false

/-- The loop of `IsPointInClosedRegion` that removes repeated neighbours: it
runs from the end, so a point is dropped exactly when it equals its
predecessor in the original array. `prev` is that predecessor. -/
def DropRepeats (Tolerance : ℚ) : FVector2D → List FVector2D → List FVector2D
  | _, [] => []
  | prev, x :: rest =>
    if x.Equals prev Tolerance then DropRepeats Tolerance x rest
    else x :: DropRepeats Tolerance x rest

/-- The polygon that `IsPointInClosedRegion` builds from the boundary curves:
their start points, without repeated neighbours and without a last point that
repeats the first. -/
def RegionPolygon (Tolerance : ℚ) (R : FClosedRegion) : List FVector2D :=
  let pts : List FVector2D := R.BoundaryCurves.map (fun c => ⟨c.StartPoint.X, c.StartPoint.Y⟩)
  let pts1 :=
    match pts with
    | [] => []
    | a :: rest => a :: DropRepeats Tolerance a rest
  match pts1.head?, pts1.getLast? with
  | some first, some last => if first.Equals last Tolerance then pts1.dropLast else pts1
  | _, _ => pts1

/-- Embedding of `FGeomUtils::IsPointInClosedRegion`. -/
def IsPointInClosedRegion (InPoint : FVector) (InRegion : FClosedRegion) (Tolerance : ℚ) : Bool :=
  if InRegion.BoundaryCurves.length < 3 then false
  else if InRegion.BoundingBox.IsValid = true ∧
      (InPoint.X < InRegion.BoundingBox.Min.X - Tolerance ∨
       InPoint.X > InRegion.BoundingBox.Max.X + Tolerance ∨
       InPoint.Y < InRegion.BoundingBox.Min.Y - Tolerance ∨
       InPoint.Y > InRegion.BoundingBox.Max.Y + Tolerance ∨
       InPoint.Z < InRegion.BoundingBox.Min.Z - Tolerance ∨
       InPoint.Z > InRegion.BoundingBox.Max.Z + Tolerance) then false
  else if (RegionPolygon Tolerance InRegion).length < 3 then false
  else IsPointInOrOnPolygon2D ⟨InPoint.X, InPoint.Y⟩ (RegionPolygon Tolerance InRegion) Tolerance

/-- Model of `TMap<int32, TArray<int32>>::FindOrAdd(Key).AddUnique(Value)`. -/
def NestingAddUnique : List (Nat × List Nat) → Nat → Nat → List (Nat × List Nat)
  | [], k, v => [(k, [v])]
  | (k0, l) :: rest, k, v =>
    if k0 = k then (k0, if v ∈ l then l else l ++ [v]) :: rest
    else (k0, l) :: NestingAddUnique rest k v

/-- The test of `AnalyzeRegionNesting` for the ordered pair inner, outer: the
centre point of the inner region and both end points of each of its boundary
curves test inside the outer region. -/
def IsNestedIn (tolRegion : ℚ) (InnerRegion OuterRegion : FClosedRegion) : Bool :=
  IsPointInClosedRegion InnerRegion.CenterPoint OuterRegion tolRegion &&
    InnerRegion.BoundaryCurves.all (fun c =>
      IsPointInClosedRegion c.StartPoint OuterRegion tolRegion &&
      IsPointInClosedRegion c.EndPoint OuterRegion tolRegion)

/-- Embedding of `FGeomUtils::AnalyzeRegionNesting`: the returned flag and
`OutNestingRelations`. `tolRegion` is the default tolerance of
`IsPointInClosedRegion`. -/
def AnalyzeRegionNesting (tolRegion : ℚ) (InRegions : List FClosedRegion) :
    Bool × List (Nat × List Nat) :=
  if InRegions.length < 2 then (true, [])
  else
    (true,
      (List.range InRegions.length).foldl (fun m i =>
        (List.range InRegions.length).foldl (fun m2 j =>
          if i = j then m2
          else
            match InRegions[i]?, InRegions[j]? with
            | some InnerRegion, some OuterRegion =>
              if IsNestedIn tolRegion InnerRegion OuterRegion then NestingAddUnique m2 j i else m2
            | _, _ => m2) m) [])

/-- A star of straight fragments: every curve is a line segment that starts or
ends at `center`. -/
def IsStar (center : FVector) (cs : List UGeomCurve) : Prop :=
  ∀ c ∈ cs, c.kind = CurveKind.LineSegment ∧ (c.StartPoint = center ∨ c.EndPoint = center)

/-- The four fragments of the cross, as the splitter emits them: they share the
end point `(0, 0)`, their other end points are the four tips. -/
def CrossFragments : List UGeomCurve :=
  [SegTrim CrossA 0 1, SegTrim CrossA 1 2, SegTrim CrossB 0 1, SegTrim CrossB 1 2]

/-! ### Inputs of the square scenarios -/

/-- Side of the unit square from `(0, 0)` to `(1, 0)`. -/
def Sq0 : UGeomCurve := MakeSeg 0 ⟨0, 0, 0⟩ ⟨1, 0, 0⟩ 1

/-- Side of the unit square from `(1, 0)` to `(1, 1)`. -/
def Sq1 : UGeomCurve := MakeSeg 1 ⟨1, 0, 0⟩ ⟨1, 1, 0⟩ 1

/-- Side of the unit square from `(1, 1)` to `(0, 1)`. -/
def Sq2 : UGeomCurve := MakeSeg 2 ⟨1, 1, 0⟩ ⟨0, 1, 0⟩ 1

/-- Side of the unit square from `(0, 1)` to `(0, 0)`. -/
def Sq3 : UGeomCurve := MakeSeg 3 ⟨0, 1, 0⟩ ⟨0, 0, 0⟩ 1

/-- The four line segments of the unit square `(0,0)-(1,0)-(1,1)-(0,1)-(0,0)`. -/
def UnitSquare : List UGeomCurve := [Sq0, Sq1, Sq2, Sq3]

/-- A kernel that reports every curve group as a closed wire with the bounding
box of the unit square and a face of area `area`. -/
def ConstKernel (area : ℚ) : Kernel where
  IsEdge := fun _ => true
  EdgeCurve := fun c => some (c.FirstParameter, c.LastParameter)
  Value := SegValue
  Intersect := fun _ _ _ => some []
  Project := SegProject
  Trim := fun c t0 t1 => some (SegTrim c t0 t1)
  WireClosed := fun _ => true
  Bounds := fun _ => ⟨⟨0, 0, 0⟩, ⟨1, 1, 0⟩, true⟩
  FaceArea := fun _ => some area
  IsClockwise := fun _ => false

/-! ### Aids for evaluating the loop finder on explicit inputs -/

/-- The double loop of `BuildConnectionMap` with an arbitrary connection test. -/
def BuildConnectionMapWith (conn : UGeomCurve → UGeomCurve → Bool) (Curves : List UGeomCurve) :
    List (Nat × List UGeomCurve) :=
  Curves.foldl
    (fun m Curve1 =>
      Curves.foldl
        (fun m2 Curve2 =>
          if Curve1.id ≠ Curve2.id ∧ conn Curve1 Curve2 = true then
            MapFindOrAddPush m2 Curve1.id Curve2
          else m2) m) []

/-- The loop that removes repeated loops, with a bound on its rounds; the
length of the array is enough rounds (`RemoveRepeatedLoops_eq_fuel`). -/
def RemoveRepeatedLoopsFuel : Nat → List (List UGeomCurve) → List (List UGeomCurve)
  | 0, _ => []
  | _ + 1, [] => []
  | n + 1, L :: rest => L :: RemoveRepeatedLoopsFuel n (rest.filter (fun L2 => !IsSameLoop L L2))

/-- All ways to put `a` into a list. -/
def InsertAll (a : UGeomCurve) : List UGeomCurve → List (List UGeomCurve)
  | [] => [[a]]
  | b :: l => (a :: b :: l) :: (InsertAll a l).map (fun t => b :: t)

/-- All orders of a list of curves. -/
def Perms : List UGeomCurve → List (List UGeomCurve)
  | [] => [[]]
  | a :: l => (Perms l).flatMap (InsertAll a)

/-- Adjacency of the sides of a square whose sides are numbered 0 to 3 around
it: consecutive numbers modulo 4. -/
def SqAdj (a b : UGeomCurve) : Bool :=
  decide ((a.id + 1) % 4 = b.id % 4 ∨ (b.id + 1) % 4 = a.id % 4)

/-- The outcome of the loop search on the curve order `p` with the connection
test `conn`, given `fuel` rounds, and with the loop filter at tolerance 0. -/
def SearchOutcome (conn : UGeomCurve → UGeomCurve → Bool) (fuel : Nat) (p : List UGeomCurve) :
    Option (List (List UGeomCurve)) :=
  (SearchAll (BuildConnectionMapWith conn p) fuel [] p []).map (fun found =>
    RemoveRepeatedLoopsFuel found.length
      (found.filter (LoopIsValid 0 (BuildConnectionMapWith conn p))))

/-- Check of the loop search on one order `p` of the sides of a square `sq`:
the search ends within 40 rounds, finds no loop of three curves, and leaves
exactly one loop, which is made of the four sides. -/
def SquareOrderOk (sq p : List UGeomCurve) : Bool :=
  match SearchAll (BuildConnectionMapWith SqAdj p) 40 [] p [] with
  | none => false
  | some found =>
    found.all (fun L => decide (L.length ≠ 3)) &&
      (match SearchOutcome SqAdj 40 p with
       | some [L] => decide (L.Perm sq)
       | _ => false)

/-! ### Statement vocabulary for the triangle scenario -/

/-- A straight segment between `A` and `B`, in either direction. -/
def IsSide (c : UGeomCurve) (A B : FVector) : Prop :=
  c.kind = CurveKind.LineSegment ∧ c.Bulge = 0 ∧
    ((c.StartPoint = A ∧ c.EndPoint = B) ∨ (c.StartPoint = B ∧ c.EndPoint = A))

/-- The three points are pairwise different beyond the tolerance: no two of
them are equal within `tol` in the sense of `FVector::Equals`. -/
def Separated (tol : ℚ) (P Q R : FVector) : Prop :=
  P.Equals Q tol = false ∧ Q.Equals R tol = false ∧ R.Equals P tol = false

/-- Side `(0,0)-(4,0)` of a 3-4-5 triangle. -/
def Tri0 : UGeomCurve := MakeSeg 0 ⟨0, 0, 0⟩ ⟨4, 0, 0⟩ 4

/-- Side `(4,0)-(0,3)` of the triangle. -/
def Tri1 : UGeomCurve := MakeSeg 1 ⟨4, 0, 0⟩ ⟨0, 3, 0⟩ 5

/-- Side `(0,3)-(0,0)` of the triangle. -/
def Tri2 : UGeomCurve := MakeSeg 2 ⟨0, 3, 0⟩ ⟨0, 0, 0⟩ 3

/-- A fourth object: the side `(0,0)-(4,0)` once more, reversed. -/
def TriDup : UGeomCurve := MakeSeg 3 ⟨4, 0, 0⟩ ⟨0, 0, 0⟩ 4

/-! ### Inputs of the nested squares scenarios -/

/-- The four sides of the axis-parallel square with corners `(x0, y0)` and
`(x1, y1)`, counter-clockwise from `(x0, y0)`, as objects `base .. base + 3`. -/
def SquareSides (base : Nat) (x0 y0 x1 y1 : ℚ) : List UGeomCurve :=
  [MakeSeg base ⟨x0, y0, 0⟩ ⟨x1, y0, 0⟩ (x1 - x0),
   MakeSeg (base + 1) ⟨x1, y0, 0⟩ ⟨x1, y1, 0⟩ (y1 - y0),
   MakeSeg (base + 2) ⟨x1, y1, 0⟩ ⟨x0, y1, 0⟩ (x1 - x0),
   MakeSeg (base + 3) ⟨x0, y1, 0⟩ ⟨x0, y0, 0⟩ (y1 - y0)]

/-- The 2x2 square `(0,0)-(2,2)`. -/
def Outer2 : List UGeomCurve := SquareSides 0 0 0 2 2

/-- The 1x1 square `(1/2,1/2)-(3/2,3/2)`, inside `Outer2` without touching it. -/
def Inner1 : List UGeomCurve := SquareSides 4 (1 / 2) (1 / 2) (3 / 2) (3 / 2)

/-- The 4x4 square `(0,0)-(4,4)`. -/
def Outer4 : List UGeomCurve := SquareSides 0 0 0 4 4

/-- The 2x2 square `(1,1)-(3,3)`, inside `Outer4` without touching it. -/
def Inner2 : List UGeomCurve := SquareSides 4 1 1 3 3

/-- Adjacency of the sides of two squares numbered 0 to 3 and 4 to 7: sides of
the same square with consecutive numbers modulo 4. -/
def TwoSqAdj (a b : UGeomCurve) : Bool :=
  decide (a.id / 4 = b.id / 4 ∧ ((a.id + 1) % 4 = b.id % 4 ∨ (b.id + 1) % 4 = a.id % 4))

/-- The curves of `l` at the given positions, in that order. -/
def Pick (l : List UGeomCurve) (idx : List Nat) : List UGeomCurve :=
  idx.filterMap (fun i => l[i]?)

/-- The region record that `RegionOfGroup` builds for the loop `L` when the
kernel reports the box `box` and the area `area` for it. -/
def RegionWith (K : Kernel) (L : List UGeomCurve) (box : FBox) (area : ℚ) : FClosedRegion :=
  { BoundaryCurves := L, BoundingBox := box, Area := area, CenterPoint := box.GetCenter,
    bIsClockwise := K.IsClockwise (L.map (fun c => c.StartPoint)), bIsOuterBoundary := true }

/-- Twice the signed area of the polygon through the given points (shoelace
sum over consecutive points, the last joined to the first). -/
def ShoelaceSum (pts : List FVector) : ℚ :=
  match pts.head? with
  | none => 0
  | some first =>
    ((List.zip pts (pts.tail ++ [first])).map (fun e => e.1.X * e.2.Y - e.2.X * e.1.Y)).sum

/-- A kernel for closed polygons of straight segments in the XY plane: every
group is a closed wire, its box is the box of the start points of its curves,
and its face area is the area of the polygon through these start points. -/
def PolyKernel : Kernel where
  IsEdge := fun _ => true
  EdgeCurve := fun c => some (c.FirstParameter, c.LastParameter)
  Value := SegValue
  Intersect := fun _ _ _ => some []
  Project := SegProject
  Trim := fun c t0 t1 => some (SegTrim c t0 t1)
  WireClosed := fun _ => true
  Bounds := fun L =>
    match L with
    | [] => ⟨⟨0, 0, 0⟩, ⟨0, 0, 0⟩, false⟩
    | c :: cs =>
      ⟨⟨cs.foldl (fun m d => min m d.StartPoint.X) c.StartPoint.X,
        cs.foldl (fun m d => min m d.StartPoint.Y) c.StartPoint.Y,
        cs.foldl (fun m d => min m d.StartPoint.Z) c.StartPoint.Z⟩,
       ⟨cs.foldl (fun m d => max m d.StartPoint.X) c.StartPoint.X,
        cs.foldl (fun m d => max m d.StartPoint.Y) c.StartPoint.Y,
        cs.foldl (fun m d => max m d.StartPoint.Z) c.StartPoint.Z⟩, true⟩
  FaceArea := fun L => some (|ShoelaceSum (L.map (fun c => c.StartPoint))| / 2)
  IsClockwise := fun L => decide (ShoelaceSum L < 0)

/-! ## Half-edge face tracer (`FindLoopsFromCurves`) -/

/-- Directed traversal unit (`FHalfEdge`). -/
structure FHalfEdge where
  Curve : UGeomCurve
  StartPoint : FVector
  EndPoint : FVector
  bReversed : Bool
  StartVertexId : Nat
  EndVertexId : Nat

/-- Vertex of the planar graph with the half-edges that leave it
(`FPlanarVertex`). -/
structure FPlanarVertex where
  Position : FVector
  OutgoingHalfEdges : List Nat

/-- The tables that the first loop of `FindLoopsFromCurves` fills: `Vertices`,
`HalfEdges` and `VertexMap` (in insertion order). -/
structure PlanarTables where
  Vertices : List FPlanarVertex
  HalfEdges : List FHalfEdge
  VertexMap : List (FVector × Nat)

/-- Model of `TMap<FVector, int32>::Add`: the value of an existing key is
replaced, a new key is appended. -/
def VertexMapAdd : List (FVector × Nat) → FVector → Nat → List (FVector × Nat)
  | [], k, v => [(k, v)]
  | (k0, v0) :: rest, k, v =>
    if k0 = k then (k0, v) :: rest else (k0, v0) :: VertexMapAdd rest k v

/-- The search for the vertex of a point, or its creation: the first entry of
`VertexMap` closer than `Tolerance` gives the id; without one a new vertex is
appended. -/
def FindOrCreateVertex (Tolerance : ℚ) (g : PlanarTables) (P : FVector) : PlanarTables × Nat :=
  match g.VertexMap.find? (fun pr => pr.1.DistLt P Tolerance) with
  | some pr => (g, pr.2)
  | none =>
    ({ Vertices := g.Vertices ++ [{ Position := P, OutgoingHalfEdges := [] }]
       HalfEdges := g.HalfEdges
       VertexMap := VertexMapAdd g.VertexMap P g.Vertices.length }, g.Vertices.length)

/-- The statement `Vertices[VertexId].OutgoingHalfEdges.Add(HalfEdgeId)`. -/
def AddOutgoing (Vertices : List FPlanarVertex) (VertexId HalfEdgeId : Nat) :
    List FPlanarVertex :=
  Vertices.modify
    (fun v => { Position := v.Position, OutgoingHalfEdges := v.OutgoingHalfEdges ++ [HalfEdgeId] })
    VertexId

/-- The body of the loop over `InCurves` that builds the tables: both end
points get their vertex, a curve with both ends on one vertex is skipped, any
other curve adds its forward and its backward half-edge. -/
def AddCurveToTables (Tolerance : ℚ) (g : PlanarTables) (Curve : UGeomCurve) : PlanarTables :=
  let r1 := FindOrCreateVertex Tolerance g Curve.StartPoint
  let r2 := FindOrCreateVertex Tolerance r1.1 Curve.EndPoint
  let g2 := r2.1
  let StartVertexId := r1.2
  let EndVertexId := r2.2
  if StartVertexId = EndVertexId then g2
  else
    let ForwardHalfEdgeId := g2.HalfEdges.length
    let BackwardHalfEdgeId := g2.HalfEdges.length + 1
    { Vertices := AddOutgoing (AddOutgoing g2.Vertices StartVertexId ForwardHalfEdgeId)
        EndVertexId BackwardHalfEdgeId
      HalfEdges := g2.HalfEdges ++
        [{ Curve := Curve, StartPoint := Curve.StartPoint, EndPoint := Curve.EndPoint,
           bReversed := false, StartVertexId := StartVertexId, EndVertexId := EndVertexId },
         { Curve := Curve, StartPoint := Curve.EndPoint, EndPoint := Curve.StartPoint,
           bReversed := true, StartVertexId := EndVertexId, EndVertexId := StartVertexId }]
      VertexMap := g2.VertexMap }

/-- The X and Y components of `(EndPoint - StartPoint).GetSafeNormal()` up to a
positive factor, which the angle does not see: the zero vector when the
squared length is below `SMALL_NUMBER = 1e-8`. -/
def SafeDirection (e : FHalfEdge) : ℚ × ℚ :=
  if (e.EndPoint.X - e.StartPoint.X) ^ 2 + (e.EndPoint.Y - e.StartPoint.Y) ^ 2
      + (e.EndPoint.Z - e.StartPoint.Z) ^ 2 < 1 / 100000000 then (0, 0)
  else (e.EndPoint.X - e.StartPoint.X, e.EndPoint.Y - e.StartPoint.Y)

/-- The direction has its angle `Atan2(Y, X)`, taken in `[0, 2 pi)`, below `pi`. -/
def InUpperHalf (d : ℚ × ℚ) : Bool :=
  decide (d.2 > 0 ∨ (d.2 = 0 ∧ d.1 ≥ 0))

/-- The comparison `Angle1 < Angle2` of the sort predicate, for the angles of
two directions in `[0, 2 pi)`, in exact arithmetic: a direction in the upper
half comes before one in the lower half, and within one half the order is the
sign of the cross product. `Atan2(0, 0)` is 0, the angle of `(1, 0)`. -/
def AngleLess (d1 d2 : ℚ × ℚ) : Bool :=
  let a := if d1 = (0, 0) then ((1 : ℚ), (0 : ℚ)) else d1
  let b := if d2 = (0, 0) then ((1 : ℚ), (0 : ℚ)) else d2
  if InUpperHalf a && !InUpperHalf b then true
  else if !InUpperHalf a && InUpperHalf b then false
  else decide (a.1 * b.2 - b.1 * a.2 > 0)

/-- Insertion of a half-edge id into a list sorted by `less`, after the ids
that are not greater. -/
def InsertByAngle (less : Nat → Nat → Bool) (x : Nat) : List Nat → List Nat
  | [] => [x]
  | y :: l => if less x y then x :: y :: l else y :: InsertByAngle less x l

/-- The call `OutgoingHalfEdges.Sort(predicate)`: ascending order of the
predicate. Ids that the predicate does not separate keep their order here; the
source leaves their order to the sort routine. -/
def SortByAngle (less : Nat → Nat → Bool) (l : List Nat) : List Nat :=
  l.foldl (fun sorted x => InsertByAngle less x sorted) []

/-- The sort predicate of the source on two half-edge ids. -/
def HalfEdgeAngleLess (HalfEdges : List FHalfEdge) (EdgeId1 EdgeId2 : Nat) : Bool :=
  match HalfEdges[EdgeId1]?, HalfEdges[EdgeId2]? with
  | some Edge1, some Edge2 => AngleLess (SafeDirection Edge1) (SafeDirection Edge2)
  | _, _ => false

/-- The second loop of `FindLoopsFromCurves`: every vertex with at least two
outgoing half-edges gets them sorted by angle. -/
def SortVertices (HalfEdges : List FHalfEdge) (Vertices : List FPlanarVertex) :
    List FPlanarVertex :=
  Vertices.map (fun v =>
    if v.OutgoingHalfEdges.length < 2 then v
    else { Position := v.Position,
           OutgoingHalfEdges := SortByAngle (HalfEdgeAngleLess HalfEdges) v.OutgoingHalfEdges })

/-- The search for `ReverseHalfEdgeId`: the first half-edge of the table that
runs from the end vertex to the start vertex of `e` on the same curve. -/
def FindReverseHalfEdge (HalfEdges : List FHalfEdge) (e : FHalfEdge) : Option Nat :=
  HalfEdges.findIdx? (fun h =>
    h.StartVertexId == e.EndVertexId && h.EndVertexId == e.StartVertexId &&
      h.Curve.id == e.Curve.id)

/-- The result of one face trace: `bValidLoop`, the last `CurrentHalfEdgeId`,
`CurrentLoop` and `LoopHalfEdges`. -/
structure TraceResult where
  bValidLoop : Bool
  CurrentHalfEdgeId : Nat
  CurrentLoop : List UGeomCurve
  LoopHalfEdges : List Nat

/-- The `do ... while (CurrentHalfEdgeId != StartHalfEdgeId)` loop of one face
trace. The first argument bounds the rounds; the guard `CurrentLoop.Num() >
HalfEdges.Num()` ends the loop after at most `HalfEdges.Num() + 1` rounds, and
the trace is run with that many. -/
def TraceFace (Vertices : List FPlanarVertex) (HalfEdges : List FHalfEdge)
    (UsedHalfEdges : List Nat) (StartHalfEdgeId : Nat) :
    Nat → Nat → List UGeomCurve → List Nat → TraceResult
  | 0, cur, loop, lhe => ⟨false, cur, loop, lhe⟩
  | fuel + 1, cur, loop, lhe =>
    if UsedHalfEdges.contains cur then ⟨false, cur, loop, lhe⟩
    else
      match HalfEdges[cur]? with
      | none => ⟨false, cur, loop, lhe⟩
      | some CurrentHalfEdge =>
        let loop1 := loop ++ [CurrentHalfEdge.Curve]
        let lhe1 := lhe ++ [cur]
        if loop1.length > HalfEdges.length then ⟨false, cur, loop1, lhe1⟩
        else
          match Vertices[CurrentHalfEdge.EndVertexId]? with
          | none => ⟨false, cur, loop1, lhe1⟩
          | some CurrentVertex =>
            if CurrentVertex.OutgoingHalfEdges.length = 0 then ⟨false, cur, loop1, lhe1⟩
            else
              match FindReverseHalfEdge HalfEdges CurrentHalfEdge with
              | none => ⟨false, cur, loop1, lhe1⟩
              | some ReverseHalfEdgeId =>
                match CurrentVertex.OutgoingHalfEdges.indexOf? ReverseHalfEdgeId with
                | none => ⟨false, cur, loop1, lhe1⟩
                | some ReversePosition =>
                  match CurrentVertex.OutgoingHalfEdges[
                      (ReversePosition + 1) % CurrentVertex.OutgoingHalfEdges.length]? with
                  | none => ⟨false, cur, loop1, lhe1⟩
                  | some next =>
                    if next = StartHalfEdgeId then ⟨true, next, loop1, lhe1⟩
                    else TraceFace Vertices HalfEdges UsedHalfEdges StartHalfEdgeId fuel next
                      loop1 lhe1

/-- The loop over `StartHalfEdgeId`: the state is `UsedHalfEdges` and
`LoopsList`. -/
def TraceAllFaces (Vertices : List FPlanarVertex) (HalfEdges : List FHalfEdge) :
    List Nat → List Nat → List (List UGeomCurve) → List (List UGeomCurve)
  | [], _, LoopsList => LoopsList
  | StartHalfEdgeId :: rest, UsedHalfEdges, LoopsList =>
    if UsedHalfEdges.contains StartHalfEdgeId then
      TraceAllFaces Vertices HalfEdges rest UsedHalfEdges LoopsList
    else
      let r := TraceFace Vertices HalfEdges UsedHalfEdges StartHalfEdgeId
        (HalfEdges.length + 1) StartHalfEdgeId [] []
      if r.bValidLoop && decide (r.CurrentLoop.length ≥ 3) &&
          decide (r.CurrentHalfEdgeId = StartHalfEdgeId) then
        TraceAllFaces Vertices HalfEdges rest (UsedHalfEdges ++ r.LoopHalfEdges)
          (LoopsList ++ [r.CurrentLoop])
      else TraceAllFaces Vertices HalfEdges rest UsedHalfEdges LoopsList

/-- Embedding of `FGeomUtils::FindLoopsFromCurves`. -/
def FindLoopsFromCurves (InCurves : List UGeomCurve) (Tolerance : ℚ) : List (List UGeomCurve) :=
  if InCurves.length < 3 then []
  else
    let g := InCurves.foldl (AddCurveToTables Tolerance) ⟨[], [], []⟩
    if g.HalfEdges.length < 6 then []
    else
      TraceAllFaces (SortVertices g.HalfEdges g.Vertices) g.HalfEdges
        (List.range g.HalfEdges.length) [] []

/-! ### The tables of the cross -/

/-- Fragment `(-1, 0)-(0, 0)` of the cross, written out. -/
def XFrag0 : UGeomCurve :=
  { id := 10, kind := CurveKind.LineSegment, StartPoint := ⟨-1, 0, 0⟩, EndPoint := ⟨0, 0, 0⟩,
    FirstParameter := 0, LastParameter := 1, Bulge := 0 }

/-- Fragment `(0, 0)-(1, 0)` of the cross, written out. -/
def XFrag1 : UGeomCurve :=
  { id := 11, kind := CurveKind.LineSegment, StartPoint := ⟨0, 0, 0⟩, EndPoint := ⟨1, 0, 0⟩,
    FirstParameter := 1, LastParameter := 2, Bulge := 0 }

/-- Fragment `(0, -1)-(0, 0)` of the cross, written out. -/
def XFrag2 : UGeomCurve :=
  { id := 12, kind := CurveKind.LineSegment, StartPoint := ⟨0, -1, 0⟩, EndPoint := ⟨0, 0, 0⟩,
    FirstParameter := 0, LastParameter := 1, Bulge := 0 }

/-- Fragment `(0, 0)-(0, 1)` of the cross, written out. -/
def XFrag3 : UGeomCurve :=
  { id := 13, kind := CurveKind.LineSegment, StartPoint := ⟨0, 0, 0⟩, EndPoint := ⟨0, 1, 0⟩,
    FirstParameter := 1, LastParameter := 2, Bulge := 0 }

/-- Forward and backward half-edge of a curve between two vertex ids. -/
def HalfEdgePair (c : UGeomCurve) (s e : Nat) : List FHalfEdge :=
  [{ Curve := c, StartPoint := c.StartPoint, EndPoint := c.EndPoint, bReversed := false,
     StartVertexId := s, EndVertexId := e },
   { Curve := c, StartPoint := c.EndPoint, EndPoint := c.StartPoint, bReversed := true,
     StartVertexId := e, EndVertexId := s }]

/-- The half-edge table of the cross: the centre is vertex 1, the tips are the
vertices 0, 2, 3 and 4. -/
def CrossHalfEdges : List FHalfEdge :=
  HalfEdgePair XFrag0 0 1 ++ HalfEdgePair XFrag1 1 2 ++ HalfEdgePair XFrag2 3 1 ++
    HalfEdgePair XFrag3 1 4

/-- The vertex table of the cross before the sort. -/
def CrossVertices : List FPlanarVertex :=
  [⟨⟨-1, 0, 0⟩, [0]⟩, ⟨⟨0, 0, 0⟩, [1, 2, 5, 6]⟩, ⟨⟨1, 0, 0⟩, [3]⟩, ⟨⟨0, -1, 0⟩, [4]⟩,
   ⟨⟨0, 1, 0⟩, [7]⟩]

/-- The vertex table of the cross after the sort by angle: at the centre the
half-edges leave towards east, north, west and south. -/
def CrossSortedVertices : List FPlanarVertex :=
  [⟨⟨-1, 0, 0⟩, [0]⟩, ⟨⟨0, 0, 0⟩, [2, 6, 1, 5]⟩, ⟨⟨1, 0, 0⟩, [3]⟩, ⟨⟨0, -1, 0⟩, [4]⟩,
   ⟨⟨0, 1, 0⟩, [7]⟩]
/-- Model of `TMap<int32, TArray<int32>>::Find`: the list stored under `k`,
empty without an entry. -/
def NestingFind (m : List (Nat × List Nat)) (k : Nat) : List Nat :=
  match m.find? (fun e => e.1 == k) with
  | some e => e.2
  | none => []

/-- The condition under which `AnalyzeRegionNesting` records region `i` under
region `j`. -/
def NestedPair (tol : ℚ) (Rs : List FClosedRegion) (i j : Nat) : Prop :=
  i ≠ j ∧ ∃ I O, Rs[i]? = some I ∧ Rs[j]? = some O ∧ IsNestedIn tol I O = true


/-- The eight sides of a T-shaped region, counter-clockwise: the stem
`(-2,0)-(2,12)` below the bar `(-20,12)-(20,14)`. -/
def TeeSides : List UGeomCurve :=
  [MakeSeg 0 ⟨-2, 0, 0⟩ ⟨2, 0, 0⟩ 4,
   MakeSeg 1 ⟨2, 0, 0⟩ ⟨2, 12, 0⟩ 12,
   MakeSeg 2 ⟨2, 12, 0⟩ ⟨20, 12, 0⟩ 18,
   MakeSeg 3 ⟨20, 12, 0⟩ ⟨20, 14, 0⟩ 2,
   MakeSeg 4 ⟨20, 14, 0⟩ ⟨-20, 14, 0⟩ 40,
   MakeSeg 5 ⟨-20, 14, 0⟩ ⟨-20, 12, 0⟩ 2,
   MakeSeg 6 ⟨-20, 12, 0⟩ ⟨-2, 12, 0⟩ 18,
   MakeSeg 7 ⟨-2, 12, 0⟩ ⟨-2, 0, 0⟩ 12]

/-- The three sides of the triangle `(-16,13)`, `(0,1)`, `(16,13)`,
counter-clockwise: its corners lie inside the T-shaped region, two in the bar
and one in the stem, its sides leave that region. -/
def WedgeSides : List UGeomCurve :=
  [MakeSeg 8 ⟨-16, 13, 0⟩ ⟨0, 1, 0⟩ 20,
   MakeSeg 9 ⟨0, 1, 0⟩ ⟨16, 13, 0⟩ 20,
   MakeSeg 10 ⟨16, 13, 0⟩ ⟨-16, 13, 0⟩ 32]

/-- The region of the T shape: box `(-20,0)-(20,14)`, area 128. -/
def TeeRegion : FClosedRegion :=
  RegionWith PolyKernel TeeSides ⟨⟨-20, 0, 0⟩, ⟨20, 14, 0⟩, true⟩ 128

/-- The region of the triangle: box `(-16,1)-(16,13)`, area 192. -/
def WedgeRegion : FClosedRegion :=
  RegionWith PolyKernel WedgeSides ⟨⟨-16, 1, 0⟩, ⟨16, 13, 0⟩, true⟩ 192


/-- The point lies in the box widened by `tol` on every side. -/
def InExpandedBox (P : FVector) (B : FBox) (tol : ℚ) : Prop :=
  B.Min.X - tol ≤ P.X ∧ P.X ≤ B.Max.X + tol ∧ B.Min.Y - tol ≤ P.Y ∧ P.Y ≤ B.Max.Y + tol ∧
    B.Min.Z - tol ≤ P.Z ∧ P.Z ≤ B.Max.Z + tol


/-- The half-edge that follows `cur` in a face trace: the entry after the
reverse of `cur` in the outgoing list of the end vertex of `cur`, wrapped.
None where the trace of the source stops for lack of one. -/
def NextHalfEdge (Vertices : List FPlanarVertex) (HalfEdges : List FHalfEdge) (cur : Nat) :
    Option Nat :=
  match HalfEdges[cur]? with
  | none => none
  | some CurrentHalfEdge =>
    match Vertices[CurrentHalfEdge.EndVertexId]? with
    | none => none
    | some CurrentVertex =>
      if CurrentVertex.OutgoingHalfEdges.length = 0 then none
      else
        match FindReverseHalfEdge HalfEdges CurrentHalfEdge with
        | none => none
        | some ReverseHalfEdgeId =>
          match CurrentVertex.OutgoingHalfEdges.indexOf? ReverseHalfEdgeId with
          | none => none
          | some ReversePosition =>
            CurrentVertex.OutgoingHalfEdges[
              (ReversePosition + 1) % CurrentVertex.OutgoingHalfEdges.length]?

/-- A closed walk of half-edges for the successor map `next`: every half-edge
is followed by its successor, no half-edge after the first is `start`, and the
successor of the last one is `start`. -/
def IsWalk (next : Nat → Option Nat) (start : Nat) : List Nat → Prop
  | [] => False
  | [h] => next h = some start
  | h :: h2 :: rest => next h = some h2 ∧ h2 ≠ start ∧ IsWalk next start (h2 :: rest)

/-- The curves of a list of half-edge ids. -/
def CurvesOf (HalfEdges : List FHalfEdge) (ids : List Nat) : List UGeomCurve :=
  ids.filterMap (fun h => (HalfEdges[h]?).map (fun e => e.Curve))

/-- The loop over `StartHalfEdgeId` with its whole state: `UsedHalfEdges`,
`LoopsList` and, beside them, the `LoopHalfEdges` of every accepted trace in
the order of `LoopsList`. -/
def TraceAllFacesState (Vertices : List FPlanarVertex) (HalfEdges : List FHalfEdge) :
    List Nat → List Nat → List (List UGeomCurve) → List (List Nat) →
      List Nat × List (List UGeomCurve) × List (List Nat)
  | [], UsedHalfEdges, LoopsList, LoopIds => (UsedHalfEdges, LoopsList, LoopIds)
  | StartHalfEdgeId :: rest, UsedHalfEdges, LoopsList, LoopIds =>
    if UsedHalfEdges.contains StartHalfEdgeId then
      TraceAllFacesState Vertices HalfEdges rest UsedHalfEdges LoopsList LoopIds
    else
      let r := TraceFace Vertices HalfEdges UsedHalfEdges StartHalfEdgeId
        (HalfEdges.length + 1) StartHalfEdgeId [] []
      if r.bValidLoop && decide (r.CurrentLoop.length ≥ 3) &&
          decide (r.CurrentHalfEdgeId = StartHalfEdgeId) then
        TraceAllFacesState Vertices HalfEdges rest (UsedHalfEdges ++ r.LoopHalfEdges)
          (LoopsList ++ [r.CurrentLoop]) (LoopIds ++ [r.LoopHalfEdges])
      else TraceAllFacesState Vertices HalfEdges rest UsedHalfEdges LoopsList LoopIds

/-- The tables of `FindLoopsFromCurves` after its first loop. -/
def BuildTables (InCurves : List UGeomCurve) (Tolerance : ℚ) : PlanarTables :=
  InCurves.foldl (AddCurveToTables Tolerance) ⟨[], [], []⟩

/-- The state of `FindLoopsFromCurves` at its return: `UsedHalfEdges`,
`LoopsList` and the `LoopHalfEdges` of the accepted traces. -/
def FindLoopsState (InCurves : List UGeomCurve) (Tolerance : ℚ) :
    List Nat × List (List UGeomCurve) × List (List Nat) :=
  if InCurves.length < 3 then ([], [], [])
  else
    let g := BuildTables InCurves Tolerance
    if g.HalfEdges.length < 6 then ([], [], [])
    else
      TraceAllFacesState (SortVertices g.HalfEdges g.Vertices) g.HalfEdges
        (List.range g.HalfEdges.length) [] [] []

/-- The id of the other half-edge of the same curve: the half-edges `2 j` and
`2 j + 1` are the forward and the backward half-edge of curve `j`. -/
def Twin (h : Nat) : Nat := if h % 2 = 0 then h + 1 else h - 1

/-- The difference `a - b` of two vectors. -/
def FVector.Sub (a b : FVector) : FVector := ⟨a.X - b.X, a.Y - b.Y, a.Z - b.Z⟩

/-- The product `FVector::DotProduct(a, b)`. -/
def FVector.Dot (a b : FVector) : ℚ := a.X * b.X + a.Y * b.Y + a.Z * b.Z

/-- The product `FVector::CrossProduct(a, b)`. -/
def FVector.Cross (a b : FVector) : FVector :=
  ⟨a.Y * b.Z - a.Z * b.Y, a.Z * b.X - a.X * b.Z, a.X * b.Y - a.Y * b.X⟩

/-- The length `a.Size()`; `sqrt` is the square root of the math library. -/
def FVector.Size (sqrt : ℚ → ℚ) (a : FVector) : ℚ := sqrt (a.X * a.X + a.Y * a.Y + a.Z * a.Z)

/-- The call `a.GetSafeNormal()`: a vector of squared length 1 is returned as
it is, one of squared length below `SMALL_NUMBER` gives the zero vector, any
other is scaled by `1 / sqrt` of its squared length. -/
def FVector.GetSafeNormal (sqrt : ℚ → ℚ) (SMALL_NUMBER : ℚ) (a : FVector) : FVector :=
  let SquareSum := a.X * a.X + a.Y * a.Y + a.Z * a.Z
  if SquareSum = 1 then a
  else if SquareSum < SMALL_NUMBER then ⟨0, 0, 0⟩
  else
    let Scale := 1 / sqrt SquareSum
    ⟨a.X * Scale, a.Y * Scale, a.Z * Scale⟩

/-- Embedding of `FGeomUtils::CalculateBulgeFromThreePoints`. The square root
of the math library and the engine constant `SMALL_NUMBER` are parameters. -/
def CalculateBulgeFromThreePoints (sqrt : ℚ → ℚ) (SMALL_NUMBER : ℚ)
    (Start Middle End : FVector) : ℚ :=
  let Dir1 := (Middle.Sub Start).GetSafeNormal sqrt SMALL_NUMBER
  let Dir2 := (End.Sub Middle).GetSafeNormal sqrt SMALL_NUMBER
  if |Dir1.Dot Dir2| > 999 / 1000 then 0
  else
    let A1 := Start.X - Middle.X
    let B1 := Start.Y - Middle.Y
    let C1 := (1 / 2) * (Start.X * Start.X - Middle.X * Middle.X
      + Start.Y * Start.Y - Middle.Y * Middle.Y)
    let A2 := Middle.X - End.X
    let B2 := Middle.Y - End.Y
    let C2 := (1 / 2) * (Middle.X * Middle.X - End.X * End.X
      + Middle.Y * Middle.Y - End.Y * End.Y)
    let D := A1 * B2 - A2 * B1
    if |D| < SMALL_NUMBER then 0
    else
      let CenterX := (C1 * B2 - C2 * B1) / D
      let CenterY := (A1 * C2 - A2 * C1) / D
      let Center : FVector := ⟨CenterX, CenterY, 0⟩
      let Radius := (Center.Sub Start).Size sqrt
      let ChordLength := (Start.Sub End).Size sqrt
      let ChordDir := (End.Sub Start).GetSafeNormal sqrt SMALL_NUMBER
      let ChordMid : FVector :=
        ⟨(Start.X + End.X) * (1 / 2), (Start.Y + End.Y) * (1 / 2), (Start.Z + End.Z) * (1 / 2)⟩
      let CenterToChord := ChordMid.Sub Center
      let CenterToChordDist := |(ChordDir.Cross CenterToChord).Size sqrt|
      let SagHeight := Radius - CenterToChordDist
      let Bulge := if ChordLength > SMALL_NUMBER then 4 * SagHeight / ChordLength else 0
      if ((End.Sub Start).Cross (Middle.Sub Start)).Z < 0 then -Bulge else Bulge

/-- A square root that is exact on the squares of rationals: the integer
square roots of numerator and denominator. -/
def ExactSqrt (q : ℚ) : ℚ := (Nat.sqrt q.num.natAbs : ℚ) / (Nat.sqrt q.den : ℚ)

/-- Polyline vertex with the bulge of the arc to the next vertex
(`FVertexWithBulge`). -/
structure FVertexWithBulge where
  Position : FVector
  Bulge : ℚ
deriving DecidableEq

/-- A mixed sequence: an arc of bulge 1 from the origin to (2, 0), then a
straight piece to (2, 2). -/
def MixedSequence : List FVertexWithBulge :=
  [⟨⟨0, 0, 0⟩, 1⟩, ⟨⟨2, 0, 0⟩, 0⟩, ⟨⟨2, 2, 0⟩, 0⟩]

/-- Outcome of a face trace that is run with checks: the result of the trace,
or the fault that stopped it: an index outside its table, or more rounds of
the loop than allowed. -/
inductive TraceOutcome where
  | done (r : TraceResult)
  | indexOutOfRange
  | roundsExhausted

/-- The loop of one face trace, as `TraceFace`, with the checks made explicit:
every subscript of `HalfEdges`, `Vertices` and `OutgoingHalfEdges` outside its
table is a fault, and so is a round of the loop beyond the number allowed by
the first argument. -/
def TraceFaceChecked (Vertices : List FPlanarVertex) (HalfEdges : List FHalfEdge)
    (UsedHalfEdges : List Nat) (StartHalfEdgeId : Nat) :
    Nat → Nat → List UGeomCurve → List Nat → TraceOutcome
  | 0, _, _, _ => TraceOutcome.roundsExhausted
  | fuel + 1, cur, loop, lhe =>
    if UsedHalfEdges.contains cur then TraceOutcome.done ⟨false, cur, loop, lhe⟩
    else
      match HalfEdges[cur]? with
      | none => TraceOutcome.indexOutOfRange
      | some CurrentHalfEdge =>
        let loop1 := loop ++ [CurrentHalfEdge.Curve]
        let lhe1 := lhe ++ [cur]
        if loop1.length > HalfEdges.length then TraceOutcome.done ⟨false, cur, loop1, lhe1⟩
        else
          match Vertices[CurrentHalfEdge.EndVertexId]? with
          | none => TraceOutcome.indexOutOfRange
          | some CurrentVertex =>
            if CurrentVertex.OutgoingHalfEdges.length = 0 then
              TraceOutcome.done ⟨false, cur, loop1, lhe1⟩
            else
              match FindReverseHalfEdge HalfEdges CurrentHalfEdge with
              | none => TraceOutcome.done ⟨false, cur, loop1, lhe1⟩
              | some ReverseHalfEdgeId =>
                match CurrentVertex.OutgoingHalfEdges.indexOf? ReverseHalfEdgeId with
                | none => TraceOutcome.done ⟨false, cur, loop1, lhe1⟩
                | some ReversePosition =>
                  match CurrentVertex.OutgoingHalfEdges[
                      (ReversePosition + 1) % CurrentVertex.OutgoingHalfEdges.length]? with
                  | none => TraceOutcome.indexOutOfRange
                  | some next =>
                    if next = StartHalfEdgeId then TraceOutcome.done ⟨true, next, loop1, lhe1⟩
                    else TraceFaceChecked Vertices HalfEdges UsedHalfEdges StartHalfEdgeId fuel
                      next loop1 lhe1

/-- The loop over `StartHalfEdgeId` with checked traces of at most
`HalfEdges.Num() + 1` rounds: none when a trace ends in a fault. -/
def TraceAllFacesChecked (Vertices : List FPlanarVertex) (HalfEdges : List FHalfEdge) :
    List Nat → List Nat → List (List UGeomCurve) → Option (List (List UGeomCurve))
  | [], _, LoopsList => some LoopsList
  | StartHalfEdgeId :: rest, UsedHalfEdges, LoopsList =>
    if UsedHalfEdges.contains StartHalfEdgeId then
      TraceAllFacesChecked Vertices HalfEdges rest UsedHalfEdges LoopsList
    else
      match TraceFaceChecked Vertices HalfEdges UsedHalfEdges StartHalfEdgeId
          (HalfEdges.length + 1) StartHalfEdgeId [] [] with
      | TraceOutcome.done r =>
        if r.bValidLoop && decide (r.CurrentLoop.length ≥ 3) &&
            decide (r.CurrentHalfEdgeId = StartHalfEdgeId) then
          TraceAllFacesChecked Vertices HalfEdges rest (UsedHalfEdges ++ r.LoopHalfEdges)
            (LoopsList ++ [r.CurrentLoop])
        else TraceAllFacesChecked Vertices HalfEdges rest UsedHalfEdges LoopsList
      | _ => none

/-- The function `FindLoopsFromCurves` with checked traces: none when a trace
uses an index outside its table or needs more than `HalfEdges.Num() + 1`
rounds. -/
def FindLoopsFromCurvesChecked (InCurves : List UGeomCurve) (Tolerance : ℚ) :
    Option (List (List UGeomCurve)) :=
  if InCurves.length < 3 then some []
  else
    let g := BuildTables InCurves Tolerance
    if g.HalfEdges.length < 6 then some []
    else
      TraceAllFacesChecked (SortVertices g.HalfEdges g.Vertices) g.HalfEdges
        (List.range g.HalfEdges.length) [] []

/-- The ids stored in the tables are in range: the vertex ids of the map and
of the half-edges are indexes of `Vertices`, the half-edge ids of the outgoing
lists are indexes of `HalfEdges`. -/
def TablesInRange (g : PlanarTables) : Prop :=
  (∀ pr ∈ g.VertexMap, pr.2 < g.Vertices.length) ∧
  (∀ h ∈ g.HalfEdges, h.StartVertexId < g.Vertices.length ∧
    h.EndVertexId < g.Vertices.length) ∧
  (∀ v ∈ g.Vertices, ∀ e ∈ v.OutgoingHalfEdges, e < g.HalfEdges.length)

/-- The trace stopped at the half-edge `cur` because the reverse of `cur` is
not in the outgoing list of the end vertex of `cur`. -/
def ReverseNotInList (Vertices : List FPlanarVertex) (HalfEdges : List FHalfEdge)
    (cur : Nat) : Prop :=
  ∃ e v, HalfEdges[cur]? = some e ∧ Vertices[e.EndVertexId]? = some v ∧
    ∀ p, FindReverseHalfEdge HalfEdges e = some p → p ∉ v.OutgoingHalfEdges

/-- The loops that the search of `GetClosedCurvesListFromUnorderCurves` has
recorded when the pre-filter starts (none for an empty input, where the
function returns at once). -/
def FoundLoops (sortGroups : List UGeomCurve → List UGeomCurve) (tolRep eps : ℚ)
    (InCurves : List UGeomCurve) : List (List UGeomCurve) :=
  if InCurves.length = 0 then []
  else (SearchAll (BuildConnectionMap eps (sortGroups (RemoveRepeatedLines tolRep InCurves)))
    (DfsFuel (BuildConnectionMap eps (sortGroups (RemoveRepeatedLines tolRep InCurves))))
    [] (sortGroups (RemoveRepeatedLines tolRep InCurves)) []).getD []

/-- The loop of `IsPointInPolygon2D` over the polygon edges, each given as
`(P1, P2) = (InPolygon[i], InPolygon[j])`; `bInside` is the running parity. -/
def PolygonScanStrict (InPoint : FVector2D) : List (FVector2D × FVector2D) → Bool → Bool
  | [], bInside => bInside
  | (P1, P2) :: rest, bInside =>
    if decide (P1.Y > InPoint.Y) ≠ decide (P2.Y > InPoint.Y) then
      if InPoint.X ≤ (P2.X - P1.X) * (InPoint.Y - P1.Y) / (P2.Y - P1.Y) + P1.X then
        PolygonScanStrict InPoint rest (!bInside)
      else PolygonScanStrict InPoint rest bInside
    else PolygonScanStrict InPoint rest bInside

/-- Embedding of `FGeomUtils::IsPointInPolygon2D` on `FVector2D`; the
tolerance is not used by the body. -/
def IsPointInPolygon2D (InPoint : FVector2D) (InPolygon : List FVector2D)
    (_Tolerance : ℚ) : Bool :=
  if InPolygon.length < 3 then false
  else PolygonScanStrict InPoint (PolygonEdges InPolygon) false

/-- One of the three boundary tests of `IsPointInOrOnPolygon2D` returns true
for the edge `(P1, P2)`: the point is within `Tolerance` of `P1` in both
coordinates, or the edge is level within `Tolerance` and the point is within
`Tolerance` of its height and between its ends, or likewise for an upright
edge. -/
def BoundaryTest (InPoint : FVector2D) (Tolerance : ℚ) (e : FVector2D × FVector2D) : Prop :=
  (|InPoint.X - e.1.X| < Tolerance ∧ |InPoint.Y - e.1.Y| < Tolerance) ∨
  (|e.1.Y - e.2.Y| < Tolerance ∧ |InPoint.Y - e.1.Y| < Tolerance ∧
    InPoint.X ≥ min e.1.X e.2.X ∧ InPoint.X ≤ max e.1.X e.2.X) ∨
  (|e.1.X - e.2.X| < Tolerance ∧ |InPoint.X - e.1.X| < Tolerance ∧
    InPoint.Y ≥ min e.1.Y e.2.Y ∧ InPoint.Y ≤ max e.1.Y e.2.Y)

/-- The triangle `(0,0)`, `(4,0)`, `(2,4)`. -/
def SlantTriangle : List FVector2D := [⟨0, 0⟩, ⟨4, 0⟩, ⟨2, 4⟩]

/-- The square `(0,0)`, `(4,0)`, `(4,4)`, `(0,4)`. -/
def Square4 : List FVector2D := [⟨0, 0⟩, ⟨4, 0⟩, ⟨4, 4⟩, ⟨0, 4⟩]

/-- The function `FMath::Sign`: 1, -1 or 0. -/
def Sign (x : ℚ) : ℚ := if x > 0 then 1 else if x < 0 then -1 else 0

/-- Embedding of `FGeomUtils::VectorSign`. -/
def VectorSign (Vec A B : FVector2D) : ℚ :=
  Sign ((B.X - A.X) * (Vec.Y - A.Y) - (B.Y - A.Y) * (Vec.X - A.X))

/-- Embedding of `FGeomUtils::IsPointInTriangle`. -/
def IsPointInTriangle (TestPoint A B C : FVector2D) : Bool :=
  let BA := VectorSign B A TestPoint
  let CB := VectorSign C B TestPoint
  let AC := VectorSign A C TestPoint
  decide (BA = CB) && decide (CB = AC)

/-- The point `u A + v B + w C`. -/
def Combine (u v w : ℚ) (A B C : FVector2D) : FVector2D :=
  ⟨u * A.X + v * B.X + w * C.X, u * A.Y + v * B.Y + w * C.Y⟩

/-- The point of the segment from `A` to `B` at the fraction `t`. -/
def Along (t : ℚ) (A B : FVector2D) : FVector2D :=
  ⟨A.X + t * (B.X - A.X), A.Y + t * (B.Y - A.Y)⟩

/-- Twice the signed area of the triangle `A`, `B`, `C` (`Cross2D(A, B, C)`). -/
def Cross2D (o a b : FVector2D) : ℚ :=
  (a.X - o.X) * (b.Y - o.Y) - (a.Y - o.Y) * (b.X - o.X)

/-- Embedding of `FGeomUtils::ReverseVerticesWithBulge`: the array after the
call. Entry `i` of the reversed array gets the bulge `-OriginalBulges[Num - 2 -
i]` for `i < Num - 1`, and the last entry the bulge 0. -/
def ReverseVerticesWithBulge (InOutVertices : List FVertexWithBulge) : List FVertexWithBulge :=
  if InOutVertices.length < 2 then InOutVertices
  else
    let OriginalBulges := InOutVertices.map (fun v => v.Bulge)
    let Num := InOutVertices.length
    List.zipWith
      (fun i v =>
        if i < Num - 1 then
          (⟨v.Position, -(OriginalBulges.getD (Num - 2 - i) 0)⟩ : FVertexWithBulge)
        else ⟨v.Position, 0⟩)
      (List.range Num) InOutVertices.reverse

/-- Embedding of `FGeomUtils::IsLineIntersect2D`. -/
def IsLineIntersect2D (a1 a2 b1 b2 : FVector2D) : Bool :=
  let cross1 := Cross2D a1 a2 b1
  let cross2 := Cross2D a1 a2 b2
  let cross3 := Cross2D b1 b2 a1
  let cross4 := Cross2D b1 b2 a2
  decide (cross1 * cross2 < 0) && decide (cross3 * cross4 < 0)

/-- Embedding of `FGeomUtils::GetLineIntersectPoint`, in exact arithmetic. The
default-constructed `FVector2D` of the failure results is the zero vector
here. -/
def GetLineIntersectPoint (a1 a2 b1 b2 : FVector2D) : Bool × FVector2D :=
  let A1 := a2.Y - a1.Y
  let B1 := a1.X - a2.X
  let C1 := A1 * a1.X + B1 * a1.Y
  let A2 := b2.Y - b1.Y
  let B2 := b1.X - b2.X
  let C2 := A2 * b1.X + B2 * b1.Y
  let det := A1 * B2 - A2 * B1
  if det = 0 then (false, ⟨0, 0⟩)
  else
    let x := (B2 * C1 - B1 * C2) / det
    let y := (A1 * C2 - A2 * C1) / det
    if (x - min a1.X a2.X ≥ -(1 / 10000000) ∧ x - max a1.X a2.X ≤ 1 / 1000000) ∧
        (y - min a1.Y a2.Y ≥ -(1 / 10000000) ∧ y - max a1.Y a2.Y ≤ 1 / 1000000) ∧
        (x - min b1.X b2.X ≥ -(1 / 10000000) ∧ x - max b1.X b2.X ≤ 1 / 1000000) ∧
        (y - min b1.Y b2.Y ≥ -(1 / 10000000) ∧ y - max b1.Y b2.Y ≤ 1 / 1000000) then
      (true, ⟨x, y⟩)
    else (false, ⟨0, 0⟩)

/-- Embedding of `FGeomUtils::GetLinePolygonIntersectPoints`. -/
def GetLinePolygonIntersectPoints (a1 a2 : FVector2D) (polygon : List FVector2D) :
    List FVector2D :=
  (List.range polygon.length).filterMap (fun i =>
    match polygon[i]?, polygon[(i + 1) % polygon.length]? with
    | some b1, some b2 =>
      if IsLineIntersect2D a1 a2 b1 b2 then
        let result := GetLineIntersectPoint a1 a2 b1 b2
        if result.1 then some result.2 else none
      else none
    | _, _ => none)

/-- The determinant `det` of `GetLineIntersectPoint`. -/
def LineDet (a1 a2 b1 b2 : FVector2D) : ℚ :=
  (a2.Y - a1.Y) * (b1.X - b2.X) - (b2.Y - b1.Y) * (a1.X - a2.X)

/-- The sides of the polygon that `GetLinePolygonIntersectPoints` visits: each
vertex with its successor, the last with the first. -/
def PolygonSides (polygon : List FVector2D) : List (FVector2D × FVector2D) :=
  (List.range polygon.length).filterMap (fun i =>
    match polygon[i]?, polygon[(i + 1) % polygon.length]? with
    | some b1, some b2 => some (b1, b2)
    | _, _ => none)

/-- One round of the loop `while (Stack.Num() > 0)` on a stack with top `top`:
the stack, `CurrentPath` (reversed) and `ClosedCurvesList` after the round. -/
def DfsRound (cmap : List (Nat × List UGeomCurve)) (start : UGeomCurve) (top : StackItem)
    (rest : List StackItem) (rpath : List UGeomCurve) (acc : List (List UGeomCurve)) :
    List StackItem × List UGeomCurve × List (List UGeomCurve) :=
  match PopMarks top rest rpath with
  | (none, stack1, rpath1) => (stack1, rpath1, acc)
  | (some CurrentCurve, stack1, rpath1) =>
    if ContainsPtr rpath1 CurrentCurve then (stack1, rpath1, acc)
    else
      let st := (Connections cmap CurrentCurve).foldl
        (VisitConnected cmap start (CurrentCurve :: rpath1))
        (StackItem.mark :: stack1, acc)
      (st.1, CurrentCurve :: rpath1, st.2)

/-- The path, given with its last curve first, is a connected path from
`start`: its first curve is `start`, and every later curve is filed in the
connection map under the curve before it. -/
def PathFrom (cmap : List (Nat × List UGeomCurve)) (start : UGeomCurve)
    (rpath : List UGeomCurve) : Prop :=
  List.Chain' (fun p q => p ∈ Connections cmap q) rpath ∧
    ∀ z, rpath.getLast? = some z → z = start

/-- The curve `c` may be put at the end of the path: it is `start` when the
path is empty, else it is filed under the last curve of the path. -/
def MayFollow (cmap : List (Nat × List UGeomCurve)) (start : UGeomCurve) (c : UGeomCurve)
    (rpath : List UGeomCurve) : Prop :=
  match rpath with
  | [] => c = start
  | p :: _ => c ∈ Connections cmap p

/-- The stack fits the path: every marker stands for one curve of the path,
the top marker for the last curve, and every curve on the stack may follow the
part of the path that the markers below it stand for. -/
def StackFits (cmap : List (Nat × List UGeomCurve)) (start : UGeomCurve) :
    List StackItem → List UGeomCurve → Prop
  | [], _ => True
  | StackItem.curve c :: s, rp => MayFollow cmap start c rp ∧ StackFits cmap start s rp
  | StackItem.mark :: _, [] => False
  | StackItem.mark :: s, _ :: rp => StackFits cmap start s rp

/-- The loop, in the order in which it is recorded, is a connected path from
`start` whose last curve has `start` in its connection list. -/
def ClosedPathFrom (cmap : List (Nat × List UGeomCurve)) (start : UGeomCurve)
    (L : List UGeomCurve) : Prop :=
  PathFrom cmap start L.reverse ∧
    ∃ z d, L.getLast? = some z ∧ d ∈ Connections cmap z ∧ d.id = start.id
/-! ## Theorems -/

theorem SplitLoop_eq_flatMap (K : Kernel) (eps : ℚ) (toFloat : ℚ → ℚ)
    (pm : List (Nat × List ℚ)) (cs : List UGeomCurve) (idx : Nat) :
    SplitLoop K eps toFloat pm idx cs
      = (cs.enumFrom idx).flatMap (fun ic => SplitOneCurve K eps toFloat pm ic.1 ic.2) := by
  induction cs generalizing idx with
  | nil => simp [SplitLoop]
  | cons c cs ih => simp [SplitLoop, List.enumFrom, ih]

/-- C6. Splitting at an empty intersection set returns the input curve list
unchanged: same curves, same order, same length. -/
theorem split_empty_intersections_unchanged (K : Kernel) (eps : ℚ) (toFloat : ℚ → ℚ)
    (InCurves : List UGeomCurve) :
    (SplitCurvesAtIntersections K eps toFloat InCurves []).2 = InCurves := by
  cases InCurves with
  | nil => simp [SplitCurvesAtIntersections]
  | cons c cs => simp [SplitCurvesAtIntersections]

theorem CheckPointOnCurve_of_touches (K : Kernel) (tol : ℚ) (i j : Nat)
    (T : FVector × UGeomCurve × ℚ × ℚ) (tp : ℚ) (h : TouchesInside K tol T) :
    ∃ r, CheckPointOnCurve K tol i T.1 tp T.2.1 T.2.2.1 T.2.2.2 i j = some r ∧
      r.Position = T.1 := by
  obtain ⟨d, t, hp, hd, h1, h2⟩ := h
  unfold CheckPointOnCurve
  rw [hp]
  simp only [hd, if_true, gt_iff_lt, h1, h2, and_self]
  exact ⟨_, rfl, rfl⟩

theorem CheckPointOnCurve_of_not_touches (K : Kernel) (tol : ℚ) (i j : Nat)
    (T : FVector × UGeomCurve × ℚ × ℚ) (tp : ℚ) (h : ¬ TouchesInside K tol T) :
    CheckPointOnCurve K tol i T.1 tp T.2.1 T.2.2.1 T.2.2.2 i j = none := by
  unfold CheckPointOnCurve
  cases hp : K.Project T.1 T.2.1 T.2.2.1 T.2.2.2 with
  | none => rfl
  | some dt =>
    obtain ⟨d, t⟩ := dt
    simp only
    split_ifs with h1 h2
    · exact absurd ⟨d, t, hp, h1, h2.1, h2.2⟩ h
    · rfl
    · rfl

/-- C7 (amended). For two edges on which the intersector reports no common
part, when exactly one of the four end point tests finds its end point within
`tol` of the other edge at a parameter more than `tol` inside the domain of
that edge, `FindCurvesIntersections` returns true with exactly one record, and
the position of the record is that end point. -/
theorem tjunction_fallback_detects_touch (K : Kernel) (tol : ℚ) (A B : UGeomCurve)
    (fa la fb lb : ℚ) (n : Nat) (T : FVector × UGeomCurve × ℚ × ℚ)
    (hA : K.IsEdge A = true) (hB : K.IsEdge B = true)
    (hdA : K.EdgeCurve A = some (fa, la)) (hdB : K.EdgeCurve B = some (fb, lb))
    (hno : K.Intersect A B tol = none ∨ K.Intersect A B tol = some [])
    (hn : (EndpointTests K A B fa la fb lb)[n]? = some T)
    (htouch : TouchesInside K tol T)
    (hothers : ∀ m T2, m ≠ n → (EndpointTests K A B fa la fb lb)[m]? = some T2 →
      ¬ TouchesInside K tol T2) :
    ∃ r, FindCurvesIntersections K [A, B] tol = (true, [r]) ∧ r.Position = T.1 := by
  have hfound : (match K.Intersect A B tol with
      | none => []
      | some parts => CommonPartRecords K A B 0 1 tol parts) = [] := by
    rcases hno with h | h <;> rw [h]
    rfl
  have key : ∃ r, CheckEndpointOnSegmentIntersection K A B 0 1 tol = (true, [r]) ∧
      r.Position = T.1 := by
    unfold CheckEndpointOnSegmentIntersection
    rw [hdA, hdB]
    simp only
    have t0 := CheckPointOnCurve_of_touches K tol 0 1 (K.Value A fa, B, fb, lb) fa
    have t1 := CheckPointOnCurve_of_touches K tol 0 1 (K.Value A la, B, fb, lb) la
    have t2 := CheckPointOnCurve_of_touches K tol 0 1 (K.Value B fb, A, fa, la) fb
    have t3 := CheckPointOnCurve_of_touches K tol 0 1 (K.Value B lb, A, fa, la) lb
    have n0 := CheckPointOnCurve_of_not_touches K tol 0 1 (K.Value A fa, B, fb, lb) fa
    have n1 := CheckPointOnCurve_of_not_touches K tol 0 1 (K.Value A la, B, fb, lb) la
    have n2 := CheckPointOnCurve_of_not_touches K tol 0 1 (K.Value B fb, A, fa, la) fb
    have n3 := CheckPointOnCurve_of_not_touches K tol 0 1 (K.Value B lb, A, fa, la) lb
    simp only at t0 t1 t2 t3 n0 n1 n2 n3
    have o0 := hothers 0 (K.Value A fa, B, fb, lb)
    have o1 := hothers 1 (K.Value A la, B, fb, lb)
    have o2 := hothers 2 (K.Value B fb, A, fa, la)
    have o3 := hothers 3 (K.Value B lb, A, fa, la)
    simp only [EndpointTests, List.getElem?_cons_zero, List.getElem?_cons_succ,
      forall_const] at o0 o1 o2 o3
    match n, hn with
    | 0, hn =>
      simp only [EndpointTests, List.getElem?_cons_zero, Option.some.injEq] at hn
      subst hn
      obtain ⟨r, hr, hpos⟩ := t0 htouch
      exact ⟨r, by rw [hr], hpos⟩
    | 1, hn =>
      simp only [EndpointTests, List.getElem?_cons_zero, List.getElem?_cons_succ,
        Option.some.injEq] at hn
      subst hn
      obtain ⟨r, hr, hpos⟩ := t1 htouch
      exact ⟨r, by rw [n0 (o0 (by decide)), hr], hpos⟩
    | 2, hn =>
      simp only [EndpointTests, List.getElem?_cons_zero, List.getElem?_cons_succ,
        Option.some.injEq] at hn
      subst hn
      obtain ⟨r, hr, hpos⟩ := t2 htouch
      exact ⟨r, by rw [n0 (o0 (by decide)), n1 (o1 (by decide)), hr], hpos⟩
    | 3, hn =>
      simp only [EndpointTests, List.getElem?_cons_zero, List.getElem?_cons_succ,
        Option.some.injEq] at hn
      subst hn
      obtain ⟨r, hr, hpos⟩ := t3 htouch
      exact ⟨r, by rw [n0 (o0 (by decide)), n1 (o1 (by decide)), n2 (o2 (by decide)), hr], hpos⟩
    | k + 4, hn =>
      simp [EndpointTests] at hn
  obtain ⟨r, hr, hpos⟩ := key
  refine ⟨r, ?_, hpos⟩
  simp [FindCurvesIntersections, OuterPairs, InnerPairs, PairIntersections, hA, hB, hfound, hr]
/-- C7, instance: the stem that starts on the interior point `(5, 0)` of the
bar is detected by the fallback, with one record at `(5, 0)`. -/
theorem tjunction_fallback_detects_touch_at_stem :
    ∃ r, FindCurvesIntersections SegKernel [TeeStem, TeeBar] (1 / 10000000) = (true, [r]) ∧
      r.Position = (⟨5, 0, 0⟩ : FVector) := by
  have h := tjunction_fallback_detects_touch SegKernel (1 / 10000000) TeeStem TeeBar 0 5 0 10 0
    (⟨5, 0, 0⟩, TeeBar, 0, 10) rfl rfl rfl rfl (Or.inr rfl)
    (by norm_num [EndpointTests, SegKernel, SegValue, TeeStem, MakeSeg])
    (by
      refine ⟨0, 5, ?_, ?_, ?_, ?_⟩ <;>
        norm_num [SegKernel, SegProject, TeeBar, MakeSeg])
    (by
      intro m T2 hm hT
      match m, hm, hT with
      | 1, _, hT =>
        simp only [EndpointTests, List.getElem?_cons_zero, List.getElem?_cons_succ,
          Option.some.injEq] at hT
        subst hT
        rintro ⟨d, t, hp, hd, h1, h2⟩
        norm_num [SegKernel, SegProject, SegValue, TeeBar, TeeStem, MakeSeg] at hp
        obtain ⟨rfl, rfl⟩ := hp
        norm_num at hd
      | 2, _, hT =>
        simp only [EndpointTests, List.getElem?_cons_zero, List.getElem?_cons_succ,
          Option.some.injEq] at hT
        subst hT
        rintro ⟨d, t, hp, hd, h1, h2⟩
        norm_num [SegKernel, SegProject, SegValue, TeeBar, TeeStem, MakeSeg] at hp
        obtain ⟨rfl, rfl⟩ := hp
        norm_num at hd
      | 3, _, hT =>
        simp only [EndpointTests, List.getElem?_cons_zero, List.getElem?_cons_succ,
          Option.some.injEq] at hT
        subst hT
        rintro ⟨d, t, hp, hd, h1, h2⟩
        norm_num [SegKernel, SegProject, SegValue, TeeBar, TeeStem, MakeSeg] at hp
        obtain ⟨rfl, rfl⟩ := hp
        norm_num at hd
      | k + 4, _, hT => simp [EndpointTests] at hT)
  exact h

/-- C7, counterexample to the claim as worded: with tolerance `1/10`, the stem
that starts on the bar at parameter `1/20` touches the bar at a parameter
strictly inside the domain `[0, 10]` and at distance 0, and no other end point
touches an interior; yet no record is produced and the result is false. -/
theorem tjunction_near_domain_end_not_detected :
    SegKernel.Project (SegKernel.Value TeeStemNearEnd 0) TeeBar 0 10 = some (0, 1 / 20) ∧
      SegKernel.Project (SegKernel.Value TeeStemNearEnd 5) TeeBar 0 10 = some (5, 1 / 20) ∧
      SegKernel.Project (SegKernel.Value TeeBar 0) TeeStemNearEnd 0 5 = some (1 / 20, 0) ∧
      SegKernel.Project (SegKernel.Value TeeBar 10) TeeStemNearEnd 0 5 = some (199 / 20, 0) ∧
      FindCurvesIntersections SegKernel [TeeStemNearEnd, TeeBar] (1 / 10) = (false, []) := by
  refine ⟨?_, ?_, ?_, ?_, ?_⟩ <;>
    norm_num [FindCurvesIntersections, OuterPairs, InnerPairs, PairIntersections, CommonPartRecords,
      CheckEndpointOnSegmentIntersection, CheckPointOnCurve, SegKernel, SegProject, SegValue,
      TeeBar, TeeStemNearEnd, MakeSeg, abs_of_nonneg]

/-- C8, evaluation at the failing input: the stem and the bar of the
T-junction, given in either order, yield the same record with the same
`Parameter1 = 0` (on the stem) and `Parameter2 = 5` (on the bar); in the order
bar, stem the parameters are not exchanged although the curve roles are. -/
theorem intersections_not_swapped_on_reversed_pair :
    FindCurvesIntersections SegKernel [TeeStem, TeeBar] (1 / 10000000)
        = (true, [{ Position := ⟨5, 0, 0⟩, Curve1Index := 0, Curve2Index := 1,
                    Parameter1 := 0, Parameter2 := 5, Tolerance := 1 / 10000000 }]) ∧
      FindCurvesIntersections SegKernel [TeeBar, TeeStem] (1 / 10000000)
        = (true, [{ Position := ⟨5, 0, 0⟩, Curve1Index := 0, Curve2Index := 1,
                    Parameter1 := 0, Parameter2 := 5, Tolerance := 1 / 10000000 }]) := by
  constructor <;>
    norm_num [FindCurvesIntersections, OuterPairs, InnerPairs, PairIntersections, CommonPartRecords,
      CheckEndpointOnSegmentIntersection, CheckPointOnCurve, SegKernel, SegProject, SegValue,
      TeeBar, TeeStem, MakeSeg, abs_of_nonneg]

/-- C9, evaluation at the failing input: for the pair bar, stem the record of
the fallback names the bar as curve 0 and the stem as curve 1, but the bar at
`Parameter1` is `(0, 0)` and the stem at `Parameter2` is `(5, 5)`, neither of
which is the recorded position `(5, 0)`. -/
theorem fallback_record_not_canonical :
    ∃ r, FindCurvesIntersections SegKernel [TeeBar, TeeStem] (1 / 10000000) = (true, [r]) ∧
      r.Curve1Index = 0 ∧ r.Curve2Index = 1 ∧ r.Position = (⟨5, 0, 0⟩ : FVector) ∧
      SegKernel.Value TeeBar r.Parameter1 = (⟨0, 0, 0⟩ : FVector) ∧
      SegKernel.Value TeeStem r.Parameter2 = (⟨5, 5, 0⟩ : FVector) := by
  refine ⟨{ Position := ⟨5, 0, 0⟩, Curve1Index := 0, Curve2Index := 1,
            Parameter1 := 0, Parameter2 := 5, Tolerance := 1 / 10000000 }, ?_, rfl, rfl, rfl,
          ?_, ?_⟩ <;>
    norm_num [FindCurvesIntersections, OuterPairs, InnerPairs, PairIntersections, CommonPartRecords,
      CheckEndpointOnSegmentIntersection, CheckPointOnCurve, SegKernel, SegProject, SegValue,
      TeeBar, TeeStem, MakeSeg, abs_of_nonneg]
theorem ContainsPtr_iff (l : List UGeomCurve) (c : UGeomCurve) :
    ContainsPtr l c = true ↔ c.id ∈ l.map (fun x => x.id) := by
  simp only [ContainsPtr, List.any_eq_true, beq_iff_eq, List.mem_map]

theorem MapFind_some (cmap : List (Nat × List UGeomCurve)) (k : Nat) (l : List UGeomCurve)
    (h : MapFind cmap k = some l) :
    l.length ≤ (cmap.flatMap (fun e => e.2)).length ∧
      ∀ c ∈ l, c ∈ cmap.flatMap (fun e => e.2) := by
  induction cmap with
  | nil => simp [MapFind] at h
  | cons e rest ih =>
    obtain ⟨k0, l0⟩ := e
    simp only [MapFind] at h
    split_ifs at h with hk
    · simp only [Option.some.injEq] at h
      subst h
      simp only [List.flatMap_cons, List.length_append, List.mem_append]
      exact ⟨Nat.le_add_right _ _, fun c hc => Or.inl hc⟩
    · obtain ⟨h1, h2⟩ := ih h
      simp only [List.flatMap_cons, List.length_append, List.mem_append]
      exact ⟨by omega, fun c hc => Or.inr (h2 c hc)⟩

theorem Connections_bound (cmap : List (Nat × List UGeomCurve)) (c : UGeomCurve) :
    (Connections cmap c).length ≤ (cmap.flatMap (fun e => e.2)).length ∧
      ∀ d ∈ Connections cmap c, d ∈ cmap.flatMap (fun e => e.2) := by
  unfold Connections
  cases h : MapFind cmap c.id with
  | none => simp
  | some l => simpa using MapFind_some cmap c.id l h

theorem PopMarks_spec (M : Nat) (top : StackItem) (rest : List StackItem)
    (rpath : List UGeomCurve) :
    ∃ k, (PopMarks top rest rpath).2.2 = rpath.drop k ∧
      (∀ c, StackItem.curve c ∈ (PopMarks top rest rpath).2.1 → StackItem.curve c ∈ top :: rest) ∧
      ((PopMarks top rest rpath).1 = none → (PopMarks top rest rpath).2.1 = []) ∧
      (∀ c, (PopMarks top rest rpath).1 = some c →
        StackItem.curve c ∈ top :: rest ∧
        MarkCount (top :: rest) = MarkCount (PopMarks top rest rpath).2.1 + k ∧
        StackWeight M (PopMarks top rest rpath).2.1
            + (M + 2) ^ (M + 1 - MarkCount (PopMarks top rest rpath).2.1 + 1) + k
          ≤ StackWeight M (top :: rest)) := by
  induction rest generalizing top rpath with
  | nil =>
    cases top with
    | mark => exact ⟨0, by simp [PopMarks], by simp [PopMarks], by simp [PopMarks],
        by simp [PopMarks]⟩
    | curve c =>
      refine ⟨0, by simp [PopMarks], by simp [PopMarks], by simp [PopMarks], ?_⟩
      intro c2 h
      simp only [PopMarks, Option.some.injEq] at h
      subst h
      simp [PopMarks, MarkCount, StackWeight]
  | cons x rest ih =>
    cases top with
    | curve c =>
      refine ⟨0, by simp [PopMarks], ?_, by simp [PopMarks], ?_⟩
      · intro c2 h
        simp only [PopMarks] at h
        exact List.mem_cons_of_mem _ h
      · intro c2 h
        simp only [PopMarks, Option.some.injEq] at h
        subst h
        simp [PopMarks, MarkCount, StackWeight]
    | mark =>
      obtain ⟨k, h1, h2, h3, h4⟩ := ih x rpath.tail
      refine ⟨k + 1, ?_, ?_, ?_, ?_⟩
      · simp only [PopMarks]
        rw [h1]
        cases rpath <;> simp
      · intro c hc
        simp only [PopMarks] at hc
        exact List.mem_cons_of_mem _ (h2 c hc)
      · simpa only [PopMarks] using h3
      · intro c hc
        simp only [PopMarks] at hc ⊢
        obtain ⟨a1, a2, a3⟩ := h4 c hc
        refine ⟨List.mem_cons_of_mem _ a1, ?_, ?_⟩
        · simp only [MarkCount] at a2 ⊢
          omega
        · simp only [StackWeight] at a3 ⊢
          omega

theorem VisitConnected_fold_stack (cmap : List (Nat × List UGeomCurve)) (start : UGeomCurve)
    (rpath : List UGeomCurve) (nbrs : List UGeomCurve) (s : List StackItem)
    (acc : List (List UGeomCurve)) :
    ∃ pushed : List UGeomCurve,
      (nbrs.foldl (VisitConnected cmap start rpath) (s, acc)).1
          = pushed.map StackItem.curve ++ s ∧
        pushed.length ≤ nbrs.length ∧ ∀ c ∈ pushed, c ∈ nbrs := by
  induction nbrs generalizing s acc with
  | nil => exact ⟨[], by simp, by simp, by simp⟩
  | cons n nbrs ih =>
    simp only [List.foldl_cons]
    have hcases : VisitConnected cmap start rpath (s, acc) n
          = (s, (VisitConnected cmap start rpath (s, acc) n).2) ∨
        VisitConnected cmap start rpath (s, acc) n = (StackItem.curve n :: s, acc) := by
      unfold VisitConnected
      split_ifs
      · left; rfl
      · split
        · split_ifs
          · left; rfl
          · left; rfl
        · left; rfl
      · left; rfl
      · split
        · split_ifs
          · left; rfl
          · right; rfl
        · right; rfl
    rcases hcases with h | h
    · rw [h]
      obtain ⟨pushed, h1, h2, h3⟩ := ih s (VisitConnected cmap start rpath (s, acc) n).2
      exact ⟨pushed, h1, by simp only [List.length_cons]; omega,
        fun c hc => List.mem_cons_of_mem _ (h3 c hc)⟩
    · rw [h]
      obtain ⟨pushed, h1, h2, h3⟩ := ih (StackItem.curve n :: s) acc
      refine ⟨pushed ++ [n], ?_, ?_, ?_⟩
      · rw [h1]; simp
      · simp only [List.length_append, List.length_cons, List.length_nil]; omega
      · intro c hc
        rcases List.mem_append.mp hc with hc | hc
        · exact List.mem_cons_of_mem _ (h3 c hc)
        · simp only [List.mem_singleton] at hc
          subst hc
          exact List.mem_cons_self _ _

theorem MarkCount_pushed (pushed : List UGeomCurve) (s : List StackItem) :
    MarkCount (pushed.map StackItem.curve ++ s) = MarkCount s := by
  induction pushed with
  | nil => rfl
  | cons p pushed ih =>
    show MarkCount (StackItem.curve p :: (pushed.map StackItem.curve ++ s)) = _
    simpa only [MarkCount] using ih

theorem StackWeight_pushed (M : Nat) (pushed : List UGeomCurve) (s : List StackItem) :
    StackWeight M (pushed.map StackItem.curve ++ s)
      = StackWeight M s + pushed.length * (M + 2) ^ (M + 1 - MarkCount s + 1) := by
  induction pushed with
  | nil => simp
  | cons p pushed ih =>
    show StackWeight M (StackItem.curve p :: (pushed.map StackItem.curve ++ s)) = _
    simp only [StackWeight, MarkCount_pushed, ih, List.length_cons]
    ring
theorem DfsLoop_terminates_aux (cmap : List (Nat × List UGeomCurve)) (start : UGeomCurve) :
    ∀ (fuel : Nat) (stack : List StackItem) (rpath : List UGeomCurve)
      (acc : List (List UGeomCurve)),
      DfsInv cmap start stack rpath →
      StackWeight (cmap.flatMap (fun e => e.2)).length stack < fuel →
      (DfsLoop cmap start fuel stack rpath acc).isSome = true := by
  intro fuel
  induction fuel with
  | zero => intro stack rpath acc _ h; omega
  | succ fuel ih =>
    intro stack rpath acc hinv hw
    cases stack with
    | nil => simp [DfsLoop]
    | cons top rest =>
      obtain ⟨hmc, hnd, hpu, hsu⟩ := hinv
      obtain ⟨k, h1, h2, h3, h4⟩ :=
        PopMarks_spec (cmap.flatMap (fun e => e.2)).length top rest rpath
      unfold DfsLoop
      rcases hpm : PopMarks top rest rpath with ⟨oc, stack1, rpath1⟩
      rw [hpm] at h1 h2 h3 h4
      simp only at h1 h2 h3 h4
      cases oc with
      | none =>
        have := h3 rfl
        subst this
        simp [DfsLoop]
      | some c =>
        obtain ⟨hcin, hcount, hweight⟩ := h4 c rfl
        have hlen1 : MarkCount stack1 = rpath1.length := by
          rw [h1, List.length_drop]; omega
        have hnd1 : (rpath1.map (fun c => c.id)).Nodup := by
          rw [h1]
          exact hnd.sublist ((List.drop_sublist k rpath).map _)
        have hpu1 : ∀ c ∈ rpath1, c.id ∈ SearchUniverse cmap start := by
          intro d hd
          rw [h1] at hd
          exact hpu d (List.mem_of_mem_drop hd)
        have hsu1 : ∀ c, StackItem.curve c ∈ stack1 → c.id ∈ SearchUniverse cmap start :=
          fun d hd => hsu d (h2 d hd)
        simp only
        split_ifs with hcont
        · apply ih
          · exact ⟨hlen1, hnd1, hpu1, hsu1⟩
          · have : 0 < ((cmap.flatMap (fun e => e.2)).length + 2)
                ^ ((cmap.flatMap (fun e => e.2)).length + 1 - MarkCount stack1 + 1) :=
              Nat.pow_pos (by omega)
            omega
        · have hcu : c.id ∈ SearchUniverse cmap start := hsu c hcin
          have hnotin : c.id ∉ rpath1.map (fun c => c.id) := by
            rw [← ContainsPtr_iff]; simpa using hcont
          have hnd2 : ((c :: rpath1).map (fun c => c.id)).Nodup := by
            simp only [List.map_cons, List.nodup_cons]
            exact ⟨hnotin, hnd1⟩
          have hpu2 : ∀ d ∈ c :: rpath1, d.id ∈ SearchUniverse cmap start := by
            intro d hd
            rcases List.mem_cons.mp hd with rfl | hd
            · exact hcu
            · exact hpu1 d hd
          have hpig : (c :: rpath1).length ≤ (cmap.flatMap (fun e => e.2)).length + 1 := by
            have hsub : (c :: rpath1).map (fun c => c.id) ⊆ SearchUniverse cmap start := by
              intro x hx
              obtain ⟨d, hd, rfl⟩ := List.mem_map.mp hx
              exact hpu2 d hd
            have := (hnd2.subperm hsub).length_le
            simpa [SearchUniverse] using this
          obtain ⟨pushed, hp1, hp2, hp3⟩ := VisitConnected_fold_stack cmap start (c :: rpath1)
            (Connections cmap c) (StackItem.mark :: stack1) acc
          obtain ⟨hb1, hb2⟩ := Connections_bound cmap c
          apply ih
          · rw [hp1]
            refine ⟨?_, hnd2, hpu2, ?_⟩
            · rw [MarkCount_pushed]
              simp only [MarkCount, List.length_cons, hlen1]
            · intro d hd
              rcases List.mem_append.mp hd with hd | hd
              · obtain ⟨e, he, hde⟩ := List.mem_map.mp hd
                simp only [StackItem.curve.injEq] at hde
                subst hde
                have := hb2 e (hp3 e he)
                simp only [SearchUniverse, List.mem_cons, List.mem_map]
                exact Or.inr ⟨e, this, rfl⟩
              · rcases List.mem_cons.mp hd with hd | hd
                · cases hd
                · exact hsu1 d hd
          · rw [hp1, StackWeight_pushed]
            simp only [StackWeight, MarkCount]
            simp only [List.length_cons] at hpig
            rw [← hlen1] at hpig
            generalize (cmap.flatMap (fun e => e.2)).length = M at *
            generalize MarkCount stack1 = d at *
            have e1 : M + 1 - (d + 1) + 1 = M + 1 - d := by omega
            have e2 : M + 1 - d + 1 = (M + 1 - d) + 1 := rfl
            rw [e1]
            rw [pow_succ] at hweight
            have hX : 0 < (M + 2) ^ (M + 1 - d) := Nat.pow_pos (by omega)
            have hpM : pushed.length * (M + 2) ^ (M + 1 - d) ≤ M * (M + 2) ^ (M + 1 - d) :=
              Nat.mul_le_mul_right _ (le_trans hp2 hb1)
            have hexp : (M + 2) ^ (M + 1 - d) * (M + 2)
                = M * (M + 2) ^ (M + 1 - d) + 2 * (M + 2) ^ (M + 1 - d) := by ring
            omega

/-- Every search of `GetClosedCurvesListFromUnorderCurves` ends within `DfsFuel`
rounds: the bounded loop never reports that it ran out of rounds. -/
theorem DfsLoop_terminates (cmap : List (Nat × List UGeomCurve)) (start : UGeomCurve)
    (acc : List (List UGeomCurve)) (fuel : Nat) (hfuel : DfsFuel cmap ≤ fuel) :
    (DfsLoop cmap start fuel [StackItem.curve start] [] acc).isSome = true := by
  apply DfsLoop_terminates_aux
  · refine ⟨rfl, by simp, by simp, ?_⟩
    intro c hc
    simp only [List.mem_singleton, StackItem.curve.injEq] at hc
    subst hc
    simp [SearchUniverse]
  · simp only [StackWeight, MarkCount, Nat.sub_zero, Nat.zero_add]
    unfold DfsFuel at hfuel
    have e : (cmap.flatMap (fun e => e.2)).length + 1 + 1
        = (cmap.flatMap (fun e => e.2)).length + 2 := rfl
    rw [e]
    omega
theorem DfsLoop_fuel_succ (cmap : List (Nat × List UGeomCurve)) (start : UGeomCurve) :
    ∀ (fuel : Nat) (stack : List StackItem) (rpath : List UGeomCurve)
      (acc r : List (List UGeomCurve)),
      DfsLoop cmap start fuel stack rpath acc = some r →
      DfsLoop cmap start (fuel + 1) stack rpath acc = some r := by
  intro fuel
  induction fuel with
  | zero =>
    intro stack rpath acc r h
    cases stack with
    | nil => simpa [DfsLoop] using h
    | cons top rest => simp [DfsLoop] at h
  | succ fuel ih =>
    intro stack rpath acc r h
    cases stack with
    | nil => simpa [DfsLoop] using h
    | cons top rest =>
      unfold DfsLoop at h ⊢
      rcases hpm : PopMarks top rest rpath with ⟨oc, stack1, rpath1⟩
      rw [hpm] at h
      cases oc with
      | none => exact ih _ _ _ _ h
      | some c =>
        simp only at h ⊢
        split_ifs at h ⊢ with hc
        · exact ih _ _ _ _ h
        · exact ih _ _ _ _ h

theorem DfsLoop_fuel_mono (cmap : List (Nat × List UGeomCurve)) (start : UGeomCurve)
    (fuel fuel2 : Nat) (hle : fuel ≤ fuel2) (stack : List StackItem) (rpath : List UGeomCurve)
    (acc r : List (List UGeomCurve)) (h : DfsLoop cmap start fuel stack rpath acc = some r) :
    DfsLoop cmap start fuel2 stack rpath acc = some r := by
  induction hle with
  | refl => exact h
  | step _ ih => exact DfsLoop_fuel_succ _ _ _ _ _ _ _ ih

theorem SearchAll_fuel_mono (cmap : List (Nat × List UGeomCurve)) (fuel fuel2 : Nat)
    (hle : fuel ≤ fuel2) :
    ∀ (rest before : List UGeomCurve) (acc r : List (List UGeomCurve)),
      SearchAll cmap fuel before rest acc = some r →
      SearchAll cmap fuel2 before rest acc = some r := by
  intro rest
  induction rest with
  | nil => intro before acc r h; simpa [SearchAll] using h
  | cons c rest ih =>
    intro before acc r h
    unfold SearchAll at h ⊢
    split_ifs at h ⊢ with hn
    · cases hd : DfsLoop cmap c fuel [StackItem.curve c] [] acc with
      | none => rw [hd] at h; simp at h
      | some acc1 =>
        rw [hd] at h
        rw [DfsLoop_fuel_mono cmap c fuel fuel2 hle _ _ _ _ hd]
        exact ih _ _ _ h
    · exact ih _ _ _ h

theorem SearchAll_terminates (cmap : List (Nat × List UGeomCurve)) (fuel : Nat)
    (hfuel : DfsFuel cmap ≤ fuel) :
    ∀ (rest before : List UGeomCurve) (acc : List (List UGeomCurve)),
      (SearchAll cmap fuel before rest acc).isSome = true := by
  intro rest
  induction rest with
  | nil => intro before acc; simp [SearchAll]
  | cons c rest ih =>
    intro before acc
    unfold SearchAll
    split_ifs with hn
    · have := DfsLoop_terminates cmap c acc fuel hfuel
      cases hd : DfsLoop cmap c fuel [StackItem.curve c] [] acc with
      | none => rw [hd] at this; simp at this
      | some acc1 => exact ih _ _
    · exact ih _ _

/-- The result of the searches does not depend on the number of rounds granted,
once one number of rounds lets them all end. -/
theorem SearchAll_eq_of_some (cmap : List (Nat × List UGeomCurve)) (fuel : Nat)
    (Curves : List UGeomCurve) (r : List (List UGeomCurve))
    (h : SearchAll cmap fuel [] Curves [] = some r) :
    (SearchAll cmap (DfsFuel cmap) [] Curves []).getD [] = r := by
  have ht := SearchAll_terminates cmap (DfsFuel cmap) (le_refl _) Curves [] []
  cases hd : SearchAll cmap (DfsFuel cmap) [] Curves [] with
  | none => rw [hd] at ht; simp at ht
  | some r2 =>
    have a := SearchAll_fuel_mono cmap fuel (max fuel (DfsFuel cmap)) (le_max_left _ _) _ _ _ _ h
    have b := SearchAll_fuel_mono cmap (DfsFuel cmap) (max fuel (DfsFuel cmap))
      (le_max_right _ _) _ _ _ _ hd
    rw [a] at b
    simp only [Option.some.injEq] at b
    simp [b]
theorem MapFind_MapFindOrAddPush (m : List (Nat × List UGeomCurve)) (k : Nat) (v : UGeomCurve)
    (k2 : Nat) :
    (MapFind (MapFindOrAddPush m k v) k2).getD []
      = (MapFind m k2).getD [] ++ (if k = k2 then [v] else []) := by
  induction m with
  | nil =>
    simp only [MapFindOrAddPush, MapFind]
    split_ifs <;> simp
  | cons e rest ih =>
    obtain ⟨k0, l⟩ := e
    by_cases h1 : k0 = k
    · by_cases h2 : k = k2
      · subst h1; subst h2; simp [MapFindOrAddPush, MapFind]
      · subst h1; simp [MapFindOrAddPush, MapFind, h2]
    · by_cases h3 : k0 = k2
      · have h4 : k ≠ k2 := fun h => h1 (h3.trans h.symm)
        subst h3
        simp [MapFindOrAddPush, MapFind, h1, h4]
      · simpa [MapFindOrAddPush, MapFind, h1, h3] using ih

theorem InnerFold_find (eps : ℚ) (c1 : UGeomCurve) (cs : List UGeomCurve)
    (m : List (Nat × List UGeomCurve)) (k2 : Nat) :
    (MapFind (cs.foldl (fun m2 Curve2 =>
        if c1.id ≠ Curve2.id ∧ AreCurvesConnectedNoOrder c1 Curve2 eps = true then
          MapFindOrAddPush m2 c1.id Curve2
        else m2) m) k2).getD []
      = (MapFind m k2).getD [] ++ (if c1.id = k2 then ConnectedTo eps cs c1 else []) := by
  induction cs generalizing m with
  | nil => simp [ConnectedTo]
  | cons c2 cs ih =>
    simp only [List.foldl_cons]
    rw [ih]
    by_cases hc : c1.id ≠ c2.id ∧ AreCurvesConnectedNoOrder c1 c2 eps = true
    · rw [if_pos hc, MapFind_MapFindOrAddPush]
      split_ifs with hk
      · simp [ConnectedTo, List.filter_cons, hc.1, hc.2]
      · simp
    · rw [if_neg hc]
      congr 1
      split_ifs with hk
      · simp only [ConnectedTo, List.filter_cons]
        have : (decide (c1.id ≠ c2.id) && AreCurvesConnectedNoOrder c1 c2 eps) = false := by
          by_contra hcon
          simp only [Bool.not_eq_false, Bool.and_eq_true, decide_eq_true_eq] at hcon
          exact hc hcon
        rw [this]
        simp
      · rfl

theorem OuterFold_find (eps : ℚ) (cs l : List UGeomCurve) (m : List (Nat × List UGeomCurve))
    (k2 : Nat) :
    (MapFind (l.foldl (fun m Curve1 =>
        cs.foldl (fun m2 Curve2 =>
          if Curve1.id ≠ Curve2.id ∧ AreCurvesConnectedNoOrder Curve1 Curve2 eps = true then
            MapFindOrAddPush m2 Curve1.id Curve2
          else m2) m) m) k2).getD []
      = (MapFind m k2).getD []
          ++ l.flatMap (fun c1 => if c1.id = k2 then ConnectedTo eps cs c1 else []) := by
  induction l generalizing m with
  | nil => simp
  | cons c1 l ih =>
    simp only [List.foldl_cons, List.flatMap_cons]
    rw [ih, InnerFold_find, List.append_assoc]

/-- The connection list of a curve: for every occurrence of the object in the
array, the other objects of the array that share an end point with it. -/
theorem Connections_BuildConnectionMap (eps : ℚ) (cs : List UGeomCurve) (c : UGeomCurve) :
    Connections (BuildConnectionMap eps cs) c
      = cs.flatMap (fun c1 => if c1.id = c.id then ConnectedTo eps cs c1 else []) := by
  unfold Connections BuildConnectionMap
  rw [OuterFold_find]
  simp [MapFind]

theorem Connections_subset (eps : ℚ) (cs : List UGeomCurve) (c d : UGeomCurve)
    (h : d ∈ Connections (BuildConnectionMap eps cs) c) : d ∈ cs := by
  rw [Connections_BuildConnectionMap] at h
  obtain ⟨c1, _, h2⟩ := List.mem_flatMap.mp h
  split_ifs at h2
  · exact (List.mem_filter.mp h2).1
  · simp at h2

theorem Connections_mem_of_connected (eps : ℚ) (cs : List UGeomCurve) (a b : UGeomCurve)
    (ha : a ∈ cs) (hb : b ∈ cs) (hne : a.id ≠ b.id)
    (hconn : AreCurvesConnectedNoOrder a b eps = true) :
    b ∈ Connections (BuildConnectionMap eps cs) a := by
  rw [Connections_BuildConnectionMap]
  refine List.mem_flatMap.mpr ⟨a, ha, ?_⟩
  simp only [if_true, ConnectedTo]
  exact List.mem_filter.mpr ⟨hb, by simp [hne, hconn]⟩

theorem VisitConnected_fold_acc (cmap : List (Nat × List UGeomCurve)) (start : UGeomCurve)
    (rpath : List UGeomCurve) (nbrs : List UGeomCurve) (s : List StackItem)
    (acc : List (List UGeomCurve)) :
    ∀ L ∈ (nbrs.foldl (VisitConnected cmap start rpath) (s, acc)).2,
      L ∈ acc ∨ L = rpath.reverse := by
  induction nbrs generalizing s acc with
  | nil => intro L hL; exact Or.inl hL
  | cons n nbrs ih =>
    intro L hL
    simp only [List.foldl_cons] at hL
    have hstep : ∀ L2 ∈ (VisitConnected cmap start rpath (s, acc) n).2,
        L2 ∈ acc ∨ L2 = rpath.reverse := by
      intro L2 hL2
      unfold VisitConnected at hL2
      split_ifs at hL2
      · simpa using hL2
      · split at hL2
        · split_ifs at hL2
          · simpa using hL2
          · exact Or.inl hL2
        · exact Or.inl hL2
      · exact Or.inl hL2
      · split at hL2
        · split_ifs at hL2
          · exact Or.inl hL2
          · exact Or.inl hL2
        · exact Or.inl hL2
    rcases ih _ _ L hL with h | h
    · exact hstep L h
    · exact Or.inr h

theorem DfsLoop_loops_good (cs : List UGeomCurve) (cmap : List (Nat × List UGeomCurve))
    (start : UGeomCurve) (hmap : ∀ c d, d ∈ Connections cmap c → d ∈ cs) :
    ∀ (fuel : Nat) (stack : List StackItem) (rpath : List UGeomCurve)
      (acc r : List (List UGeomCurve)),
      DfsGood cs stack rpath → (∀ L ∈ acc, LoopGood cs L) →
      DfsLoop cmap start fuel stack rpath acc = some r → ∀ L ∈ r, LoopGood cs L := by
  intro fuel
  induction fuel with
  | zero =>
    intro stack rpath acc r _ hacc h
    cases stack with
    | nil => simp only [DfsLoop, Option.some.injEq] at h; subst h; exact hacc
    | cons top rest => simp [DfsLoop] at h
  | succ fuel ih =>
    intro stack rpath acc r hgood hacc h
    cases stack with
    | nil => simp only [DfsLoop, Option.some.injEq] at h; subst h; exact hacc
    | cons top rest =>
      obtain ⟨hnd, hpu, hsu⟩ := hgood
      obtain ⟨k, h1, h2, h3, h4⟩ := PopMarks_spec 0 top rest rpath
      unfold DfsLoop at h
      rcases hpm : PopMarks top rest rpath with ⟨oc, stack1, rpath1⟩
      rw [hpm] at h h1 h2 h3 h4
      simp only at h1 h2 h3 h4
      have hnd1 : (rpath1.map (fun c => c.id)).Nodup := by
        rw [h1]
        exact hnd.sublist ((List.drop_sublist k rpath).map _)
      have hpu1 : ∀ c ∈ rpath1, c ∈ cs := by
        intro d hd
        rw [h1] at hd
        exact hpu d (List.mem_of_mem_drop hd)
      have hsu1 : ∀ c, StackItem.curve c ∈ stack1 → c ∈ cs := fun d hd => hsu d (h2 d hd)
      cases oc with
      | none => exact ih _ _ _ _ ⟨hnd1, hpu1, hsu1⟩ hacc h
      | some c =>
        obtain ⟨hcin, -, -⟩ := h4 c rfl
        simp only at h
        split_ifs at h with hcont
        · exact ih _ _ _ _ ⟨hnd1, hpu1, hsu1⟩ hacc h
        · have hcs : c ∈ cs := hsu c hcin
          have hnotin : c.id ∉ rpath1.map (fun c => c.id) := by
            rw [← ContainsPtr_iff]; simpa using hcont
          have hnd2 : ((c :: rpath1).map (fun c => c.id)).Nodup := by
            simp only [List.map_cons, List.nodup_cons]
            exact ⟨hnotin, hnd1⟩
          have hpu2 : ∀ d ∈ c :: rpath1, d ∈ cs := by
            intro d hd
            rcases List.mem_cons.mp hd with rfl | hd
            · exact hcs
            · exact hpu1 d hd
          obtain ⟨pushed, hp1, -, hp3⟩ := VisitConnected_fold_stack cmap start (c :: rpath1)
            (Connections cmap c) (StackItem.mark :: stack1) acc
          have hacc2 := VisitConnected_fold_acc cmap start (c :: rpath1)
            (Connections cmap c) (StackItem.mark :: stack1) acc
          refine ih _ _ _ _ ⟨hnd2, hpu2, ?_⟩ ?_ h
          · rw [hp1]
            intro d hd
            rcases List.mem_append.mp hd with hd | hd
            · obtain ⟨e, he, hde⟩ := List.mem_map.mp hd
              simp only [StackItem.curve.injEq] at hde
              subst hde
              exact hmap c e (hp3 e he)
            · rcases List.mem_cons.mp hd with hd | hd
              · cases hd
              · exact hsu1 d hd
          · intro L hL
            rcases hacc2 L hL with hL | hL
            · exact hacc L hL
            · subst hL
              refine ⟨?_, fun d hd => hpu2 d (List.mem_reverse.mp hd)⟩
              rw [List.map_reverse]
              exact List.nodup_reverse.mpr hnd2

theorem SearchAll_loops_good (cs : List UGeomCurve) (cmap : List (Nat × List UGeomCurve))
    (fuel : Nat) (hmap : ∀ c d, d ∈ Connections cmap c → d ∈ cs) :
    ∀ (rest before : List UGeomCurve) (acc r : List (List UGeomCurve)),
      (∀ c ∈ rest, c ∈ cs) → (∀ L ∈ acc, LoopGood cs L) →
      SearchAll cmap fuel before rest acc = some r → ∀ L ∈ r, LoopGood cs L := by
  intro rest
  induction rest with
  | nil =>
    intro before acc r _ hacc h
    simp only [SearchAll, Option.some.injEq] at h
    subst h; exact hacc
  | cons c rest ih =>
    intro before acc r hrest hacc h
    unfold SearchAll at h
    have hrest2 : ∀ d ∈ rest, d ∈ cs := fun d hd => hrest d (List.mem_cons_of_mem _ hd)
    split_ifs at h with hn
    · cases hd : DfsLoop cmap c fuel [StackItem.curve c] [] acc with
      | none => rw [hd] at h; simp at h
      | some acc1 =>
        rw [hd] at h
        refine ih _ _ _ hrest2 ?_ h
        refine DfsLoop_loops_good cs cmap c hmap fuel _ _ _ _ ⟨by simp, by simp, ?_⟩ hacc hd
        intro d hd2
        simp only [List.mem_singleton, StackItem.curve.injEq] at hd2
        subst hd2
        exact hrest d (List.mem_cons_self _ _)
    · exact ih _ _ _ hrest2 hacc h
theorem RemoveRepeatedLines_subset (tol : ℚ) :
    ∀ (n : Nat) (l : List UGeomCurve), l.length ≤ n →
      ∀ c ∈ RemoveRepeatedLines tol l, c ∈ l := by
  intro n
  induction n with
  | zero =>
    intro l hl c hc
    have : l = [] := List.length_eq_zero.mp (Nat.le_zero.mp hl)
    subst this
    simp [RemoveRepeatedLines] at hc
  | succ n ih =>
    intro l hl c hc
    cases l with
    | nil => simp [RemoveRepeatedLines] at hc
    | cons a rest =>
      rw [RemoveRepeatedLines] at hc
      rcases List.mem_cons.mp hc with rfl | hc
      · exact List.mem_cons_self _ _
      · have hlen : (rest.filter (fun d => !IsRepeatedLine tol a d)).length ≤ n := by
          have := List.length_filter_le (fun d => !IsRepeatedLine tol a d) rest
          simp only [List.length_cons] at hl
          omega
        exact List.mem_cons_of_mem _ (List.mem_of_mem_filter (ih _ hlen c hc))

theorem DistLt_self (P : FVector) (eps : ℚ) (heps : 0 < eps) : P.DistLt P eps = true := by
  simp [FVector.DistLt, FVector.DistSquared, heps, pow_pos heps]

theorem Equals_self (P : FVector) (eps : ℚ) (heps : 0 ≤ eps) : P.Equals P eps = true := by
  simp [FVector.Equals, heps]

theorem star_connected (center : FVector) (eps : ℚ) (heps : 0 < eps) (a b : UGeomCurve)
    (ha : a.StartPoint = center ∨ a.EndPoint = center)
    (hb : b.StartPoint = center ∨ b.EndPoint = center) :
    AreCurvesConnectedNoOrder a b eps = true := by
  unfold AreCurvesConnectedNoOrder
  rcases ha with ha | ha <;> rcases hb with hb | hb <;>
    simp [ha, hb, DistLt_self center eps heps]

theorem PointCountAdd_mem_of_ne (D : List (FVector × Nat)) (k P : FVector) (v n : Nat)
    (h : (k, v) ∈ D) (hne : k ≠ P) : (k, v) ∈ PointCountAdd D P n := by
  induction D with
  | nil => simp at h
  | cons e rest ih =>
    obtain ⟨k0, v0⟩ := e
    simp only [PointCountAdd]
    split_ifs with h0
    · rcases List.mem_cons.mp h with h | h
      · simp only [Prod.mk.injEq] at h
        exact absurd (h.1.trans h0) hne
      · exact List.mem_cons_of_mem _ h
    · rcases List.mem_cons.mp h with h | h
      · rw [h]; exact List.mem_cons_self _ _
      · exact List.mem_cons_of_mem _ (ih h)

theorem PointCountAdd_mem_self (D : List (FVector × Nat)) (P : FVector) (n : Nat)
    (h : ∀ e ∈ D, e.1 ≠ P) : (P, n) ∈ PointCountAdd D P n := by
  induction D with
  | nil => simp [PointCountAdd]
  | cons e rest ih =>
    obtain ⟨k0, v0⟩ := e
    have h0 : k0 ≠ P := h (k0, v0) (List.mem_cons_self _ _)
    simp only [PointCountAdd, h0, if_false]
    exact List.mem_cons_of_mem _ (ih (fun e he => h e (List.mem_cons_of_mem _ he)))

theorem TriangleStep_center (center : FVector) (eps : ℚ) (heps : 0 ≤ eps)
    (D : List (FVector × Nat)) (c : UGeomCurve) (v : Nat)
    (hc : c.StartPoint = center ∨ c.EndPoint = center) (h : (center, v) ∈ D) :
    ∃ v2, v + 1 ≤ v2 ∧ (center, v2) ∈ TriangleStep eps D c := by
  unfold TriangleStep
  simp only
  set D1 := D.map (fun e =>
    (e.1, e.2 + (if e.1.Equals c.StartPoint eps then 1 else 0)
            + (if e.1.Equals c.EndPoint eps then 1 else 0))) with hD1
  have hv2 : ∃ v2, v + 1 ≤ v2 ∧ (center, v2) ∈ D1 := by
    refine ⟨v + (if center.Equals c.StartPoint eps then 1 else 0)
            + (if center.Equals c.EndPoint eps then 1 else 0), ?_, ?_⟩
    · rcases hc with hc | hc
      · rw [hc, Equals_self center eps heps]; simp
      · rw [hc, Equals_self center eps heps]; simp
    · rw [hD1]
      exact List.mem_map.mpr ⟨(center, v), h, rfl⟩
  obtain ⟨v2, hv, hmem⟩ := hv2
  refine ⟨v2, hv, ?_⟩
  have step : ∀ (P : FVector) (D2 : List (FVector × Nat)), (center, v2) ∈ D2 →
      (center, v2) ∈ (if D.any (fun e => e.1.Equals P eps) = true then D2
        else PointCountAdd D2 P 1) := by
    intro P D2 hD2
    split_ifs with hany
    · exact hD2
    · apply PointCountAdd_mem_of_ne _ _ _ _ _ hD2
      intro hcp
      apply hany
      rw [List.any_eq_true]
      exact ⟨(center, v), h, by simp [← hcp, Equals_self center eps heps]⟩
  exact step c.EndPoint _ (step c.StartPoint _ hmem)

theorem TriangleStep_nil_center (center : FVector) (eps : ℚ) (c : UGeomCurve)
    (hc : c.StartPoint = center ∨ c.EndPoint = center) :
    (center, 1) ∈ TriangleStep eps [] c := by
  unfold TriangleStep
  simp only [List.any_nil, List.map_nil, Bool.false_eq_true, if_false, PointCountAdd]
  split_ifs with h
  · rcases hc with hc | hc
    · simp [hc]
    · simp [h, hc]
  · rcases hc with hc | hc
    · simp [hc]
    · simp [hc]

theorem star_triangle_invalid (center : FVector) (eps : ℚ) (heps : 0 ≤ eps)
    (L : List UGeomCurve) (hL : ∀ c ∈ L, c.StartPoint = center ∨ c.EndPoint = center) :
    IsValidTriangle eps L = false := by
  unfold IsValidTriangle
  split_ifs with hlen
  · rfl
  · push_neg at hlen
    obtain ⟨a, b, c, rfl⟩ := List.length_eq_three.mp hlen
    · simp only [List.foldl_cons, List.foldl_nil]
      have h1 := TriangleStep_nil_center center eps a (hL a (by simp))
      obtain ⟨v2, hv2, h2⟩ := TriangleStep_center center eps heps _ b 1 (hL b (by simp)) h1
      obtain ⟨v3, hv3, h3⟩ := TriangleStep_center center eps heps _ c v2 (hL c (by simp)) h2
      rw [Bool.and_eq_false_iff]
      right
      rw [List.all_eq_false]
      exact ⟨(center, v3), h3, by simp; omega⟩
theorem star_loop_invalid (center : FVector) (eps : ℚ) (heps : 0 < eps)
    (cs : List UGeomCurve) (hstar : IsStar center cs) (L : List UGeomCurve)
    (hL : LoopGood cs L) : LoopIsValid eps (BuildConnectionMap eps cs) L = false := by
  obtain ⟨hnd, hmem⟩ := hL
  unfold LoopIsValid
  split_ifs with h3 h4 h2
  · exact star_triangle_invalid center eps (le_of_lt heps) L (fun c hc => (hstar c (hmem c hc)).2)
  · have h0 : 0 < L.length := by omega
    have hk : L.length - 2 < L.length := by omega
    have hmod : (0 + L.length - 2) % L.length = L.length - 2 := by
      rw [Nat.zero_add]; exact Nat.mod_eq_of_lt hk
    have ha : L[0] ∈ cs := hmem _ (List.getElem_mem _)
    have hb : L[L.length - 2] ∈ cs := hmem _ (List.getElem_mem _)
    have hne : L[0].id ≠ L[L.length - 2].id := by
      intro heq
      have hinj := List.nodup_iff_injective_get.mp hnd
      have hlen : (L.map (fun c => c.id)).length = L.length := List.length_map _ _
      have := @hinj ⟨0, by omega⟩ ⟨L.length - 2, by omega⟩ (by simpa using heq)
      simp only [Fin.mk.injEq] at this
      omega
    have hconn := Connections_mem_of_connected eps cs _ _ ha hb hne
      (star_connected center eps heps _ _ (hstar _ ha).2 (hstar _ hb).2)
    simp only [Bool.not_eq_false', List.any_eq_true, List.mem_range]
    refine ⟨0, h0, ?_⟩
    rw [hmod, List.getElem?_eq_getElem h0, List.getElem?_eq_getElem hk]
    simp only
    rw [ContainsPtr_iff]
    exact List.mem_map.mpr ⟨_, hconn, rfl⟩
  · obtain ⟨p0, p1, rfl⟩ := List.length_eq_two.mp h2
    have hk := (hstar p0 (hmem p0 (by simp))).1
    simp [UGeomCurve.IsArcOfCircle, hk]
  · rfl

theorem star_search_empty (sortGroups : List UGeomCurve → List UGeomCurve)
    (tolRep eps : ℚ) (center : FVector) (InCurves : List UGeomCurve) (heps : 0 < eps)
    (hstar : IsStar center InCurves) (hsort : ∀ l c, c ∈ sortGroups l → c ∈ l) :
    GetClosedCurvesListFromUnorderCurves sortGroups tolRep eps InCurves = [] := by
  unfold GetClosedCurvesListFromUnorderCurves
  split_ifs with h0
  · rfl
  · simp only
    set Curves := sortGroups (RemoveRepeatedLines tolRep InCurves) with hCurves
    set cmap := BuildConnectionMap eps Curves with hcmap
    have hsub : ∀ c ∈ Curves, c ∈ InCurves := fun c hc =>
      RemoveRepeatedLines_subset tolRep _ _ (le_refl _) c (hsort _ c hc)
    have hstar2 : IsStar center Curves := fun c hc => hstar c (hsub c hc)
    have hterm := SearchAll_terminates cmap (DfsFuel cmap) (le_refl _) Curves [] []
    cases hd : SearchAll cmap (DfsFuel cmap) [] Curves [] with
    | none => rw [hd] at hterm; simp at hterm
    | some r =>
      have hgood := SearchAll_loops_good Curves cmap (DfsFuel cmap)
        (fun c d h => Connections_subset eps Curves c d h) Curves [] [] r
        (fun c hc => hc) (by simp) hd
      have hfil : r.filter (LoopIsValid eps cmap) = [] := by
        rw [List.filter_eq_nil_iff]
        intro L hL
        rw [star_loop_invalid center eps heps Curves hstar2 L (hgood L hL)]
        simp
      simp only [Option.getD_some, hfil]
      simp [RemoveRepeatedLoops]

theorem CrossFragments_star : IsStar ⟨0, 0, 0⟩ CrossFragments := by
  intro c hc
  simp only [CrossFragments, List.mem_cons, List.mem_singleton, List.not_mem_nil,
    or_false] at hc
  rcases hc with rfl | rfl | rfl | rfl <;>
    norm_num [SegTrim, SegValue, CrossA, CrossB, MakeSeg]

/-- C3. For a star of straight fragments (every fragment is a line segment
with one end point at the common centre, as the four fragments of two crossing
segments are), the connectivity search returns no loop and the region
identification returns false with an empty region list, whatever order the
grouping step puts the fragments in. -/
theorem star_has_no_closed_loop (K : Kernel) (sortGroups : List UGeomCurve → List UGeomCurve)
    (tolRep eps : ℚ) (center : FVector) (InCurves : List UGeomCurve) (heps : 0 < eps)
    (hstar : IsStar center InCurves) (hsort : ∀ l c, c ∈ sortGroups l → c ∈ l) :
    GetClosedCurvesListFromUnorderCurves sortGroups tolRep eps InCurves = [] ∧
      IdentifyClosedRegionsFromSplitCurves K sortGroups tolRep eps InCurves = (false, []) := by
  have key := star_search_empty sortGroups tolRep eps center InCurves heps hstar hsort
  refine ⟨key, ?_⟩
  unfold IdentifyClosedRegionsFromSplitCurves
  split_ifs
  · rfl
  · simp [key]

/-- C3, instance: the four fragments of the cross contain no closed loop. -/
theorem cross_fragments_have_no_closed_loop :
    GetClosedCurvesListFromUnorderCurves id (1 / 10000000) (1 / 10000000) CrossFragments = [] ∧
      IdentifyClosedRegionsFromSplitCurves SegKernel id (1 / 10000000) (1 / 10000000)
        CrossFragments = (false, []) :=
  star_has_no_closed_loop SegKernel id (1 / 10000000) (1 / 10000000) ⟨0, 0, 0⟩ CrossFragments
    (by norm_num) CrossFragments_star (fun l c h => h)

theorem mem_InsertAll (a : UGeomCurve) (s t : List UGeomCurve) :
    s ++ a :: t ∈ InsertAll a (s ++ t) := by
  induction s with
  | nil => cases t <;> simp [InsertAll]
  | cons b s ih =>
    simp only [List.cons_append, InsertAll, List.mem_cons, List.mem_map]
    exact Or.inr ⟨_, ih, rfl⟩

theorem Perm_mem_Perms (l : List UGeomCurve) : ∀ p : List UGeomCurve, p.Perm l → p ∈ Perms l := by
  induction l with
  | nil => intro p hp; simp [Perms, List.Perm.eq_nil hp]
  | cons a l ih =>
    intro p hp
    have ha : a ∈ p := hp.symm.subset (List.mem_cons_self _ _)
    obtain ⟨s, t, rfl⟩ := List.append_of_mem ha
    have hst : (s ++ t).Perm l :=
      List.Perm.cons_inv ((List.perm_middle.symm.trans hp))
    simp only [Perms, List.mem_flatMap]
    exact ⟨s ++ t, ih _ hst, mem_InsertAll a s t⟩

theorem BuildConnectionMap_congr (eps : ℚ) (conn : UGeomCurve → UGeomCurve → Bool)
    (cs : List UGeomCurve)
    (h : ∀ a ∈ cs, ∀ b ∈ cs, a.id ≠ b.id → AreCurvesConnectedNoOrder a b eps = conn a b) :
    BuildConnectionMap eps cs = BuildConnectionMapWith conn cs := by
  unfold BuildConnectionMap BuildConnectionMapWith
  apply List.foldl_ext
  intro m a ha
  apply List.foldl_ext
  intro m2 b hb
  by_cases hid : a.id = b.id
  · simp [hid]
  · rw [h a ha b hb hid]

theorem RemoveRepeatedLoops_eq_fuel :
    ∀ (n : Nat) (l : List (List UGeomCurve)), l.length ≤ n →
      RemoveRepeatedLoops l = RemoveRepeatedLoopsFuel n l := by
  intro n
  induction n with
  | zero =>
    intro l hl
    have : l = [] := List.length_eq_zero.mp (Nat.le_zero.mp hl)
    subst this
    simp [RemoveRepeatedLoops, RemoveRepeatedLoopsFuel]
  | succ n ih =>
    intro l hl
    cases l with
    | nil => simp [RemoveRepeatedLoops, RemoveRepeatedLoopsFuel]
    | cons L rest =>
      rw [RemoveRepeatedLoops, RemoveRepeatedLoopsFuel]
      congr 1
      apply ih
      have := List.length_filter_le (fun L2 => !IsSameLoop L L2) rest
      simp only [List.length_cons] at hl
      omega

theorem LoopIsValid_eps_indep (eps eps2 : ℚ) (cmap : List (Nat × List UGeomCurve))
    (L : List UGeomCurve) (h : L.length ≠ 3) :
    LoopIsValid eps cmap L = LoopIsValid eps2 cmap L := by
  simp [LoopIsValid, h]

/-- Link between the function and its evaluation aid: when the connection test
agrees with `conn` on the sorted curves, the search with `fuel` rounds ends,
and no loop found has three curves, the result is the evaluated outcome. -/
theorem GetClosed_eq_of_outcome (sortGroups : List UGeomCurve → List UGeomCurve)
    (tolRep eps : ℚ) (InCurves : List UGeomCurve) (conn : UGeomCurve → UGeomCurve → Bool)
    (fuel : Nat) (found : List (List UGeomCurve)) (hne : InCurves ≠ [])
    (hconn : ∀ a ∈ sortGroups (RemoveRepeatedLines tolRep InCurves),
      ∀ b ∈ sortGroups (RemoveRepeatedLines tolRep InCurves),
      a.id ≠ b.id → AreCurvesConnectedNoOrder a b eps = conn a b)
    (hfound : SearchAll (BuildConnectionMapWith conn
        (sortGroups (RemoveRepeatedLines tolRep InCurves))) fuel []
        (sortGroups (RemoveRepeatedLines tolRep InCurves)) [] = some found)
    (h3 : ∀ L ∈ found, L.length ≠ 3) :
    some (GetClosedCurvesListFromUnorderCurves sortGroups tolRep eps InCurves)
      = SearchOutcome conn fuel (sortGroups (RemoveRepeatedLines tolRep InCurves)) := by
  unfold GetClosedCurvesListFromUnorderCurves SearchOutcome
  have h0 : InCurves.length ≠ 0 := by simpa using hne
  simp only [h0, if_false]
  rw [BuildConnectionMap_congr eps conn _ hconn, SearchAll_eq_of_some _ fuel _ found hfound,
    hfound]
  simp only [Option.map_some', Option.some.injEq]
  have hfil : found.filter (LoopIsValid eps (BuildConnectionMapWith conn
        (sortGroups (RemoveRepeatedLines tolRep InCurves))))
      = found.filter (LoopIsValid 0 (BuildConnectionMapWith conn
        (sortGroups (RemoveRepeatedLines tolRep InCurves)))) := by
    apply List.filter_congr
    intro L hL
    exact LoopIsValid_eps_indep _ _ _ _ (h3 L hL)
  rw [hfil]
  apply RemoveRepeatedLoops_eq_fuel
  exact List.length_filter_le _ _

theorem DistLt_eq_true (a b : FVector) (eps : ℚ) (heps : 0 < eps)
    (h : FVector.DistSquared a b = 0) : a.DistLt b eps = true := by
  simp [FVector.DistLt, h, heps, pow_pos heps]

theorem DistLt_eq_false (a b : FVector) (eps : ℚ) (heps : 0 < eps) (h1 : eps ≤ 1)
    (h : 1 ≤ FVector.DistSquared a b) : a.DistLt b eps = false := by
  have : eps ^ 2 ≤ 1 := by nlinarith
  simp only [FVector.DistLt, Bool.and_eq_false_iff, decide_eq_false_iff_not, not_lt]
  right; linarith

/-- For a tolerance in `(0, 1]` and points whose squared distance is 0 or at
least 1, the distance test holds exactly when the points coincide. -/
theorem DistLt_small (a b : FVector) (eps : ℚ) (heps : 0 < eps) (h1 : eps ≤ 1)
    (h : FVector.DistSquared a b = 0 ∨ 1 ≤ FVector.DistSquared a b) :
    a.DistLt b eps = decide (FVector.DistSquared a b = 0) := by
  rcases h with h | h
  · rw [DistLt_eq_true a b eps heps h]; simp [h]
  · rw [DistLt_eq_false a b eps heps h1 h]
    have : FVector.DistSquared a b ≠ 0 := by linarith
    simp [this]
theorem UnitSquare_orders_ok : ∀ p ∈ Perms UnitSquare, SquareOrderOk UnitSquare p = true := by
  decide
theorem UnitSquare_conn (eps : ℚ) (heps : 0 < eps) (h1 : eps ≤ 1) :
    ∀ a ∈ UnitSquare, ∀ b ∈ UnitSquare, a.id ≠ b.id →
      AreCurvesConnectedNoOrder a b eps = SqAdj a b := by
  intro a ha b hb hid
  simp only [UnitSquare, List.mem_cons, List.mem_singleton, List.not_mem_nil, or_false] at ha hb
  rcases ha with rfl | rfl | rfl | rfl <;> rcases hb with rfl | rfl | rfl | rfl <;>
    first
    | exact absurd rfl hid
    | norm_num [AreCurvesConnectedNoOrder, DistLt_small _ _ eps heps h1, FVector.DistSquared,
        Sq0, Sq1, Sq2, Sq3, MakeSeg, SqAdj]

theorem UnitSquare_no_repeats (tolRep : ℚ) (htol : tolRep < 1) :
    RemoveRepeatedLines tolRep UnitSquare = UnitSquare := by
  have h : ¬ (1 ≤ tolRep) := not_le.mpr htol
  norm_num [RemoveRepeatedLines, UnitSquare, IsRepeatedLine, FVector.Equals, Sq0, Sq1, Sq2, Sq3,
    MakeSeg, h]

theorem Identify_single_group (K : Kernel) (sortGroups : List UGeomCurve → List UGeomCurve)
    (tolRep eps : ℚ) (InCurves L : List UGeomCurve) (hlen : 3 ≤ InCurves.length)
    (hL : GetClosedCurvesListFromUnorderCurves sortGroups tolRep eps InCurves = [L]) :
    IdentifyClosedRegionsFromSplitCurves K sortGroups tolRep eps InCurves
      = match RegionOfGroup K L with
        | some r => (true, [r])
        | none => (false, []) := by
  unfold IdentifyClosedRegionsFromSplitCurves
  have : ¬ InCurves.length < 3 := by omega
  simp only [this, if_false, hL, List.filterMap_cons, List.filterMap_nil]
  cases RegionOfGroup K L <;> simp

/-- C1 (amended). For the four sides of the unit square, in whatever order the
grouping step puts them, the loop search finds exactly one closed loop, made of
the four sides. With a kernel that reports it as a closed wire with a valid
bounding box and area `a`, the region identification returns true with exactly
that one region, of area `a`, when `a > 1`; it returns false with no region
when `a ≤ 1`, so at the area 1 of the unit square. -/
theorem unit_square_region_needs_area_above_one (K : Kernel)
    (sortGroups : List UGeomCurve → List UGeomCurve) (tolRep eps a : ℚ)
    (heps : 0 < eps) (heps1 : eps ≤ 1) (htol : tolRep < 1)
    (hsort : ∀ l, (sortGroups l).Perm l)
    (hK : ∀ L, L.Perm UnitSquare →
      K.WireClosed L = true ∧ (K.Bounds L).IsValid = true ∧ K.FaceArea L = some a) :
    ∃ L, L.Perm UnitSquare ∧
      GetClosedCurvesListFromUnorderCurves sortGroups tolRep eps UnitSquare = [L] ∧
      IdentifyClosedRegionsFromSplitCurves K sortGroups tolRep eps UnitSquare
        = if 1 < a then
            (true, [{ BoundaryCurves := L, BoundingBox := K.Bounds L, Area := a,
                      CenterPoint := (K.Bounds L).GetCenter,
                      bIsClockwise := K.IsClockwise (L.map (fun c => c.StartPoint)),
                      bIsOuterBoundary := true }])
          else (false, []) := by
  have hrep := UnitSquare_no_repeats tolRep htol
  have hp : (sortGroups UnitSquare).Perm UnitSquare := hsort UnitSquare
  have hok := UnitSquare_orders_ok _ (Perm_mem_Perms _ _ hp)
  unfold SquareOrderOk at hok
  cases hfound : SearchAll (BuildConnectionMapWith SqAdj (sortGroups UnitSquare)) 40 []
      (sortGroups UnitSquare) [] with
  | none => rw [hfound] at hok; simp at hok
  | some found =>
    rw [hfound] at hok
    simp only [Bool.and_eq_true, List.all_eq_true, decide_eq_true_eq] at hok
    obtain ⟨h3, hout⟩ := hok
    have hget := GetClosed_eq_of_outcome sortGroups tolRep eps UnitSquare SqAdj 40 found
      (by simp [UnitSquare])
      (by
        rw [hrep]
        intro a ha b hb
        exact UnitSquare_conn eps heps heps1 a (hp.subset ha) b (hp.subset hb))
      (by rw [hrep]; exact hfound)
      h3
    rw [hrep] at hget
    cases hso : SearchOutcome SqAdj 40 (sortGroups UnitSquare) with
    | none => rw [hso] at hout; simp at hout
    | some res =>
      rw [hso] at hout hget
      simp only [Option.some.injEq] at hget
      match res, hout with
      | [L], hout =>
        simp only [decide_eq_true_eq] at hout
        refine ⟨L, hout, hget, ?_⟩
        rw [Identify_single_group K sortGroups tolRep eps UnitSquare L (by simp [UnitSquare]) hget]
        obtain ⟨hc, hv, ha⟩ := hK L hout
        have hlen : L.length = 4 := by rw [hout.length_eq]; rfl
        unfold RegionOfGroup
        simp only [hlen, hc, hv, ha, Option.getD_some]
        by_cases h1a : 1 < a
        · simp [h1a, hlen]
        · simp [h1a]

theorem RegionOfGroup_none_of_small_area (K : Kernel) (g : List UGeomCurve)
    (h : (K.FaceArea g).getD 0 ≤ 1) : RegionOfGroup K g = none := by
  unfold RegionOfGroup
  have : ¬ ((K.FaceArea g).getD 0 > 1) := not_lt.mpr h
  simp [this]

/-- No region is reported when the kernel gives every curve group an area of
at most 1, whatever the curves and the loops found. -/
theorem Identify_empty_of_small_area (K : Kernel)
    (sortGroups : List UGeomCurve → List UGeomCurve) (tolRep eps : ℚ)
    (InCurves : List UGeomCurve) (h : ∀ g, (K.FaceArea g).getD 0 ≤ 1) :
    IdentifyClosedRegionsFromSplitCurves K sortGroups tolRep eps InCurves = (false, []) := by
  unfold IdentifyClosedRegionsFromSplitCurves
  split_ifs
  · rfl
  · have : (GetClosedCurvesListFromUnorderCurves sortGroups tolRep eps InCurves).filterMap
        (RegionOfGroup K) = [] := by
      rw [List.filterMap_eq_nil_iff]
      intro g _
      exact RegionOfGroup_none_of_small_area K g (h g)
    simp [this]

/-- C1, instance: with the kernel reporting area 1 and the curves kept in their
order, one loop is found for the unit square and no region is reported. -/
theorem unit_square_area_one_instance :
    ∃ L, L.Perm UnitSquare ∧
      GetClosedCurvesListFromUnorderCurves id (1 / 10000000) (1 / 10000000) UnitSquare = [L] ∧
      IdentifyClosedRegionsFromSplitCurves (ConstKernel 1) id (1 / 10000000) (1 / 10000000)
        UnitSquare = (false, []) := by
  obtain ⟨L, h1, h2, h3⟩ := unit_square_region_needs_area_above_one (ConstKernel 1) id
    (1 / 10000000) (1 / 10000000) 1 (by norm_num) (by norm_num) (by norm_num)
    (fun l => List.Perm.refl l) (fun L _ => ⟨rfl, rfl, rfl⟩)
  exact ⟨L, h1, h2, by simpa using h3⟩

/-- C1, counterexample to the claim as worded: for the unit square, with a
kernel that reports a closed wire of area 1, the result is false with an empty
region list, not one region of area 1. -/
theorem unit_square_area_one_rejected :
    IdentifyClosedRegionsFromSplitCurves (ConstKernel 1) id (1 / 10000000) (1 / 10000000)
      UnitSquare = (false, []) :=
  Identify_empty_of_small_area (ConstKernel 1) id _ _ UnitSquare
    (fun g => by simp [ConstKernel])
theorem Equals_comm (a b : FVector) (tol : ℚ) : a.Equals b tol = b.Equals a tol := by
  simp only [FVector.Equals, abs_sub_comm]

theorem ne_of_Equals_false (a b : FVector) (tol : ℚ) (htol : 0 ≤ tol)
    (h : a.Equals b tol = false) : a ≠ b := by
  intro hab
  rw [hab, Equals_self b tol htol] at h
  exact Bool.noConfusion h

theorem IsSide_symm (c : UGeomCurve) (A B : FVector) (h : IsSide c A B) : IsSide c B A :=
  ⟨h.1, h.2.1, h.2.2.symm⟩

theorem Separated_rot (tol : ℚ) (P Q R : FVector) (h : Separated tol P Q R) :
    Separated tol Q R P := ⟨h.2.1, h.2.2, h.1⟩

theorem Separated_swap (tol : ℚ) (P Q R : FVector) (h : Separated tol P Q R) :
    Separated tol Q P R :=
  ⟨by rw [Equals_comm]; exact h.1, by rw [Equals_comm]; exact h.2.2,
   by rw [Equals_comm]; exact h.2.1⟩

theorem triangle_valid (eps : ℚ) (heps : 0 ≤ eps) (A B C : FVector)
    (hsep : Separated eps A B C) (c1 c2 c3 : UGeomCurve)
    (h1 : IsSide c1 A B) (h2 : IsSide c2 B C) (h3 : IsSide c3 C A) :
    IsValidTriangle eps [c1, c2, c3] = true := by
  obtain ⟨eAB, eBC, eCA⟩ := hsep
  have eBA : B.Equals A eps = false := by rw [Equals_comm]; exact eAB
  have eCB : C.Equals B eps = false := by rw [Equals_comm]; exact eBC
  have eAC : A.Equals C eps = false := by rw [Equals_comm]; exact eCA
  have eA := Equals_self A eps heps
  have eB := Equals_self B eps heps
  have eC := Equals_self C eps heps
  have nAB := ne_of_Equals_false A B eps heps eAB
  have nBC := ne_of_Equals_false B C eps heps eBC
  have nCA := ne_of_Equals_false C A eps heps eCA
  have nBA := nAB.symm
  have nCB := nBC.symm
  have nAC := nCA.symm
  obtain ⟨-, -, h1⟩ := h1
  obtain ⟨-, -, h2⟩ := h2
  obtain ⟨-, -, h3⟩ := h3
  rcases h1 with ⟨a1, b1⟩ | ⟨a1, b1⟩ <;> rcases h2 with ⟨a2, b2⟩ | ⟨a2, b2⟩ <;>
    rcases h3 with ⟨a3, b3⟩ | ⟨a3, b3⟩ <;>
    simp [IsValidTriangle, TriangleStep, PointCountAdd, a1, b1, a2, b2, a3, b3, eAB, eBC, eCA,
      eBA, eCB, eAC, eA, eB, eC, nAB, nBC, nCA, nBA, nCB, nAC]
theorem IsRepeatedLine_same_side (tol : ℚ) (htol : 0 ≤ tol) (A B : FVector) (c1 c2 : UGeomCurve)
    (h1 : IsSide c1 A B) (h2 : IsSide c2 A B) : IsRepeatedLine tol c1 c2 = true := by
  obtain ⟨k1, b1, h1⟩ := h1
  obtain ⟨k2, b2, h2⟩ := h2
  have eA := Equals_self A tol htol
  have eB := Equals_self B tol htol
  rcases h1 with ⟨s1, e1⟩ | ⟨s1, e1⟩ <;> rcases h2 with ⟨s2, e2⟩ | ⟨s2, e2⟩ <;>
    simp [IsRepeatedLine, UGeomCurve.IsTrimmedCurve, UGeomCurve.IsArcOfCircle, k1, k2, b1, b2,
      s1, e1, s2, e2, eA, eB, htol]

theorem IsRepeatedLine_other_side (tol : ℚ) (A B C : FVector)
    (hsep : Separated tol A B C) (c1 c2 : UGeomCurve)
    (h1 : IsSide c1 A B) (h2 : IsSide c2 B C) : IsRepeatedLine tol c1 c2 = false := by
  obtain ⟨eAB, eBC, eCA⟩ := hsep
  have eBA : B.Equals A tol = false := by rw [Equals_comm]; exact eAB
  have eCB : C.Equals B tol = false := by rw [Equals_comm]; exact eBC
  have eAC : A.Equals C tol = false := by rw [Equals_comm]; exact eCA
  obtain ⟨k1, b1, h1⟩ := h1
  obtain ⟨k2, b2, h2⟩ := h2
  rcases h1 with ⟨s1, e1⟩ | ⟨s1, e1⟩ <;> rcases h2 with ⟨s2, e2⟩ | ⟨s2, e2⟩ <;>
    simp [IsRepeatedLine, UGeomCurve.IsTrimmedCurve, UGeomCurve.IsArcOfCircle, k1, k2, b1, b2,
      s1, e1, s2, e2, eAB, eBC, eCA, eBA, eCB, eAC]

theorem sides_connected (eps : ℚ) (heps : 0 < eps) (A B C : FVector) (c1 c2 : UGeomCurve)
    (h1 : IsSide c1 A B) (h2 : IsSide c2 B C) :
    AreCurvesConnectedNoOrder c1 c2 eps = true ∧ AreCurvesConnectedNoOrder c2 c1 eps = true := by
  obtain ⟨-, -, h1⟩ := h1
  obtain ⟨-, -, h2⟩ := h2
  have dB := DistLt_self B eps heps
  rcases h1 with ⟨s1, e1⟩ | ⟨s1, e1⟩ <;> rcases h2 with ⟨s2, e2⟩ | ⟨s2, e2⟩ <;>
    simp [AreCurvesConnectedNoOrder, s1, e1, s2, e2, dB]

/-- The loop search on three pairwise connected straight segments `x, y, z`,
different objects, whose two cyclic arrangements pass `IsValidTriangle`: the
result is the one loop `x, z, y`. -/
theorem triangle_search (sortGroups : List UGeomCurve → List UGeomCurve) (tolRep eps : ℚ)
    (InCurves : List UGeomCurve) (x y z : UGeomCurve) (hne : InCurves ≠ [])
    (hcs : sortGroups (RemoveRepeatedLines tolRep InCurves) = [x, y, z])
    (hxy : x.id ≠ y.id) (hxz : x.id ≠ z.id) (hyz : y.id ≠ z.id)
    (kx : x.kind = CurveKind.LineSegment) (ky : y.kind = CurveKind.LineSegment)
    (kz : z.kind = CurveKind.LineSegment)
    (cxy : AreCurvesConnectedNoOrder x y eps = true) (cyx : AreCurvesConnectedNoOrder y x eps = true)
    (cxz : AreCurvesConnectedNoOrder x z eps = true) (czx : AreCurvesConnectedNoOrder z x eps = true)
    (cyz : AreCurvesConnectedNoOrder y z eps = true) (czy : AreCurvesConnectedNoOrder z y eps = true)
    (v1 : IsValidTriangle eps [x, z, y] = true) (v2 : IsValidTriangle eps [x, y, z] = true) :
    GetClosedCurvesListFromUnorderCurves sortGroups tolRep eps InCurves = [[x, z, y]] := by
  have hyx := hxy.symm
  have hzx := hxz.symm
  have hzy := hyz.symm
  have h0 : InCurves.length ≠ 0 := by simpa using hne
  have hmap : BuildConnectionMap eps [x, y, z]
      = [(x.id, [y, z]), (y.id, [x, z]), (z.id, [x, y])] := by
    simp [BuildConnectionMap, MapFindOrAddPush, hxy, hxz, hyz, hyx, hzx, hzy, cxy, cyx, cxz, czx,
      cyz, czy]
  have hsearch : SearchAll [(x.id, [y, z]), (y.id, [x, z]), (z.id, [x, y])] 30 [] [x, y, z] []
      = some [[x, z, y], [x, y, z]] := by
    simp [SearchAll, NeedCalc, DfsLoop, PopMarks, VisitConnected, ContainsPtr, Connections, MapFind,
      hxy, hxz, hyz, hyx, hzx, hzy, UGeomCurve.IsArcOfCircle, kx, ky, kz]
  unfold GetClosedCurvesListFromUnorderCurves
  simp only [h0, if_false, hcs, hmap]
  rw [SearchAll_eq_of_some _ 30 _ _ hsearch]
  have hf : [[x, z, y], [x, y, z]].filter
      (LoopIsValid eps [(x.id, [y, z]), (y.id, [x, z]), (z.id, [x, y])])
      = [[x, z, y], [x, y, z]] := by
    simp [LoopIsValid, v1, v2]
  rw [hf]
  simp [RemoveRepeatedLoops, IsSameLoop, ContainsPtr]
/-- C10. For three straight segments that form a triangle with vertices `P`,
`Q`, `R` (pairwise apart beyond both tolerances), followed by a fourth segment
that is an exact or reversed duplicate of one side, all four being different
objects: `RemoveRepeatedLines` leaves exactly the three sides, and the loop
search returns exactly one loop, made of the three sides (so no loop of two
curves), in whatever order the grouping step puts the sides. -/
theorem triangle_with_duplicate_side_gives_one_loop
    (sortGroups : List UGeomCurve → List UGeomCurve) (tolRep eps : ℚ) (P Q R : FVector)
    (s0 s1 s2 d : UGeomCurve) (heps : 0 < eps) (htol : 0 ≤ tolRep)
    (hsepT : Separated tolRep P Q R) (hsepE : Separated eps P Q R)
    (h0 : IsSide s0 P Q) (h1 : IsSide s1 Q R) (h2 : IsSide s2 R P)
    (hd : IsSide d P Q ∨ IsSide d Q R ∨ IsSide d R P)
    (hids : ([s0, s1, s2, d].map (fun c => c.id)).Nodup)
    (hsort : ∀ l, (sortGroups l).Perm l) :
    RemoveRepeatedLines tolRep [s0, s1, s2, d] = [s0, s1, s2] ∧
      ∃ L, L.Perm [s0, s1, s2] ∧
        GetClosedCurvesListFromUnorderCurves sortGroups tolRep eps [s0, s1, s2, d] = [L] := by
  have r01 := IsRepeatedLine_other_side tolRep P Q R hsepT s0 s1 h0 h1
  have r02 := IsRepeatedLine_other_side tolRep Q P R (Separated_swap _ _ _ _ hsepT) s0 s2
    (IsSide_symm _ _ _ h0) (IsSide_symm _ _ _ h2)
  have r12 := IsRepeatedLine_other_side tolRep Q R P (Separated_rot _ _ _ _ hsepT) s1 s2 h1 h2
  have hrep : RemoveRepeatedLines tolRep [s0, s1, s2, d] = [s0, s1, s2] := by
    rcases hd with hd | hd | hd
    · have r0d := IsRepeatedLine_same_side tolRep htol P Q s0 d h0 hd
      simp [RemoveRepeatedLines, r01, r02, r12, r0d]
    · have r0d := IsRepeatedLine_other_side tolRep P Q R hsepT s0 d h0 hd
      have r1d := IsRepeatedLine_same_side tolRep htol Q R s1 d h1 hd
      simp [RemoveRepeatedLines, r01, r02, r12, r0d, r1d]
    · have r0d := IsRepeatedLine_other_side tolRep Q P R (Separated_swap _ _ _ _ hsepT) s0 d
        (IsSide_symm _ _ _ h0) (IsSide_symm _ _ _ hd)
      have r1d := IsRepeatedLine_other_side tolRep Q R P (Separated_rot _ _ _ _ hsepT) s1 d h1 hd
      have r2d := IsRepeatedLine_same_side tolRep htol R P s2 d h2 hd
      simp [RemoveRepeatedLines, r01, r02, r12, r0d, r1d, r2d]
  refine ⟨hrep, ?_⟩
  simp only [List.map_cons, List.map_nil, List.nodup_cons, List.mem_cons, List.mem_singleton,
    List.not_mem_nil, or_false, not_or, List.nodup_nil, and_true, not_false_eq_true] at hids
  obtain ⟨⟨i01, i02, -⟩, ⟨i12, -⟩, -⟩ := hids
  obtain ⟨c01, c10⟩ := sides_connected eps heps P Q R s0 s1 h0 h1
  obtain ⟨c12, c21⟩ := sides_connected eps heps Q R P s1 s2 h1 h2
  obtain ⟨c20, c02⟩ := sides_connected eps heps R P Q s2 s0 h2 h0
  have e := le_of_lt heps
  have sw := Separated_swap _ _ _ _ hsepE
  have v012 := triangle_valid eps e P Q R hsepE s0 s1 s2 h0 h1 h2
  have v120 := triangle_valid eps e Q R P (Separated_rot _ _ _ _ hsepE) s1 s2 s0 h1 h2 h0
  have v201 := triangle_valid eps e R P Q (Separated_rot _ _ _ _ (Separated_rot _ _ _ _ hsepE))
    s2 s0 s1 h2 h0 h1
  have v021 := triangle_valid eps e Q P R sw s0 s2 s1
    (IsSide_symm _ _ _ h0) (IsSide_symm _ _ _ h2) (IsSide_symm _ _ _ h1)
  have v210 := triangle_valid eps e P R Q (Separated_rot _ _ _ _ sw) s2 s1 s0
    (IsSide_symm _ _ _ h2) (IsSide_symm _ _ _ h1) (IsSide_symm _ _ _ h0)
  have v102 := triangle_valid eps e R Q P (Separated_rot _ _ _ _ (Separated_rot _ _ _ _ sw))
    s1 s0 s2 (IsSide_symm _ _ _ h1) (IsSide_symm _ _ _ h0) (IsSide_symm _ _ _ h2)
  have hp : (sortGroups [s0, s1, s2]).Perm [s0, s1, s2] := hsort _
  have hmem := Perm_mem_Perms _ _ hp
  have key : ∀ x y z, sortGroups [s0, s1, s2] = [x, y, z] →
      GetClosedCurvesListFromUnorderCurves sortGroups tolRep eps [s0, s1, s2, d] = [[x, z, y]] →
      ∃ L, L.Perm [s0, s1, s2] ∧
        GetClosedCurvesListFromUnorderCurves sortGroups tolRep eps [s0, s1, s2, d] = [L] := by
    intro x y z hxyz hres
    refine ⟨[x, z, y], ?_, hres⟩
    rw [hxyz] at hp
    exact (List.Perm.cons x (List.Perm.swap y z [])).trans hp
  have hne : [s0, s1, s2, d] ≠ [] := by simp
  have i10 := Ne.symm i01
  have i20 := Ne.symm i02
  have i21 := Ne.symm i12
  have k0 := h0.1
  have k1 := h1.1
  have k2 := h2.1
  simp only [Perms, InsertAll, List.flatMap_cons, List.flatMap_nil, List.map_cons, List.map_nil,
    List.append_nil, List.cons_append, List.nil_append, List.mem_cons, List.mem_singleton,
    List.not_mem_nil, or_false] at hmem
  rcases hmem with hm | hm | hm | hm | hm | hm
  · exact key _ _ _ hm (triangle_search sortGroups tolRep eps _ s0 s1 s2 hne
      (by rw [hrep]; exact hm) i01 i02 i12 k0 k1 k2 c01 c10 c02 c20 c12 c21 v021 v012)
  · exact key _ _ _ hm (triangle_search sortGroups tolRep eps _ s1 s0 s2 hne
      (by rw [hrep]; exact hm) i10 i12 i02 k1 k0 k2 c10 c01 c12 c21 c02 c20 v120 v102)
  · exact key _ _ _ hm (triangle_search sortGroups tolRep eps _ s1 s2 s0 hne
      (by rw [hrep]; exact hm) i12 i10 i20 k1 k2 k0 c12 c21 c10 c01 c20 c02 v102 v120)
  · exact key _ _ _ hm (triangle_search sortGroups tolRep eps _ s0 s2 s1 hne
      (by rw [hrep]; exact hm) i02 i01 i21 k0 k2 k1 c02 c20 c01 c10 c21 c12 v012 v021)
  · exact key _ _ _ hm (triangle_search sortGroups tolRep eps _ s2 s0 s1 hne
      (by rw [hrep]; exact hm) i20 i21 i01 k2 k0 k1 c20 c02 c21 c12 c01 c10 v210 v201)
  · exact key _ _ _ hm (triangle_search sortGroups tolRep eps _ s2 s1 s0 hne
      (by rw [hrep]; exact hm) i21 i20 i10 k2 k1 k0 c21 c12 c20 c02 c10 c01 v201 v210)
/-- C10, instance: the 3-4-5 triangle with its first side given a second time,
reversed. -/
theorem triangle_345_with_reversed_duplicate :
    RemoveRepeatedLines (1 / 10000000) [Tri0, Tri1, Tri2, TriDup] = [Tri0, Tri1, Tri2] ∧
      ∃ L, L.Perm [Tri0, Tri1, Tri2] ∧
        GetClosedCurvesListFromUnorderCurves id (1 / 10000000) (1 / 10000000)
          [Tri0, Tri1, Tri2, TriDup] = [L] :=
  triangle_with_duplicate_side_gives_one_loop id (1 / 10000000) (1 / 10000000)
    ⟨0, 0, 0⟩ ⟨4, 0, 0⟩ ⟨0, 3, 0⟩ Tri0 Tri1 Tri2 TriDup (by norm_num) (by norm_num)
    (by norm_num [Separated, FVector.Equals]) (by norm_num [Separated, FVector.Equals])
    ⟨rfl, rfl, Or.inl ⟨rfl, rfl⟩⟩ ⟨rfl, rfl, Or.inl ⟨rfl, rfl⟩⟩ ⟨rfl, rfl, Or.inl ⟨rfl, rfl⟩⟩
    (Or.inl ⟨rfl, rfl, Or.inr ⟨rfl, rfl⟩⟩)
    (by decide) (fun l => List.Perm.refl l)
/-- For a tolerance in `(0, b]` and points whose squared distance is 0 or at
least `b * b`, the distance test holds exactly when the points coincide. -/
theorem DistLt_bounded (a b : FVector) (eps bound : ℚ) (heps : 0 < eps) (h1 : eps ≤ bound)
    (h : FVector.DistSquared a b = 0 ∨ bound * bound ≤ FVector.DistSquared a b) :
    a.DistLt b eps = decide (FVector.DistSquared a b = 0) := by
  rcases h with h | h
  · rw [DistLt_eq_true a b eps heps h]; simp [h]
  · have hsq : eps ^ 2 ≤ bound * bound := by nlinarith
    have hpos : 0 < eps ^ 2 := pow_pos heps 2
    have : FVector.DistSquared a b ≠ 0 := by linarith
    simp only [FVector.DistLt, this, decide_False, Bool.and_eq_false_iff,
      decide_eq_false_iff_not, not_lt]
    right; linarith

theorem Squares4_conn (eps : ℚ) (heps : 0 < eps) (h1 : eps ≤ 1) :
    ∀ a ∈ Outer4 ++ Inner2, ∀ b ∈ Outer4 ++ Inner2, a.id ≠ b.id →
      AreCurvesConnectedNoOrder a b eps = TwoSqAdj a b := by
  intro a ha b hb hid
  simp only [Outer4, Inner2, SquareSides, List.cons_append, List.nil_append, List.mem_cons,
    List.mem_singleton, List.not_mem_nil, or_false] at ha hb
  rcases ha with rfl | rfl | rfl | rfl | rfl | rfl | rfl | rfl <;>
    rcases hb with rfl | rfl | rfl | rfl | rfl | rfl | rfl | rfl <;>
    first
    | exact absurd rfl hid
    | norm_num [AreCurvesConnectedNoOrder, DistLt_bounded _ _ eps 1 heps h1, FVector.DistSquared,
        MakeSeg, TwoSqAdj]

theorem RemoveRepeatedLines_eq_self (tol : ℚ) (l : List UGeomCurve)
    (hnd : (l.map (fun c => c.id)).Nodup)
    (h : ∀ a ∈ l, ∀ b ∈ l, a.id ≠ b.id → IsRepeatedLine tol a b = false) :
    RemoveRepeatedLines tol l = l := by
  have hp : l.Pairwise (fun a b => IsRepeatedLine tol a b = false) := by
    have h1 : l.Pairwise (fun a b => a.id ≠ b.id) := List.pairwise_map.mp hnd
    exact h1.imp_of_mem (fun {a b} ha hb hab => h a ha b hb hab)
  clear h hnd
  induction l with
  | nil => simp [RemoveRepeatedLines]
  | cons c rest ih =>
    rw [List.pairwise_cons] at hp
    rw [RemoveRepeatedLines]
    have hf : rest.filter (fun d => !IsRepeatedLine tol c d) = rest := by
      rw [List.filter_eq_self]
      intro d hd
      simp [hp.1 d hd]
    rw [hf, ih hp.2]

theorem IsRepeatedLine_segments (tol : ℚ) (i j : Nat) (S1 E1 S2 E2 : FVector) (l1 l2 : ℚ) :
    IsRepeatedLine tol (MakeSeg i S1 E1 l1) (MakeSeg j S2 E2 l2)
      = (decide (0 ≤ tol) &&
          ((S1.Equals S2 tol && E1.Equals E2 tol) || (S1.Equals E2 tol && E1.Equals S2 tol))) := by
  simp [IsRepeatedLine, MakeSeg, UGeomCurve.IsTrimmedCurve, UGeomCurve.IsArcOfCircle]

set_option maxHeartbeats 1000000 in
theorem Squares4_no_repeats (tolRep : ℚ) (htol : tolRep < 1) :
    RemoveRepeatedLines tolRep (Outer4 ++ Inner2) = Outer4 ++ Inner2 := by
  have h1 : ¬ (1 ≤ tolRep) := not_le.mpr htol
  have h2 : ¬ (2 ≤ tolRep) := by linarith
  have h3 : ¬ (3 ≤ tolRep) := by linarith
  have h4 : ¬ (4 ≤ tolRep) := by linarith
  apply RemoveRepeatedLines_eq_self
  · decide
  · intro a ha b hb hid
    simp only [Outer4, Inner2, SquareSides, List.cons_append, List.nil_append, List.mem_cons,
      List.mem_singleton, List.not_mem_nil, or_false] at ha hb
    rcases ha with rfl | rfl | rfl | rfl | rfl | rfl | rfl | rfl <;>
      rcases hb with rfl | rfl | rfl | rfl | rfl | rfl | rfl | rfl <;>
      first
      | exact absurd rfl hid
      | (rw [IsRepeatedLine_segments]; norm_num [FVector.Equals, h1, h2, h3, h4])

theorem GetClosed_squares4 (sortGroups : List UGeomCurve → List UGeomCurve) (tolRep eps : ℚ)
    (heps : 0 < eps) (heps1 : eps ≤ 1) (htol : tolRep < 1)
    (hsort : sortGroups (Outer4 ++ Inner2) = Outer4 ++ Inner2) :
    GetClosedCurvesListFromUnorderCurves sortGroups tolRep eps (Outer4 ++ Inner2)
      = [Pick Outer4 [0, 3, 2, 1], Pick Inner2 [0, 3, 2, 1]] := by
  have hrep := Squares4_no_repeats tolRep htol
  have hfound : SearchAll (BuildConnectionMapWith TwoSqAdj (Outer4 ++ Inner2)) 80 []
      (Outer4 ++ Inner2) []
      = some [Pick Outer4 [0, 3, 2, 1], Pick Outer4 [0, 1, 2, 3], Pick Inner2 [0, 3, 2, 1],
              Pick Inner2 [0, 1, 2, 3]] := by rfl
  have hout : SearchOutcome TwoSqAdj 80 (Outer4 ++ Inner2)
      = some [Pick Outer4 [0, 3, 2, 1], Pick Inner2 [0, 3, 2, 1]] := by rfl
  have hget := GetClosed_eq_of_outcome sortGroups tolRep eps (Outer4 ++ Inner2) TwoSqAdj 80 _
    (by simp [Outer4, SquareSides])
    (by rw [hrep, hsort]; exact Squares4_conn eps heps heps1)
    (by rw [hrep, hsort]; exact hfound)
    (by intro L hL; simp only [List.mem_cons, List.mem_singleton, List.not_mem_nil,
          or_false] at hL; rcases hL with rfl | rfl | rfl | rfl <;> decide)
  rw [hrep, hsort, hout] at hget
  exact Option.some.inj hget

theorem RegionOfGroup_some (K : Kernel) (L : List UGeomCurve) (box : FBox) (area : ℚ)
    (hlen : 3 ≤ L.length) (hc : K.WireClosed L = true) (hb : K.Bounds L = box)
    (hv : box.IsValid = true) (ha : K.FaceArea L = some area) (h1 : 1 < area) :
    RegionOfGroup K L = some (RegionWith K L box area) := by
  unfold RegionOfGroup RegionWith
  have : ¬ L.length < 3 := by omega
  simp [this, hc, hb, hv, ha, h1, hlen]

theorem Identify_two_groups (K : Kernel) (sortGroups : List UGeomCurve → List UGeomCurve)
    (tolRep eps : ℚ) (InCurves L1 L2 : List UGeomCurve) (hlen : 3 ≤ InCurves.length)
    (hL : GetClosedCurvesListFromUnorderCurves sortGroups tolRep eps InCurves = [L1, L2]) :
    IdentifyClosedRegionsFromSplitCurves K sortGroups tolRep eps InCurves
      = (decide (0 < ((RegionOfGroup K L1).toList ++ (RegionOfGroup K L2).toList).length),
          (RegionOfGroup K L1).toList ++ (RegionOfGroup K L2).toList) := by
  unfold IdentifyClosedRegionsFromSplitCurves
  have : ¬ InCurves.length < 3 := by omega
  simp only [this, if_false, hL, List.filterMap_cons, List.filterMap_nil]
  cases RegionOfGroup K L1 <;> cases RegionOfGroup K L2 <;> simp
theorem Squares4_nesting (K : Kernel) (tol aO aI : ℚ) (htol : 0 < tol) (h1 : tol ≤ 1 / 2) :
    AnalyzeRegionNesting tol
      [RegionWith K (Pick Outer4 [0, 3, 2, 1]) ⟨⟨0, 0, 0⟩, ⟨4, 4, 0⟩, true⟩ aO,
       RegionWith K (Pick Inner2 [0, 3, 2, 1]) ⟨⟨1, 1, 0⟩, ⟨3, 3, 0⟩, true⟩ aI]
      = (true, [(0, [1])]) := by
  have f0 : 0 ≤ tol := le_of_lt htol
  have f1 : ¬ (1 ≤ tol) := by linarith
  have f2 : ¬ (2 ≤ tol) := by linarith
  have f3 : ¬ (3 ≤ tol) := by linarith
  have f4 : ¬ (4 ≤ tol) := by linarith
  have g1 : ¬ (1 < tol) := by linarith
  have g2 : ¬ (2 < tol) := by linarith
  have g3 : ¬ (3 < tol) := by linarith
  have g4 : ¬ (4 < tol) := by linarith
  have n1 : -tol ≤ 1 := by linarith
  have n2 : -tol ≤ 2 := by linarith
  have n3 : -tol ≤ 3 := by linarith
  have n4 : -tol ≤ 4 := by linarith
  have m1 : -tol < 1 := by linarith
  have m2 : -tol < 2 := by linarith
  have m3 : -tol < 3 := by linarith
  have m4 : -tol < 4 := by linarith
  have p1 : (1 : ℚ) ≤ 4 + tol := by linarith
  have p2 : (2 : ℚ) ≤ 4 + tol := by linarith
  have p3 : (3 : ℚ) ≤ 4 + tol := by linarith
  have e1 : Pick Inner2 [0, 3, 2, 1] = [MakeSeg 4 ⟨1, 1, 0⟩ ⟨3, 1, 0⟩ (3 - 1),
      MakeSeg (4 + 3) ⟨1, 3, 0⟩ ⟨1, 1, 0⟩ (3 - 1), MakeSeg (4 + 2) ⟨3, 3, 0⟩ ⟨1, 3, 0⟩ (3 - 1),
      MakeSeg (4 + 1) ⟨3, 1, 0⟩ ⟨3, 3, 0⟩ (3 - 1)] := rfl
  have e2 : Pick Outer4 [0, 3, 2, 1] = [MakeSeg 0 ⟨0, 0, 0⟩ ⟨4, 0, 0⟩ (4 - 0),
      MakeSeg (0 + 3) ⟨0, 4, 0⟩ ⟨0, 0, 0⟩ (4 - 0), MakeSeg (0 + 2) ⟨4, 4, 0⟩ ⟨0, 4, 0⟩ (4 - 0),
      MakeSeg (0 + 1) ⟨4, 0, 0⟩ ⟨4, 4, 0⟩ (4 - 0)] := rfl
  have hin : IsNestedIn tol
      (RegionWith K (Pick Inner2 [0, 3, 2, 1]) ⟨⟨1, 1, 0⟩, ⟨3, 3, 0⟩, true⟩ aI)
      (RegionWith K (Pick Outer4 [0, 3, 2, 1]) ⟨⟨0, 0, 0⟩, ⟨4, 4, 0⟩, true⟩ aO) = true := by
    rw [e1, e2]
    norm_num [IsNestedIn, IsPointInClosedRegion, RegionWith, MakeSeg, FBox.GetCenter,
      RegionPolygon, DropRepeats, FVector2D.Equals, IsPointInOrOnPolygon2D, PolygonEdges,
      PolygonScan, f0, f1, f2, f3, f4, g1, g2, g3, g4, n1, n2, n3, n4, m1, m2, m3, m4, htol,
      p1, p2, p3]
  have hout : IsNestedIn tol
      (RegionWith K (Pick Outer4 [0, 3, 2, 1]) ⟨⟨0, 0, 0⟩, ⟨4, 4, 0⟩, true⟩ aO)
      (RegionWith K (Pick Inner2 [0, 3, 2, 1]) ⟨⟨1, 1, 0⟩, ⟨3, 3, 0⟩, true⟩ aI) = false := by
    rw [e1, e2]
    norm_num [IsNestedIn, IsPointInClosedRegion, RegionWith, MakeSeg, FBox.GetCenter,
      RegionPolygon, DropRepeats, FVector2D.Equals, IsPointInOrOnPolygon2D, PolygonEdges,
      PolygonScan, f0, f1, f2, f3, f4, g1, g2, g3, g4, n1, n2, n3, n4, m1, m2, m3, m4, htol]
  simp [AnalyzeRegionNesting, List.range, List.range.loop, hin, hout, NestingAddUnique]

theorem PolyKernel_squares :
    (PolyKernel.WireClosed (Pick Outer2 [0, 3, 2, 1]) = true ∧
      PolyKernel.Bounds (Pick Outer2 [0, 3, 2, 1]) = ⟨⟨0, 0, 0⟩, ⟨2, 2, 0⟩, true⟩ ∧
      PolyKernel.FaceArea (Pick Outer2 [0, 3, 2, 1]) = some 4) ∧
    PolyKernel.FaceArea (Pick Inner1 [0, 3, 2, 1]) = some 1 ∧
    (PolyKernel.WireClosed (Pick Outer4 [0, 3, 2, 1]) = true ∧
      PolyKernel.Bounds (Pick Outer4 [0, 3, 2, 1]) = ⟨⟨0, 0, 0⟩, ⟨4, 4, 0⟩, true⟩ ∧
      PolyKernel.FaceArea (Pick Outer4 [0, 3, 2, 1]) = some 16) ∧
    (PolyKernel.WireClosed (Pick Inner2 [0, 3, 2, 1]) = true ∧
      PolyKernel.Bounds (Pick Inner2 [0, 3, 2, 1]) = ⟨⟨1, 1, 0⟩, ⟨3, 3, 0⟩, true⟩ ∧
      PolyKernel.FaceArea (Pick Inner2 [0, 3, 2, 1]) = some 4) := by
  have e1 : Pick Outer2 [0, 3, 2, 1] = [MakeSeg 0 ⟨0, 0, 0⟩ ⟨2, 0, 0⟩ (2 - 0),
      MakeSeg (0 + 3) ⟨0, 2, 0⟩ ⟨0, 0, 0⟩ (2 - 0), MakeSeg (0 + 2) ⟨2, 2, 0⟩ ⟨0, 2, 0⟩ (2 - 0),
      MakeSeg (0 + 1) ⟨2, 0, 0⟩ ⟨2, 2, 0⟩ (2 - 0)] := rfl
  have e2 : Pick Inner1 [0, 3, 2, 1] = [MakeSeg 4 ⟨1 / 2, 1 / 2, 0⟩ ⟨3 / 2, 1 / 2, 0⟩ (3 / 2 - 1 / 2),
      MakeSeg (4 + 3) ⟨1 / 2, 3 / 2, 0⟩ ⟨1 / 2, 1 / 2, 0⟩ (3 / 2 - 1 / 2),
      MakeSeg (4 + 2) ⟨3 / 2, 3 / 2, 0⟩ ⟨1 / 2, 3 / 2, 0⟩ (3 / 2 - 1 / 2),
      MakeSeg (4 + 1) ⟨3 / 2, 1 / 2, 0⟩ ⟨3 / 2, 3 / 2, 0⟩ (3 / 2 - 1 / 2)] := rfl
  have e3 : Pick Outer4 [0, 3, 2, 1] = [MakeSeg 0 ⟨0, 0, 0⟩ ⟨4, 0, 0⟩ (4 - 0),
      MakeSeg (0 + 3) ⟨0, 4, 0⟩ ⟨0, 0, 0⟩ (4 - 0), MakeSeg (0 + 2) ⟨4, 4, 0⟩ ⟨0, 4, 0⟩ (4 - 0),
      MakeSeg (0 + 1) ⟨4, 0, 0⟩ ⟨4, 4, 0⟩ (4 - 0)] := rfl
  have e4 : Pick Inner2 [0, 3, 2, 1] = [MakeSeg 4 ⟨1, 1, 0⟩ ⟨3, 1, 0⟩ (3 - 1),
      MakeSeg (4 + 3) ⟨1, 3, 0⟩ ⟨1, 1, 0⟩ (3 - 1), MakeSeg (4 + 2) ⟨3, 3, 0⟩ ⟨1, 3, 0⟩ (3 - 1),
      MakeSeg (4 + 1) ⟨3, 1, 0⟩ ⟨3, 3, 0⟩ (3 - 1)] := rfl
  rw [e1, e2, e3, e4]
  norm_num [PolyKernel, MakeSeg, ShoelaceSum, abs_of_neg, abs_of_pos]

theorem CrossFragments_explicit : CrossFragments = [XFrag0, XFrag1, XFrag2, XFrag3] := by
  norm_num [CrossFragments, SegTrim, SegValue, CrossA, CrossB, MakeSeg, XFrag0, XFrag1, XFrag2,
    XFrag3]

theorem Cross_tables (tol : ℚ) (htol : 0 < tol) (h1 : tol ≤ 1) :
    ([XFrag0, XFrag1, XFrag2, XFrag3].foldl (AddCurveToTables tol) ⟨[], [], []⟩).HalfEdges
        = CrossHalfEdges ∧
      ([XFrag0, XFrag1, XFrag2, XFrag3].foldl (AddCurveToTables tol) ⟨[], [], []⟩).Vertices
        = CrossVertices := by
  constructor <;>
    norm_num [AddCurveToTables, FindOrCreateVertex, VertexMapAdd, AddOutgoing, List.modify,
      DistLt_small _ _ tol htol h1, FVector.DistSquared, XFrag0, XFrag1, XFrag2, XFrag3,
      CrossHalfEdges, CrossVertices, HalfEdgePair]

theorem Cross_sorted : SortVertices CrossHalfEdges CrossVertices = CrossSortedVertices := by
  norm_num [SortVertices, CrossVertices, CrossSortedVertices, SortByAngle, InsertByAngle,
    HalfEdgeAngleLess, CrossHalfEdges, HalfEdgePair, AngleLess, SafeDirection, InUpperHalf,
    XFrag0, XFrag1, XFrag2, XFrag3]

theorem Cross_trace :
    TraceAllFaces CrossSortedVertices CrossHalfEdges (List.range 8) [] []
      = [[XFrag0, XFrag2, XFrag2, XFrag1, XFrag1, XFrag3, XFrag3, XFrag0]] := by
  rfl

theorem FindLoops_cross (tol : ℚ) (htol : 0 < tol) (h1 : tol ≤ 1) :
    FindLoopsFromCurves CrossFragments tol
      = [Pick CrossFragments [0, 2, 2, 1, 1, 3, 3, 0]] := by
  have hp : Pick CrossFragments [0, 2, 2, 1, 1, 3, 3, 0]
      = [XFrag0, XFrag2, XFrag2, XFrag1, XFrag1, XFrag3, XFrag3, XFrag0] := by
    rw [CrossFragments_explicit]; rfl
  obtain ⟨hH, hV⟩ := Cross_tables tol htol h1
  rw [hp, CrossFragments_explicit]
  unfold FindLoopsFromCurves
  rw [if_neg (by simp)]
  simp only [hH, hV]
  rw [if_neg (by simp [CrossHalfEdges, HalfEdgePair]), Cross_sorted]
  exact Cross_trace

theorem FindLoops_short (cs : List UGeomCurve) (tol : ℚ) (h : cs.length < 3) :
    FindLoopsFromCurves cs tol = [] := by
  unfold FindLoopsFromCurves
  rw [if_pos h]

/-- C4. On the four fragments of the cross, whose end-point graph is a star
without any cycle, the half-edge face tracer does not return an empty list: it
returns exactly one loop, the closed walk around the unbounded face, which
passes every fragment twice (once in each direction). The tracer returns the
empty list for every input of fewer than three curves. -/
theorem cross_half_edge_tracer_returns_outer_walk (tol : ℚ) (htol : 0 < tol) (h1 : tol ≤ 1) :
    FindLoopsFromCurves CrossFragments tol = [Pick CrossFragments [0, 2, 2, 1, 1, 3, 3, 0]] ∧
      ∀ cs : List UGeomCurve, cs.length < 3 → FindLoopsFromCurves cs tol = [] :=
  ⟨FindLoops_cross tol htol h1, fun cs h => FindLoops_short cs tol h⟩

/-- C4, instance: the tracer on the cross at the tolerance `1e-7`. -/
theorem cross_half_edge_tracer_instance :
    (0 : ℚ) < 1 / 10000000 ∧ (1 : ℚ) / 10000000 ≤ 1 ∧
      FindLoopsFromCurves CrossFragments (1 / 10000000)
        = [Pick CrossFragments [0, 2, 2, 1, 1, 3, 3, 0]] ∧
      ∀ cs : List UGeomCurve, cs.length < 3 → FindLoopsFromCurves cs (1 / 10000000) = [] :=
  ⟨by norm_num, by norm_num,
    cross_half_edge_tracer_returns_outer_walk (1 / 10000000) (by norm_num) (by norm_num)⟩

/-- C4, counterexample: the four fragments of the cross form a star (every
fragment has one end point at the centre), the connectivity search finds no
closed loop among them, and yet the half-edge face tracer returns a non-empty
list of loops. -/
theorem cross_half_edge_tracer_not_empty :
    IsStar ⟨0, 0, 0⟩ CrossFragments ∧
      GetClosedCurvesListFromUnorderCurves id (1 / 10000000) (1 / 10000000) CrossFragments = [] ∧
      FindLoopsFromCurves CrossFragments (1 / 10000000) ≠ [] := by
  refine ⟨CrossFragments_star, ?_, ?_⟩
  · exact star_search_empty id (1 / 10000000) (1 / 10000000) ⟨0, 0, 0⟩ CrossFragments
      (by norm_num) CrossFragments_star (fun l c h => h)
  · rw [FindLoops_cross (1 / 10000000) (by norm_num) (by norm_num)]
    simp
theorem NestingFind_nil (k : Nat) : NestingFind [] k = [] := rfl

theorem NestingFind_cons (k0 : Nat) (l : List Nat) (rest : List (Nat × List Nat)) (k : Nat) :
    NestingFind ((k0, l) :: rest) k = if k0 = k then l else NestingFind rest k := by
  by_cases h : k0 = k
  · simp [NestingFind, List.find?, h]
  · have hb : (k0 == k) = false := by simpa using h
    simp [NestingFind, List.find?, h, hb]

theorem NestingFind_add (m : List (Nat × List Nat)) (k v k2 : Nat) :
    NestingFind (NestingAddUnique m k v) k2
      = if k2 = k then
          (if v ∈ NestingFind m k then NestingFind m k else NestingFind m k ++ [v])
        else NestingFind m k2 := by
  induction m with
  | nil =>
    by_cases h : k2 = k
    · subst h; simp [NestingAddUnique, NestingFind_cons, NestingFind_nil]
    · have h2 : ¬ k = k2 := fun e => h e.symm
      simp [NestingAddUnique, NestingFind_cons, NestingFind_nil, h, h2]
  | cons e rest ih =>
    obtain ⟨k0, l⟩ := e
    by_cases h0 : k0 = k
    · subst h0
      by_cases h : k2 = k0
      · subst h; simp [NestingAddUnique, NestingFind_cons]
      · have h2 : ¬ k0 = k2 := fun e => h e.symm
        simp [NestingAddUnique, NestingFind_cons, h, h2]
    · simp only [NestingAddUnique, h0, if_false, NestingFind_cons, ih]
      by_cases h : k2 = k
      · subst h; simp [h0]
      · simp [h]

theorem mem_NestingFind_add (m : List (Nat × List Nat)) (k v k2 x : Nat) :
    x ∈ NestingFind (NestingAddUnique m k v) k2 ↔ x ∈ NestingFind m k2 ∨ (k2 = k ∧ x = v) := by
  rw [NestingFind_add]
  by_cases h : k2 = k
  · subst h
    by_cases hv : v ∈ NestingFind m k2
    · simp only [if_true, hv, true_and]
      constructor
      · exact Or.inl
      · rintro (h | rfl)
        · exact h
        · exact hv
    · simp [hv]
  · simp [h]

theorem Nodup_NestingFind_add (m : List (Nat × List Nat)) (k v : Nat)
    (h : ∀ j, (NestingFind m j).Nodup) (j : Nat) :
    (NestingFind (NestingAddUnique m k v) j).Nodup := by
  rw [NestingFind_add]
  by_cases hj : j = k
  · subst hj
    by_cases hv : v ∈ NestingFind m j
    · simp only [if_true, hv]; exact h j
    · simp only [if_true, hv, if_false]
      exact List.Nodup.append (h j) (List.nodup_singleton v) (by simpa using hv)
  · simp only [hj, if_false]; exact h j

theorem keys_NestingAddUnique (m : List (Nat × List Nat)) (k v : Nat) :
    (NestingAddUnique m k v).map Prod.fst
      = if k ∈ m.map Prod.fst then m.map Prod.fst else m.map Prod.fst ++ [k] := by
  induction m with
  | nil => simp [NestingAddUnique]
  | cons e rest ih =>
    obtain ⟨k0, l⟩ := e
    by_cases h0 : k0 = k
    · subst h0; simp [NestingAddUnique]
    · have h2 : ¬ k = k0 := fun e => h0 e.symm
      simp only [NestingAddUnique, h0, if_false, List.map_cons, ih, List.mem_cons, h2, false_or]
      split_ifs <;> simp

theorem Nodup_keys_NestingAddUnique (m : List (Nat × List Nat)) (k v : Nat)
    (h : (m.map Prod.fst).Nodup) : ((NestingAddUnique m k v).map Prod.fst).Nodup := by
  rw [keys_NestingAddUnique]
  split_ifs with hk
  · exact h
  · exact List.Nodup.append h (List.nodup_singleton k) (by simpa using hk)

theorem NestingBody_eq (tol : ℚ) (Rs : List FClosedRegion) (m : List (Nat × List Nat))
    (i j : Nat) [Decidable (NestedPair tol Rs i j)] :
    (if i = j then m
      else
        match Rs[i]?, Rs[j]? with
        | some InnerRegion, some OuterRegion =>
          if IsNestedIn tol InnerRegion OuterRegion then NestingAddUnique m j i else m
        | _, _ => m)
      = if NestedPair tol Rs i j then NestingAddUnique m j i else m := by
  by_cases hij : i = j
  · have : ¬ NestedPair tol Rs i j := fun h => h.1 hij
    rw [if_pos hij, if_neg this]
  · cases hI : Rs[i]? with
    | none =>
      have : ¬ NestedPair tol Rs i j := by
        rintro ⟨_, I, O, h1, _⟩; rw [hI] at h1; cases h1
      simp [hij, this]
    | some I =>
      cases hO : Rs[j]? with
      | none =>
        have : ¬ NestedPair tol Rs i j := by
          rintro ⟨_, I, O, _, h2, _⟩; rw [hO] at h2; cases h2
        simp [hij, this]
      | some O =>
        by_cases hn : IsNestedIn tol I O = true
        · have : NestedPair tol Rs i j := ⟨hij, I, O, hI, hO, hn⟩
          simp [hij, this, hn]
        · have : ¬ NestedPair tol Rs i j := by
            rintro ⟨_, I2, O2, h1, h2, h3⟩
            rw [hI] at h1; rw [hO] at h2
            cases h1; cases h2; exact hn h3
          simp [hij, this, hn]

theorem mem_NestingInner (tol : ℚ) (Rs : List FClosedRegion) (i : Nat) (js : List Nat)
    (m : List (Nat × List Nat)) (x k : Nat) :
    x ∈ NestingFind (js.foldl (fun m2 j =>
          if i = j then m2
          else
            match Rs[i]?, Rs[j]? with
            | some InnerRegion, some OuterRegion =>
              if IsNestedIn tol InnerRegion OuterRegion then NestingAddUnique m2 j i else m2
            | _, _ => m2) m) k
      ↔ x ∈ NestingFind m k ∨ (x = i ∧ k ∈ js ∧ NestedPair tol Rs i k) := by
  classical
  induction js generalizing m with
  | nil => simp
  | cons j js ih =>
    rw [List.foldl_cons, ih, NestingBody_eq]
    by_cases hn : NestedPair tol Rs i j
    · rw [if_pos hn, mem_NestingFind_add]
      constructor
      · rintro ((h | ⟨rfl, rfl⟩) | ⟨rfl, h2, h3⟩)
        · exact Or.inl h
        · exact Or.inr ⟨rfl, List.mem_cons_self _ _, hn⟩
        · exact Or.inr ⟨rfl, List.mem_cons_of_mem _ h2, h3⟩
      · rintro (h | ⟨rfl, h2, h3⟩)
        · exact Or.inl (Or.inl h)
        · rcases List.mem_cons.mp h2 with rfl | h2
          · exact Or.inl (Or.inr ⟨rfl, rfl⟩)
          · exact Or.inr ⟨rfl, h2, h3⟩
    · rw [if_neg hn]
      constructor
      · rintro (h | ⟨rfl, h2, h3⟩)
        · exact Or.inl h
        · exact Or.inr ⟨rfl, List.mem_cons_of_mem _ h2, h3⟩
      · rintro (h | ⟨rfl, h2, h3⟩)
        · exact Or.inl h
        · rcases List.mem_cons.mp h2 with rfl | h2
          · exact absurd h3 hn
          · exact Or.inr ⟨rfl, h2, h3⟩

theorem mem_NestingOuter (tol : ℚ) (Rs : List FClosedRegion) (is js : List Nat)
    (m : List (Nat × List Nat)) (x k : Nat) :
    x ∈ NestingFind (is.foldl (fun m i =>
          js.foldl (fun m2 j =>
            if i = j then m2
            else
              match Rs[i]?, Rs[j]? with
              | some InnerRegion, some OuterRegion =>
                if IsNestedIn tol InnerRegion OuterRegion then NestingAddUnique m2 j i else m2
              | _, _ => m2) m) m) k
      ↔ x ∈ NestingFind m k ∨ (x ∈ is ∧ k ∈ js ∧ NestedPair tol Rs x k) := by
  induction is generalizing m with
  | nil => simp
  | cons i is ih =>
    rw [List.foldl_cons, ih, mem_NestingInner]
    constructor
    · rintro ((h | ⟨rfl, h2, h3⟩) | ⟨h1, h2, h3⟩)
      · exact Or.inl h
      · exact Or.inr ⟨List.mem_cons_self _ _, h2, h3⟩
      · exact Or.inr ⟨List.mem_cons_of_mem _ h1, h2, h3⟩
    · rintro (h | ⟨h1, h2, h3⟩)
      · exact Or.inl (Or.inl h)
      · rcases List.mem_cons.mp h1 with rfl | h1
        · exact Or.inl (Or.inr ⟨rfl, h2, h3⟩)
        · exact Or.inr ⟨h1, h2, h3⟩

theorem NestingInner_inv (P : List (Nat × List Nat) → Prop)
    (hP : ∀ m k v, P m → P (NestingAddUnique m k v))
    (tol : ℚ) (Rs : List FClosedRegion) (i : Nat) (js : List Nat) (m : List (Nat × List Nat))
    (h : P m) :
    P (js.foldl (fun m2 j =>
          if i = j then m2
          else
            match Rs[i]?, Rs[j]? with
            | some InnerRegion, some OuterRegion =>
              if IsNestedIn tol InnerRegion OuterRegion then NestingAddUnique m2 j i else m2
            | _, _ => m2) m) := by
  classical
  induction js generalizing m with
  | nil => exact h
  | cons j js ihj =>
    rw [List.foldl_cons]
    apply ihj
    rw [NestingBody_eq]
    split_ifs
    · exact hP _ _ _ h
    · exact h

theorem NestingFold_inv (P : List (Nat × List Nat) → Prop)
    (hP : ∀ m k v, P m → P (NestingAddUnique m k v))
    (tol : ℚ) (Rs : List FClosedRegion) (is js : List Nat) (m : List (Nat × List Nat))
    (h : P m) :
    P (is.foldl (fun m i =>
          js.foldl (fun m2 j =>
            if i = j then m2
            else
              match Rs[i]?, Rs[j]? with
              | some InnerRegion, some OuterRegion =>
                if IsNestedIn tol InnerRegion OuterRegion then NestingAddUnique m2 j i else m2
              | _, _ => m2) m) m) := by
  induction is generalizing m with
  | nil => exact h
  | cons i is ih =>
    rw [List.foldl_cons]
    exact ih _ (NestingInner_inv P hP tol Rs i js m h)

theorem mem_AnalyzeRegionNesting (tol : ℚ) (Rs : List FClosedRegion) (i j : Nat) :
    i ∈ NestingFind (AnalyzeRegionNesting tol Rs).2 j ↔ NestedPair tol Rs i j := by
  unfold AnalyzeRegionNesting
  split_ifs with h
  · simp only [NestingFind_nil, List.not_mem_nil, false_iff]
    rintro ⟨hij, I, O, hI, hO, _⟩
    have h1 := (List.getElem?_eq_some.mp hI).1
    have h2 := (List.getElem?_eq_some.mp hO).1
    omega
  · refine Iff.trans (mem_NestingOuter tol Rs _ _ [] i j) ?_
    simp only [NestingFind_nil, List.not_mem_nil, false_or, List.mem_range]
    constructor
    · exact fun h => h.2.2
    · rintro ⟨hij, I, O, hI, hO, hn⟩
      exact ⟨(List.getElem?_eq_some.mp hI).1, (List.getElem?_eq_some.mp hO).1, hij, I, O, hI, hO,
        hn⟩

theorem IsNestedIn_iff (tol : ℚ) (I O : FClosedRegion) :
    IsNestedIn tol I O = true ↔
      IsPointInClosedRegion I.CenterPoint O tol = true ∧
        ∀ c ∈ I.BoundaryCurves, IsPointInClosedRegion c.StartPoint O tol = true ∧
          IsPointInClosedRegion c.EndPoint O tol = true := by
  simp [IsNestedIn, List.all_eq_true]
theorem Nodup_entries_NestingAddUnique (m : List (Nat × List Nat)) (k v : Nat)
    (h : ∀ e ∈ m, e.2.Nodup) : ∀ e ∈ NestingAddUnique m k v, e.2.Nodup := by
  induction m with
  | nil =>
    intro e he
    simp only [NestingAddUnique, List.mem_singleton] at he
    subst he; simp
  | cons e0 rest ih =>
    obtain ⟨k0, l⟩ := e0
    intro e he
    by_cases h0 : k0 = k
    · simp only [NestingAddUnique, h0, if_true, List.mem_cons] at he
      rcases he with rfl | he
      · have hl : l.Nodup := h (k0, l) (List.mem_cons_self _ _)
        by_cases hv : v ∈ l
        · simpa [hv] using hl
        · simp only [hv, if_false]
          exact List.Nodup.append hl (List.nodup_singleton v) (by simpa using hv)
      · exact h e (List.mem_cons_of_mem _ he)
    · simp only [NestingAddUnique, h0, if_false, List.mem_cons] at he
      rcases he with rfl | he
      · exact h (k0, l) (List.mem_cons_self _ _)
      · exact ih (fun e he => h e (List.mem_cons_of_mem _ he)) e he

/-- C11. `AnalyzeRegionNesting` returns true for every input; region `i` is
listed under region `j` exactly when `i` and `j` are different regions of the
input, the centre point of `i` tests inside-or-on `j` and both end points of
every boundary curve of `i` test inside `j`; no list of the map holds an index
twice, and no key occurs twice. -/
theorem nesting_lists_exactly_the_contained_regions (tolRegion : ℚ)
    (InRegions : List FClosedRegion) :
    (AnalyzeRegionNesting tolRegion InRegions).1 = true ∧
      (∀ i j, i ∈ NestingFind (AnalyzeRegionNesting tolRegion InRegions).2 j ↔
        i ≠ j ∧ ∃ InnerRegion OuterRegion,
          InRegions[i]? = some InnerRegion ∧ InRegions[j]? = some OuterRegion ∧
          IsPointInClosedRegion InnerRegion.CenterPoint OuterRegion tolRegion = true ∧
          ∀ c ∈ InnerRegion.BoundaryCurves,
            IsPointInClosedRegion c.StartPoint OuterRegion tolRegion = true ∧
            IsPointInClosedRegion c.EndPoint OuterRegion tolRegion = true) ∧
      (∀ e ∈ (AnalyzeRegionNesting tolRegion InRegions).2, e.2.Nodup) ∧
      ((AnalyzeRegionNesting tolRegion InRegions).2.map Prod.fst).Nodup := by
  refine ⟨?_, ?_, ?_, ?_⟩
  · unfold AnalyzeRegionNesting
    split_ifs <;> rfl
  · intro i j
    rw [mem_AnalyzeRegionNesting]
    simp only [NestedPair, IsNestedIn_iff]
  · unfold AnalyzeRegionNesting
    split_ifs
    · simp
    · exact NestingFold_inv (fun m => ∀ e ∈ m, e.2.Nodup) Nodup_entries_NestingAddUnique
        tolRegion InRegions _ _ [] (by simp)
  · unfold AnalyzeRegionNesting
    split_ifs
    · simp
    · exact NestingFold_inv (fun m => (m.map Prod.fst).Nodup) Nodup_keys_NestingAddUnique
        tolRegion InRegions _ _ [] (by simp)

theorem Tee_regions :
    RegionOfGroup PolyKernel TeeSides = some TeeRegion ∧
      RegionOfGroup PolyKernel WedgeSides = some WedgeRegion := by
  constructor
  · exact RegionOfGroup_some PolyKernel TeeSides _ 128 (by decide) rfl
      (by norm_num [PolyKernel, TeeSides, MakeSeg]) rfl
      (by norm_num [PolyKernel, TeeSides, MakeSeg, ShoelaceSum, abs_of_neg, abs_of_pos])
      (by norm_num)
  · exact RegionOfGroup_some PolyKernel WedgeSides _ 192 (by decide) rfl
      (by norm_num [PolyKernel, WedgeSides, MakeSeg]) rfl
      (by norm_num [PolyKernel, WedgeSides, MakeSeg, ShoelaceSum, abs_of_neg, abs_of_pos])
      (by norm_num)

set_option maxHeartbeats 2000000 in
theorem Tee_pairs :
    IsNestedIn (1 / 10000000) WedgeRegion TeeRegion = true ∧
      IsNestedIn (1 / 10000000) TeeRegion WedgeRegion = false := by
  constructor <;>
    norm_num [IsNestedIn, IsPointInClosedRegion, TeeRegion, WedgeRegion, RegionWith, TeeSides,
      WedgeSides, MakeSeg, FBox.GetCenter, RegionPolygon, DropRepeats, FVector2D.Equals,
      IsPointInOrOnPolygon2D, PolygonEdges, PolygonScan]

theorem IsPointInClosedRegion_box (P : FVector) (R : FClosedRegion) (tol : ℚ)
    (h : IsPointInClosedRegion P R tol = true) (hv : R.BoundingBox.IsValid = true) :
    InExpandedBox P R.BoundingBox tol := by
  unfold IsPointInClosedRegion at h
  split_ifs at h with h1 h2 h3
  simp only [hv, true_and, not_or, not_lt] at h2
  obtain ⟨a, b, c, d, e, f⟩ := h2
  exact ⟨a, b, c, d, e, f⟩

/-- C13 (amended). Whenever `AnalyzeRegionNesting` lists region `i` under
region `j`, the centre point of `i` and both end points of every boundary curve
of `i` test inside-or-on `j`, and when the box of `j` is valid all these points
lie in that box widened by the tolerance. The `Area` fields of the two regions
are not read and no order between them follows. -/
theorem nested_region_tests_inside_outer (tolRegion : ℚ) (InRegions : List FClosedRegion)
    (i j : Nat) (h : i ∈ NestingFind (AnalyzeRegionNesting tolRegion InRegions).2 j) :
    ∃ B A, InRegions[i]? = some B ∧ InRegions[j]? = some A ∧
      IsPointInClosedRegion B.CenterPoint A tolRegion = true ∧
      (∀ c ∈ B.BoundaryCurves, IsPointInClosedRegion c.StartPoint A tolRegion = true ∧
        IsPointInClosedRegion c.EndPoint A tolRegion = true) ∧
      (A.BoundingBox.IsValid = true →
        InExpandedBox B.CenterPoint A.BoundingBox tolRegion ∧
        ∀ c ∈ B.BoundaryCurves, InExpandedBox c.StartPoint A.BoundingBox tolRegion ∧
          InExpandedBox c.EndPoint A.BoundingBox tolRegion) := by
  obtain ⟨_, B, A, hB, hA, hn⟩ := (mem_AnalyzeRegionNesting tolRegion InRegions i j).mp h
  obtain ⟨hc, hall⟩ := (IsNestedIn_iff tolRegion B A).mp hn
  refine ⟨B, A, hB, hA, hc, hall, fun hv => ⟨IsPointInClosedRegion_box _ _ _ hc hv, ?_⟩⟩
  intro c hcm
  exact ⟨IsPointInClosedRegion_box _ _ _ (hall c hcm).1 hv,
    IsPointInClosedRegion_box _ _ _ (hall c hcm).2 hv⟩

/-- C13, instance: the triangle listed under the T-shaped region. -/
theorem nested_region_tests_inside_outer_instance :
    1 ∈ NestingFind (AnalyzeRegionNesting (1 / 10000000) [TeeRegion, WedgeRegion]).2 0 ∧
      ∃ B A, [TeeRegion, WedgeRegion][1]? = some B ∧ [TeeRegion, WedgeRegion][0]? = some A ∧
        IsPointInClosedRegion B.CenterPoint A (1 / 10000000) = true ∧
        (∀ c ∈ B.BoundaryCurves, IsPointInClosedRegion c.StartPoint A (1 / 10000000) = true ∧
          IsPointInClosedRegion c.EndPoint A (1 / 10000000) = true) ∧
        (A.BoundingBox.IsValid = true →
          InExpandedBox B.CenterPoint A.BoundingBox (1 / 10000000) ∧
          ∀ c ∈ B.BoundaryCurves, InExpandedBox c.StartPoint A.BoundingBox (1 / 10000000) ∧
            InExpandedBox c.EndPoint A.BoundingBox (1 / 10000000)) :=
  have h : 1 ∈ NestingFind (AnalyzeRegionNesting (1 / 10000000) [TeeRegion, WedgeRegion]).2 0 :=
    (mem_AnalyzeRegionNesting _ _ 1 0).mpr
      ⟨by decide, WedgeRegion, TeeRegion, rfl, rfl, Tee_pairs.1⟩
  ⟨h, nested_region_tests_inside_outer (1 / 10000000) [TeeRegion, WedgeRegion] 1 0 h⟩

/-- C13, counterexample to the claim as worded: the T-shaped region of area
128 and the triangle of area 192, both as the region classifier builds them
under the polygon kernel. The corners and the centre of the triangle lie inside
the T shape, so the triangle is listed under it, although its area is the
greater one. -/
theorem nested_region_with_greater_area :
    RegionOfGroup PolyKernel TeeSides = some TeeRegion ∧
      RegionOfGroup PolyKernel WedgeSides = some WedgeRegion ∧
      AnalyzeRegionNesting (1 / 10000000) [TeeRegion, WedgeRegion] = (true, [(0, [1])]) ∧
      TeeRegion.Area < WedgeRegion.Area := by
  refine ⟨Tee_regions.1, Tee_regions.2, ?_, by norm_num [TeeRegion, WedgeRegion, RegionWith]⟩
  have a := Tee_pairs.1
  have b := Tee_pairs.2
  simp only [one_div] at a b
  simp [AnalyzeRegionNesting, List.range, List.range.loop, a, b, NestingAddUnique]

theorem RegionOfGroup_flag (K : Kernel) (L : List UGeomCurve) (R : FClosedRegion)
    (h : RegionOfGroup K L = some R) : R.bIsOuterBoundary = true := by
  unfold RegionOfGroup at h
  simp only at h
  split_ifs at h <;>
    · simp only [Option.some.injEq] at h
      rw [← h]

theorem Squares4_identify :
    IdentifyClosedRegionsFromSplitCurves PolyKernel id (1 / 10000000) (1 / 10000000)
        (Outer4 ++ Inner2)
      = (true, [RegionWith PolyKernel (Pick Outer4 [0, 3, 2, 1]) ⟨⟨0, 0, 0⟩, ⟨4, 4, 0⟩, true⟩ 16,
                RegionWith PolyKernel (Pick Inner2 [0, 3, 2, 1]) ⟨⟨1, 1, 0⟩, ⟨3, 3, 0⟩, true⟩ 4]) := by
  have hget := GetClosed_squares4 id (1 / 10000000) (1 / 10000000) (by norm_num) (by norm_num)
    (by norm_num) rfl
  obtain ⟨_, _, hK4o, hK4i⟩ := PolyKernel_squares
  have h1 := RegionOfGroup_some PolyKernel (Pick Outer4 [0, 3, 2, 1])
    ⟨⟨0, 0, 0⟩, ⟨4, 4, 0⟩, true⟩ 16 (by decide) hK4o.1 hK4o.2.1 rfl hK4o.2.2 (by norm_num)
  have h2 := RegionOfGroup_some PolyKernel (Pick Inner2 [0, 3, 2, 1])
    ⟨⟨1, 1, 0⟩, ⟨3, 3, 0⟩, true⟩ 4 (by decide) hK4i.1 hK4i.2.1 rfl hK4i.2.2 (by norm_num)
  rw [Identify_two_groups PolyKernel id (1 / 10000000) (1 / 10000000) _ _ _ (by decide) hget,
    h1, h2]
  simp

/-- C14 (amended). `IdentifyClosedRegionsFromSplitCurves` sets
`bIsOuterBoundary` to true on every region it returns. `AnalyzeRegionNesting`
takes the regions read-only and returns the nesting only in its map, so the
flag of a region that is listed as nested stays true. -/
theorem regions_flagged_outer_at_discovery (K : Kernel)
    (sortGroups : List UGeomCurve → List UGeomCurve) (tolRep eps : ℚ)
    (InSplitCurves : List UGeomCurve) (R : FClosedRegion)
    (h : R ∈ (IdentifyClosedRegionsFromSplitCurves K sortGroups tolRep eps InSplitCurves).2) :
    R.bIsOuterBoundary = true := by
  unfold IdentifyClosedRegionsFromSplitCurves at h
  split_ifs at h
  · simp at h
  · simp only [List.mem_filterMap] at h
    obtain ⟨L, _, hL⟩ := h
    exact RegionOfGroup_flag K L R hL

/-- C14, instance: the region of the inner square in the nested squares
scenario. -/
theorem regions_flagged_outer_instance :
    RegionWith PolyKernel (Pick Inner2 [0, 3, 2, 1]) ⟨⟨1, 1, 0⟩, ⟨3, 3, 0⟩, true⟩ 4
        ∈ (IdentifyClosedRegionsFromSplitCurves PolyKernel id (1 / 10000000) (1 / 10000000)
            (Outer4 ++ Inner2)).2 ∧
      (RegionWith PolyKernel (Pick Inner2 [0, 3, 2, 1])
        ⟨⟨1, 1, 0⟩, ⟨3, 3, 0⟩, true⟩ 4).bIsOuterBoundary = true :=
  have h : RegionWith PolyKernel (Pick Inner2 [0, 3, 2, 1]) ⟨⟨1, 1, 0⟩, ⟨3, 3, 0⟩, true⟩ 4
      ∈ (IdentifyClosedRegionsFromSplitCurves PolyKernel id (1 / 10000000) (1 / 10000000)
          (Outer4 ++ Inner2)).2 := by
    rw [Squares4_identify]; simp
  ⟨h, regions_flagged_outer_at_discovery PolyKernel id (1 / 10000000) (1 / 10000000)
    (Outer4 ++ Inner2) _ h⟩

/-- C14, counterexample to the claim as worded: for the 4x4 square with the
2x2 square inside, the region of the inner square (index 1) is listed under the
outer square (index 0) by the nesting analysis, and it is flagged as an outer
boundary. -/
theorem nested_region_still_flagged_outer :
    ∃ R0 R1, IdentifyClosedRegionsFromSplitCurves PolyKernel id (1 / 10000000) (1 / 10000000)
        (Outer4 ++ Inner2) = (true, [R0, R1]) ∧
      1 ∈ NestingFind (AnalyzeRegionNesting (1 / 10000000) [R0, R1]).2 0 ∧
      R1.bIsOuterBoundary = true := by
  refine ⟨_, _, Squares4_identify, ?_, rfl⟩
  rw [Squares4_nesting PolyKernel (1 / 10000000) 16 4 (by norm_num) (by norm_num)]
  simp [NestingFind]

/-- C15. For every curve list with fewer than three curves,
`FindLoopsFromCurves` returns an empty loop list and
`IdentifyClosedRegionsFromSplitCurves` returns false with an empty region
list. -/
theorem short_input_gives_empty_result (K : Kernel)
    (sortGroups : List UGeomCurve → List UGeomCurve) (tolRep eps Tolerance : ℚ)
    (InCurves : List UGeomCurve) (h : InCurves.length < 3) :
    FindLoopsFromCurves InCurves Tolerance = [] ∧
      IdentifyClosedRegionsFromSplitCurves K sortGroups tolRep eps InCurves = (false, []) := by
  constructor
  · exact FindLoops_short InCurves Tolerance h
  · unfold IdentifyClosedRegionsFromSplitCurves
    rw [if_pos h]

/-- C15, instance: the two segments of the cross, unsplit. -/
theorem short_input_two_segments :
    [CrossA, CrossB].length < 3 ∧
      FindLoopsFromCurves [CrossA, CrossB] (1 / 10000000) = [] ∧
      IdentifyClosedRegionsFromSplitCurves SegKernel id (1 / 10000000) (1 / 10000000)
        [CrossA, CrossB] = (false, []) :=
  ⟨by decide, short_input_gives_empty_result SegKernel id (1 / 10000000) (1 / 10000000)
    (1 / 10000000) [CrossA, CrossB] (by decide)⟩

theorem IsWalk_unique (next : Nat → Option Nat) (start : Nat) :
    ∀ (l1 l2 : List Nat) (h : Nat), IsWalk next start (h :: l1) → IsWalk next start (h :: l2) →
      l1 = l2 := by
  intro l1
  induction l1 with
  | nil =>
    intro l2 h w1 w2
    cases l2 with
    | nil => rfl
    | cons a r =>
      simp only [IsWalk] at w1 w2
      rw [w1] at w2
      exact absurd (Option.some.inj w2.1).symm w2.2.1
  | cons a r ih =>
    intro l2 h w1 w2
    cases l2 with
    | nil =>
      simp only [IsWalk] at w1 w2
      rw [w2] at w1
      exact absurd (Option.some.inj w1.1).symm w1.2.1
    | cons b r2 =>
      simp only [IsWalk] at w1 w2
      have e : a = b := by
        have := w1.1.symm.trans w2.1
        exact Option.some.inj this
      subst e
      rw [ih r2 a w1.2.2 w2.2.2]

theorem IsWalk_suffix (next : Nat → Option Nat) (start : Nat) :
    ∀ (l1 : List Nat) (h : Nat) (l2 : List Nat), IsWalk next start (l1 ++ h :: l2) →
      IsWalk next start (h :: l2) := by
  intro l1
  induction l1 with
  | nil => intro h l2 w; exact w
  | cons a r ih =>
    intro h l2 w
    cases r with
    | nil =>
      simp only [List.cons_append, List.nil_append, IsWalk] at w
      exact w.2.2
    | cons b r2 =>
      simp only [List.cons_append, IsWalk] at w
      exact ih h l2 w.2.2

theorem IsWalk_nodup (next : Nat → Option Nat) (start : Nat) :
    ∀ l : List Nat, IsWalk next start l → l.Nodup := by
  intro l
  induction l with
  | nil => intro w; exact absurd w (by simp [IsWalk])
  | cons h l ih =>
    intro w
    rw [List.nodup_cons]
    constructor
    · intro hm
      obtain ⟨l1, l2, rfl⟩ := List.append_of_mem hm
      have w2 := IsWalk_suffix next start (h :: l1) h l2 w
      have e := IsWalk_unique next start _ _ h w w2
      have := congrArg List.length e
      simp at this
      omega
    · cases l with
      | nil => exact List.nodup_nil
      | cons a r =>
        simp only [IsWalk] at w
        exact ih w.2.2

theorem TraceFace_valid (V : List FPlanarVertex) (H : List FHalfEdge) (U : List Nat)
    (start : Nat) :
    ∀ (fuel cur : Nat) (loop : List UGeomCurve) (lhe : List Nat),
      (TraceFace V H U start fuel cur loop lhe).bValidLoop = true →
      ∃ tail, IsWalk (NextHalfEdge V H) start (cur :: tail) ∧
        (TraceFace V H U start fuel cur loop lhe).LoopHalfEdges = lhe ++ cur :: tail ∧
        (TraceFace V H U start fuel cur loop lhe).CurrentLoop = loop ++ CurvesOf H (cur :: tail) ∧
        (TraceFace V H U start fuel cur loop lhe).CurrentHalfEdgeId = start ∧
        ∀ h ∈ cur :: tail, h ∉ U := by
  intro fuel
  induction fuel with
  | zero => intro cur loop lhe h; simp [TraceFace] at h
  | succ fuel ih =>
    intro cur loop lhe h
    unfold TraceFace at h ⊢
    by_cases hU : U.contains cur = true
    · rw [if_pos hU] at h; cases h
    · rw [if_neg hU] at h ⊢
      cases hH : H[cur]? with
      | none => rw [hH] at h; cases h
      | some e =>
        simp only [hH] at h ⊢
        by_cases hlen : (loop ++ [e.Curve]).length > H.length
        · rw [if_pos hlen] at h; cases h
        · rw [if_neg hlen] at h ⊢
          cases hV : V[e.EndVertexId]? with
          | none => rw [hV] at h; cases h
          | some v =>
            simp only [hV] at h ⊢
            by_cases hz : v.OutgoingHalfEdges.length = 0
            · rw [if_pos hz] at h; cases h
            · rw [if_neg hz] at h ⊢
              cases hR : FindReverseHalfEdge H e with
              | none => rw [hR] at h; cases h
              | some rev =>
                simp only [hR] at h ⊢
                cases hP : v.OutgoingHalfEdges.indexOf? rev with
                | none => rw [hP] at h; cases h
                | some pos =>
                  simp only [hP] at h ⊢
                  cases hN : v.OutgoingHalfEdges[(pos + 1) % v.OutgoingHalfEdges.length]? with
                  | none => rw [hN] at h; cases h
                  | some next =>
                    simp only [hN] at h ⊢
                    have hnext : NextHalfEdge V H cur = some next := by
                      simp [NextHalfEdge, hH, hV, hz, hR, hP, hN]
                    have hUc : cur ∉ U := by simpa using hU
                    by_cases hs : next = start
                    · rw [if_pos hs]
                      refine ⟨[], ?_, rfl, ?_, hs, ?_⟩
                      · simp only [IsWalk]; rw [hnext, hs]
                      · simp [CurvesOf, hH]
                      · simpa using hUc
                    · rw [if_neg hs] at h ⊢
                      obtain ⟨tail, w, e1, e2, e3, e4⟩ := ih next _ _ h
                      refine ⟨next :: tail, ?_, ?_, ?_, e3, ?_⟩
                      · simp only [IsWalk]; exact ⟨hnext, hs, w⟩
                      · rw [e1]; simp
                      · rw [e2]; simp [CurvesOf, hH]
                      · intro x hx
                        rcases List.mem_cons.mp hx with rfl | hx
                        · exact hUc
                        · exact e4 x hx

theorem TraceAllFacesState_loops (V : List FPlanarVertex) (H : List FHalfEdge) :
    ∀ (starts U : List Nat) (Ls : List (List UGeomCurve)) (Hs : List (List Nat)),
      (TraceAllFacesState V H starts U Ls Hs).2.1 = TraceAllFaces V H starts U Ls := by
  intro starts
  induction starts with
  | nil => intro U Ls Hs; rfl
  | cons s rest ih =>
    intro U Ls Hs
    unfold TraceAllFacesState TraceAllFaces
    simp only
    split_ifs
    · exact ih _ _ _
    · exact ih _ _ _
    · exact ih _ _ _

theorem FindLoopsState_loops (InCurves : List UGeomCurve) (Tolerance : ℚ) :
    (FindLoopsState InCurves Tolerance).2.1 = FindLoopsFromCurves InCurves Tolerance := by
  unfold FindLoopsState FindLoopsFromCurves BuildTables
  simp only
  split_ifs
  · rfl
  · rfl
  · exact TraceAllFacesState_loops _ _ _ _ _ _

theorem TraceAllFacesState_inv (V : List FPlanarVertex) (H : List FHalfEdge) :
    ∀ (starts U : List Nat) (Ls : List (List UGeomCurve)) (Hs : List (List Nat)),
      U = Hs.flatten → U.Nodup → Ls = Hs.map (CurvesOf H) →
      (∀ l ∈ Hs, ∃ s, IsWalk (NextHalfEdge V H) s l ∧ l.head? = some s ∧ 3 ≤ l.length) →
      (TraceAllFacesState V H starts U Ls Hs).1 = (TraceAllFacesState V H starts U Ls Hs).2.2.flatten ∧
      (TraceAllFacesState V H starts U Ls Hs).1.Nodup ∧
      (TraceAllFacesState V H starts U Ls Hs).2.1
        = (TraceAllFacesState V H starts U Ls Hs).2.2.map (CurvesOf H) ∧
      (∀ l ∈ (TraceAllFacesState V H starts U Ls Hs).2.2,
        ∃ s, IsWalk (NextHalfEdge V H) s l ∧ l.head? = some s ∧ 3 ≤ l.length) := by
  intro starts
  induction starts with
  | nil => intro U Ls Hs h1 h2 h3 h4; exact ⟨h1, h2, h3, h4⟩
  | cons s rest ih =>
    intro U Ls Hs h1 h2 h3 h4
    unfold TraceAllFacesState
    by_cases hU : U.contains s = true
    · rw [if_pos hU]; exact ih U Ls Hs h1 h2 h3 h4
    · rw [if_neg hU]
      simp only
      by_cases hc : ((TraceFace V H U s (H.length + 1) s [] []).bValidLoop &&
          decide ((TraceFace V H U s (H.length + 1) s [] []).CurrentLoop.length ≥ 3) &&
          decide ((TraceFace V H U s (H.length + 1) s [] []).CurrentHalfEdgeId = s)) = true
      · rw [if_pos hc]
        simp only [Bool.and_eq_true, decide_eq_true_eq] at hc
        obtain ⟨tail, w, e1, e2, _, e4⟩ := TraceFace_valid V H U s _ s [] [] hc.1.1
        simp only [List.nil_append] at e1 e2
        have hlen : 3 ≤ (s :: tail).length := by
          have h5 := hc.1.2
          rw [e2] at h5
          have h6 : (CurvesOf H (s :: tail)).length ≤ (s :: tail).length :=
            List.length_filterMap_le _ _
          omega
        apply ih
        · rw [e1, h1]; simp
        · rw [e1]
          refine List.Nodup.append h2 (IsWalk_nodup _ _ _ w) ?_
          intro x hx1 hx2
          exact e4 x hx2 hx1
        · rw [e1, e2, h3]; simp
        · intro l hl
          rcases List.mem_append.mp hl with hl | hl
          · exact h4 l hl
          · simp only [List.mem_singleton] at hl
            subst hl
            rw [e1]
            exact ⟨s, w, rfl, hlen⟩
      · rw [if_neg hc]; exact ih U Ls Hs h1 h2 h3 h4

theorem FindLoopsState_inv (InCurves : List UGeomCurve) (Tolerance : ℚ) :
    (FindLoopsState InCurves Tolerance).1 = (FindLoopsState InCurves Tolerance).2.2.flatten ∧
      (FindLoopsState InCurves Tolerance).1.Nodup ∧
      (FindLoopsState InCurves Tolerance).2.1
        = (FindLoopsState InCurves Tolerance).2.2.map
            (CurvesOf (BuildTables InCurves Tolerance).HalfEdges) := by
  unfold FindLoopsState
  simp only
  split_ifs
  · simp
  · simp
  · have h := TraceAllFacesState_inv
      (SortVertices (BuildTables InCurves Tolerance).HalfEdges
        (BuildTables InCurves Tolerance).Vertices)
      (BuildTables InCurves Tolerance).HalfEdges
      (List.range (BuildTables InCurves Tolerance).HalfEdges.length) [] [] [] (by simp)
      (by simp) (by simp) (by simp)
    exact ⟨h.1, h.2.1, h.2.2.1⟩

/-- C20. In the state of `FindLoopsFromCurves` at its return, the returned
loops are the curves of the recorded half-edge lists of the accepted traces; no
half-edge occurs twice in one of these lists, no half-edge occurs in two of
them, and the half-edges marked used are exactly the half-edges of these lists,
so a trace that was not accepted has marked nothing. -/
theorem used_half_edges_belong_to_one_loop (InCurves : List UGeomCurve) (Tolerance : ℚ) :
    (FindLoopsState InCurves Tolerance).2.1 = FindLoopsFromCurves InCurves Tolerance ∧
      FindLoopsFromCurves InCurves Tolerance
        = (FindLoopsState InCurves Tolerance).2.2.map
            (CurvesOf (BuildTables InCurves Tolerance).HalfEdges) ∧
      (∀ l ∈ (FindLoopsState InCurves Tolerance).2.2, l.Nodup) ∧
      (FindLoopsState InCurves Tolerance).2.2.Pairwise List.Disjoint ∧
      (FindLoopsState InCurves Tolerance).1 = (FindLoopsState InCurves Tolerance).2.2.flatten := by
  obtain ⟨h1, h2, h3⟩ := FindLoopsState_inv InCurves Tolerance
  rw [h1] at h2
  obtain ⟨h4, h5⟩ := List.nodup_flatten.mp h2
  exact ⟨FindLoopsState_loops InCurves Tolerance,
    (FindLoopsState_loops InCurves Tolerance).symm.trans h3, h4, h5, h1⟩

theorem AddOutgoing_getElem? (V : List FPlanarVertex) (s x v : Nat) :
    (AddOutgoing V s x)[v]?
      = (V[v]?).map (fun a =>
          if s = v then ⟨a.Position, a.OutgoingHalfEdges ++ [x]⟩ else a) := by
  unfold AddOutgoing
  rw [List.getElem?_modify]
  rfl

theorem InsertByAngle_perm (less : Nat → Nat → Bool) (x : Nat) (l : List Nat) :
    (InsertByAngle less x l).Perm (x :: l) := by
  induction l with
  | nil => exact List.Perm.refl _
  | cons y l ih =>
    unfold InsertByAngle
    split_ifs
    · exact List.Perm.refl _
    · exact (List.Perm.cons y ih).trans (List.Perm.swap x y l)

theorem SortByAngle_perm (less : Nat → Nat → Bool) (l : List Nat) :
    (SortByAngle less l).Perm l := by
  unfold SortByAngle
  have key : ∀ (l acc : List Nat),
      (l.foldl (fun sorted x => InsertByAngle less x sorted) acc).Perm (acc ++ l) := by
    intro l
    induction l with
    | nil => intro acc; simp
    | cons x l ih =>
      intro acc
      rw [List.foldl_cons]
      refine (ih _).trans ?_
      refine (List.Perm.append_right l (InsertByAngle_perm less x acc)).trans ?_
      simp only [List.cons_append]
      exact (List.perm_middle).symm
  simpa using key l []

theorem SortVertices_getElem? (H : List FHalfEdge) (V : List FPlanarVertex) (v : Nat)
    (x : FPlanarVertex) (h : V[v]? = some x) :
    ∃ y, (SortVertices H V)[v]? = some y ∧ y.OutgoingHalfEdges.Perm x.OutgoingHalfEdges := by
  unfold SortVertices
  rw [List.getElem?_map, h]
  simp only [Option.map_some']
  split_ifs
  · exact ⟨x, rfl, List.Perm.refl _⟩
  · exact ⟨_, rfl, SortByAngle_perm _ _⟩

theorem Twin_Twin (h : Nat) : Twin (Twin h) = h := by
  unfold Twin; split_ifs <;> omega

theorem mem_of_getElem?_some {α : Type} (l : List α) (i : Nat) (a : α) (h : l[i]? = some a) :
    a ∈ l := by
  obtain ⟨hlt, heq⟩ := List.getElem?_eq_some.mp h
  rw [← heq]
  exact List.getElem_mem hlt

/-- C17, evaluation at the failing input: for the semicircle through
`(-1, 0)`, `(0, 1)` and `(1, 0)` (included angle `pi`, tangent of the quarter
angle 1) the code computes four times the sagitta 1 over the chord 2, which
is 2, with any square root that is exact at 0, 1 and 4. -/
theorem bulge_of_semicircle_is_two (sqrt : ℚ → ℚ) (SMALL_NUMBER : ℚ) (h0 : sqrt 0 = 0)
    (h1 : sqrt 1 = 1) (h4 : sqrt 4 = 2) (hs : SMALL_NUMBER < 2) :
    CalculateBulgeFromThreePoints sqrt SMALL_NUMBER ⟨-1, 0, 0⟩ ⟨0, 1, 0⟩ ⟨1, 0, 0⟩ = 2 := by
  have e1 : |(FVector.GetSafeNormal sqrt SMALL_NUMBER
      (FVector.Sub ⟨0, 1, 0⟩ ⟨-1, 0, 0⟩)).Dot
      (FVector.GetSafeNormal sqrt SMALL_NUMBER (FVector.Sub ⟨1, 0, 0⟩ ⟨0, 1, 0⟩))| = 0 := by
    unfold FVector.GetSafeNormal FVector.Sub FVector.Dot
    norm_num
    split_ifs <;> norm_num
  have hs2 : ¬ (2 < SMALL_NUMBER) := by linarith
  have hs3 : ¬ ((4 : ℚ) < SMALL_NUMBER) := by linarith
  unfold CalculateBulgeFromThreePoints
  simp only
  rw [e1]
  norm_num [FVector.Sub, FVector.Size, FVector.Cross, FVector.GetSafeNormal, h0, h1, h4, hs,
    hs2, hs3]

theorem ExactSqrt_values : ExactSqrt 0 = 0 ∧ ExactSqrt 1 = 1 ∧ ExactSqrt 4 = 2 := by
  have a0 : Nat.sqrt 0 = 0 := Nat.sqrt_zero
  have a1 : Nat.sqrt 1 = 1 := Nat.sqrt_one
  have a4 : Nat.sqrt 4 = 2 := Nat.sqrt_eq 2
  refine ⟨?_, ?_, ?_⟩
  · simp [ExactSqrt, a0]
  · simp [ExactSqrt, a1]
  · have hn : (4 : ℚ).num = 4 := rfl
    have hd : (4 : ℚ).den = 1 := rfl
    simp [ExactSqrt, hn, hd, a1, a4]

/-- C17, instance: the exact square root and `SMALL_NUMBER = 1e-8`. -/
theorem bulge_of_semicircle_exact_sqrt :
    ExactSqrt 0 = 0 ∧ ExactSqrt 1 = 1 ∧ ExactSqrt 4 = 2 ∧ (1 : ℚ) / 100000000 < 2 ∧
      CalculateBulgeFromThreePoints ExactSqrt (1 / 100000000) ⟨-1, 0, 0⟩ ⟨0, 1, 0⟩ ⟨1, 0, 0⟩
        = 2 :=
  ⟨ExactSqrt_values.1, ExactSqrt_values.2.1, ExactSqrt_values.2.2, by norm_num,
    bulge_of_semicircle_is_two ExactSqrt (1 / 100000000) ExactSqrt_values.1
      ExactSqrt_values.2.1 ExactSqrt_values.2.2 (by norm_num)⟩

theorem TraceFaceChecked_eq (V : List FPlanarVertex) (H : List FHalfEdge) (U : List Nat)
    (start : Nat) :
    ∀ (fuel cur : Nat) (loop : List UGeomCurve) (lhe : List Nat) (r : TraceResult),
      TraceFaceChecked V H U start fuel cur loop lhe = TraceOutcome.done r →
      TraceFace V H U start fuel cur loop lhe = r := by
  intro fuel
  induction fuel with
  | zero => intro cur loop lhe r h; simp [TraceFaceChecked] at h
  | succ fuel ih =>
    intro cur loop lhe r h
    unfold TraceFaceChecked at h
    unfold TraceFace
    by_cases hU : U.contains cur = true
    · rw [if_pos hU] at h ⊢
      exact TraceOutcome.done.inj h
    · rw [if_neg hU] at h ⊢
      cases hH : H[cur]? with
      | none => rw [hH] at h; cases h
      | some e =>
        simp only [hH] at h ⊢
        by_cases hlen : (loop ++ [e.Curve]).length > H.length
        · rw [if_pos hlen] at h ⊢
          exact TraceOutcome.done.inj h
        · rw [if_neg hlen] at h ⊢
          cases hV : V[e.EndVertexId]? with
          | none => rw [hV] at h; cases h
          | some v =>
            simp only [hV] at h ⊢
            by_cases h0 : v.OutgoingHalfEdges.length = 0
            · rw [if_pos h0] at h ⊢
              exact TraceOutcome.done.inj h
            · rw [if_neg h0] at h ⊢
              cases hR : FindReverseHalfEdge H e with
              | none =>
                simp only [hR] at h ⊢
                exact TraceOutcome.done.inj h
              | some rid =>
                simp only [hR] at h ⊢
                cases hP : v.OutgoingHalfEdges.indexOf? rid with
                | none =>
                  simp only [hP] at h ⊢
                  exact TraceOutcome.done.inj h
                | some p =>
                  simp only [hP] at h ⊢
                  cases hN : v.OutgoingHalfEdges[(p + 1) % v.OutgoingHalfEdges.length]? with
                  | none => rw [hN] at h; cases h
                  | some next =>
                    simp only [hN] at h ⊢
                    by_cases hs : next = start
                    · rw [if_pos hs] at h ⊢
                      exact TraceOutcome.done.inj h
                    · rw [if_neg hs] at h ⊢
                      exact ih _ _ _ _ h

theorem TraceAllFacesChecked_eq (V : List FPlanarVertex) (H : List FHalfEdge)
    (hT : ∀ (U : List Nat) (s : Nat), s < H.length →
      ∃ r, TraceFaceChecked V H U s (H.length + 1) s [] [] = TraceOutcome.done r) :
    ∀ (starts U : List Nat) (Ls : List (List UGeomCurve)), (∀ s ∈ starts, s < H.length) →
      TraceAllFacesChecked V H starts U Ls = some (TraceAllFaces V H starts U Ls) := by
  intro starts
  induction starts with
  | nil => intro U Ls _; rfl
  | cons s rest ih =>
    intro U Ls hs
    have hrest : ∀ s ∈ rest, s < H.length := fun x hx => hs x (List.mem_cons_of_mem _ hx)
    unfold TraceAllFacesChecked TraceAllFaces
    by_cases hU : U.contains s = true
    · rw [if_pos hU, if_pos hU]
      exact ih U Ls hrest
    · rw [if_neg hU, if_neg hU]
      obtain ⟨r, hr⟩ := hT U s (hs s (List.mem_cons_self _ _))
      have he := TraceFaceChecked_eq V H U s _ _ _ _ r hr
      simp only [hr, he]
      split_ifs
      · exact ih _ _ hrest
      · exact ih _ _ hrest

theorem indexOf?_some_lt (l : List Nat) (x p : Nat) (h : l.indexOf? x = some p) :
    p < l.length ∧ l[p]? = some x := by
  unfold List.indexOf? at h
  rw [List.findIdx?_eq_some_iff_getElem] at h
  obtain ⟨hp, hx, _⟩ := h
  refine ⟨hp, ?_⟩
  rw [List.getElem?_eq_getElem hp]
  simp only [beq_iff_eq] at hx
  rw [hx]

theorem indexOf?_none_not_mem (l : List Nat) (x : Nat) (h : l.indexOf? x = none) : x ∉ l := by
  unfold List.indexOf? at h
  rw [List.findIdx?_eq_none_iff] at h
  intro hx
  have := h x hx
  simp at this

theorem TraceFaceChecked_done (V : List FPlanarVertex) (H : List FHalfEdge) (U : List Nat)
    (start : Nat) (hb : ∀ e ∈ H, e.EndVertexId < V.length)
    (hc : ∀ v ∈ V, ∀ x ∈ v.OutgoingHalfEdges, x < H.length) :
    ∀ (fuel cur : Nat) (loop : List UGeomCurve) (lhe : List Nat),
      cur < H.length → loop.length ≤ H.length → H.length + 1 ≤ fuel + loop.length →
      lhe.length = loop.length →
      ∃ r, TraceFaceChecked V H U start fuel cur loop lhe = TraceOutcome.done r ∧
        r.LoopHalfEdges.length ≤ H.length + 1 ∧
        r.LoopHalfEdges.length = r.CurrentLoop.length ∧
        (r.bValidLoop = true → r.CurrentHalfEdgeId = start) ∧
        (r.bValidLoop = false → r.CurrentHalfEdgeId ∈ U ∨ r.CurrentLoop.length > H.length ∨
          ReverseNotInList V H r.CurrentHalfEdgeId) := by
  intro fuel
  induction fuel with
  | zero => intro cur loop lhe _ h1 h2 _; omega
  | succ fuel ih =>
    intro cur loop lhe hcur hl hf hlhe
    unfold TraceFaceChecked
    by_cases hU : U.contains cur = true
    · rw [if_pos hU]
      refine ⟨_, rfl, by simp only; omega, hlhe, by simp, fun _ => Or.inl ?_⟩
      simpa using hU
    · rw [if_neg hU]
      have hH : H[cur]? = some H[cur] := List.getElem?_eq_getElem hcur
      simp only [hH]
      have hl1 : (lhe ++ [cur]).length = (loop ++ [H[cur].Curve]).length := by simp [hlhe]
      by_cases hlen : (loop ++ [H[cur].Curve]).length > H.length
      · rw [if_pos hlen]
        refine ⟨_, rfl, ?_, hl1, by simp, fun _ => Or.inr (Or.inl hlen)⟩
        simp at hlen ⊢; omega
      · rw [if_neg hlen]
        have hv : H[cur].EndVertexId < V.length := hb _ (List.getElem_mem hcur)
        have hV : V[H[cur].EndVertexId]? = some V[H[cur].EndVertexId] :=
          List.getElem?_eq_getElem hv
        simp only [hV]
        have hlen2 : (lhe ++ [cur]).length ≤ H.length + 1 := by
          simp at hlen ⊢; omega
        by_cases h0 : V[H[cur].EndVertexId].OutgoingHalfEdges.length = 0
        · rw [if_pos h0]
          refine ⟨_, rfl, hlen2, hl1, by simp, fun _ => Or.inr (Or.inr ?_)⟩
          refine ⟨_, _, hH, hV, ?_⟩
          intro p _ hp
          rw [List.length_eq_zero] at h0
          rw [h0] at hp
          cases hp
        · rw [if_neg h0]
          cases hR : FindReverseHalfEdge H H[cur] with
          | none =>
            simp only [hR]
            refine ⟨_, rfl, hlen2, hl1, by simp, fun _ => Or.inr (Or.inr ?_)⟩
            exact ⟨_, _, hH, hV, fun p hp => by rw [hR] at hp; cases hp⟩
          | some rid =>
            simp only [hR]
            cases hP : V[H[cur].EndVertexId].OutgoingHalfEdges.indexOf? rid with
            | none =>
              simp only [hP]
              refine ⟨_, rfl, hlen2, hl1, by simp, fun _ => Or.inr (Or.inr ?_)⟩
              refine ⟨_, _, hH, hV, ?_⟩
              intro p hp
              rw [hR] at hp
              cases hp
              exact indexOf?_none_not_mem _ _ hP
            | some p =>
              simp only [hP]
              have hm : (p + 1) % V[H[cur].EndVertexId].OutgoingHalfEdges.length
                  < V[H[cur].EndVertexId].OutgoingHalfEdges.length :=
                Nat.mod_lt _ (Nat.pos_of_ne_zero h0)
              have hN := List.getElem?_eq_getElem hm
              simp only [hN]
              by_cases hs : V[H[cur].EndVertexId].OutgoingHalfEdges[
                  (p + 1) % V[H[cur].EndVertexId].OutgoingHalfEdges.length] = start
              · rw [if_pos hs]
                exact ⟨_, rfl, hlen2, hl1, fun _ => hs, by simp⟩
              · rw [if_neg hs]
                refine ih _ _ _ ?_ ?_ ?_ hl1
                · exact hc _ (List.getElem_mem hv) _ (List.getElem_mem hm)
                · simp at hlen ⊢; omega
                · simp; omega

theorem mem_VertexMapAdd (m : List (FVector × Nat)) (k : FVector) (v : Nat)
    (pr : FVector × Nat) (h : pr ∈ VertexMapAdd m k v) : pr ∈ m ∨ pr.2 = v := by
  induction m with
  | nil =>
    simp only [VertexMapAdd, List.mem_singleton] at h
    right; rw [h]
  | cons a rest ih =>
    obtain ⟨k0, v0⟩ := a
    unfold VertexMapAdd at h
    split_ifs at h
    · rcases List.mem_cons.1 h with h | h
      · right; rw [h]
      · left; exact List.mem_cons_of_mem _ h
    · rcases List.mem_cons.1 h with h | h
      · left; rw [h]; exact List.mem_cons_self _ _
      · rcases ih h with h | h
        · left; exact List.mem_cons_of_mem _ h
        · right; exact h

theorem FindOrCreateVertex_range (tol : ℚ) (g : PlanarTables) (P : FVector)
    (hg : TablesInRange g) :
    TablesInRange (FindOrCreateVertex tol g P).1 ∧
      (FindOrCreateVertex tol g P).2 < (FindOrCreateVertex tol g P).1.Vertices.length := by
  unfold FindOrCreateVertex
  cases hf : g.VertexMap.find? (fun pr => pr.1.DistLt P tol) with
  | some pr =>
    simp only
    exact ⟨hg, hg.1 pr (List.mem_of_find?_eq_some hf)⟩
  | none =>
    simp only
    refine ⟨⟨?_, ?_, ?_⟩, by simp⟩
    · intro pr hpr
      simp only [List.length_append, List.length_singleton]
      rcases mem_VertexMapAdd _ _ _ _ hpr with h | h
      · have := hg.1 pr h; omega
      · omega
    · intro h hh
      simp only [List.length_append, List.length_singleton]
      have := hg.2.1 h hh
      omega
    · intro v hv e he
      rcases List.mem_append.1 hv with h | h
      · exact hg.2.2 v h e he
      · simp only [List.mem_singleton] at h
        rw [h] at he
        cases he

theorem AddOutgoing_length (V : List FPlanarVertex) (s x : Nat) :
    (AddOutgoing V s x).length = V.length := by
  unfold AddOutgoing
  exact List.length_modify _ _ _

theorem mem_AddOutgoing (V : List FPlanarVertex) (s x : Nat) (v : FPlanarVertex)
    (h : v ∈ AddOutgoing V s x) :
    ∃ a ∈ V, ∀ e ∈ v.OutgoingHalfEdges, e ∈ a.OutgoingHalfEdges ∨ e = x := by
  obtain ⟨i, hi⟩ := List.getElem?_of_mem h
  rw [AddOutgoing_getElem?] at hi
  cases hV : V[i]? with
  | none => rw [hV] at hi; cases hi
  | some a =>
    rw [hV] at hi
    simp only [Option.map_some', Option.some.injEq] at hi
    refine ⟨a, mem_of_getElem?_some _ _ _ hV, ?_⟩
    intro e he
    rw [← hi] at he
    split_ifs at he
    · simp only [List.mem_append, List.mem_singleton] at he
      exact he
    · exact Or.inl he

theorem AddCurveToTables_range (tol : ℚ) (g : PlanarTables) (c : UGeomCurve)
    (hg : TablesInRange g) : TablesInRange (AddCurveToTables tol g c) := by
  have h1 := FindOrCreateVertex_range tol g c.StartPoint hg
  have h2 := FindOrCreateVertex_range tol (FindOrCreateVertex tol g c.StartPoint).1 c.EndPoint h1.1
  have hmono : (FindOrCreateVertex tol g c.StartPoint).1.Vertices.length ≤
      (FindOrCreateVertex tol (FindOrCreateVertex tol g c.StartPoint).1 c.EndPoint).1.Vertices.length := by
    generalize (FindOrCreateVertex tol g c.StartPoint).1 = g1
    unfold FindOrCreateVertex
    split
    · exact le_rfl
    · simp
  unfold AddCurveToTables
  simp only
  split_ifs with h
  · exact h2.1
  · refine ⟨?_, ?_, ?_⟩
    · intro pr hpr
      simp only [AddOutgoing_length]
      exact h2.1.1 pr hpr
    · intro e he
      simp only [AddOutgoing_length]
      rcases List.mem_append.1 he with he | he
      · exact h2.1.2.1 e he
      · simp only [List.mem_cons, List.mem_singleton, List.not_mem_nil, or_false] at he
        rcases he with rfl | rfl
        · exact ⟨lt_of_lt_of_le h1.2 hmono, h2.2⟩
        · exact ⟨h2.2, lt_of_lt_of_le h1.2 hmono⟩
    · intro v hv e he
      simp only [List.length_append, List.length_cons, List.length_nil]
      obtain ⟨a, ha, hea⟩ := mem_AddOutgoing _ _ _ _ hv
      rcases hea e he with h3 | h3
      · obtain ⟨b, hb, heb⟩ := mem_AddOutgoing _ _ _ _ ha
        rcases heb e h3 with h4 | h4
        · have := h2.1.2.2 b hb e h4
          omega
        · omega
      · omega

theorem BuildTables_range (InCurves : List UGeomCurve) (tol : ℚ) :
    TablesInRange (BuildTables InCurves tol) := by
  unfold BuildTables
  have key : ∀ (cs : List UGeomCurve) (g : PlanarTables), TablesInRange g →
      TablesInRange (cs.foldl (AddCurveToTables tol) g) := by
    intro cs
    induction cs with
    | nil => intro g hg; exact hg
    | cons c cs ih => intro g hg; exact ih _ (AddCurveToTables_range tol g c hg)
  exact key InCurves _ ⟨by simp, by simp, by simp⟩

theorem SortVertices_range (H : List FHalfEdge) (V : List FPlanarVertex)
    (hc : ∀ v ∈ V, ∀ e ∈ v.OutgoingHalfEdges, e < H.length) :
    (SortVertices H V).length = V.length ∧
      ∀ v ∈ SortVertices H V, ∀ e ∈ v.OutgoingHalfEdges, e < H.length := by
  refine ⟨by simp [SortVertices], ?_⟩
  intro v hv e he
  obtain ⟨i, hi⟩ := List.getElem?_of_mem hv
  have hlt : i < V.length := by
    have := (List.getElem?_eq_some.1 hi).1
    simpa [SortVertices] using this
  obtain ⟨y, hy, hp⟩ := SortVertices_getElem? H V i V[i] (List.getElem?_eq_getElem hlt)
  rw [hi] at hy
  cases hy
  exact hc _ (List.getElem_mem hlt) e (hp.subset he)

/-- C21. On every input the checked `FindLoopsFromCurves`, which faults on an
index outside its table and on a face trace of more than `HalfEdges.Num() + 1`
rounds, returns without a fault, and returns what `FindLoopsFromCurves`
returns. Every face trace that starts at a half-edge of the table, with any
set of used half-edges, ends within `HalfEdges.Num() + 1` rounds and collects
at most that many half-edges; it ends valid only when it is back at its start
half-edge, and otherwise because it met a used half-edge, collected more
half-edges than the table holds, or did not find the reverse half-edge in the
outgoing list of the destination vertex. -/
theorem face_trace_stops_with_indices_in_range (InCurves : List UGeomCurve) (Tolerance : ℚ) :
    FindLoopsFromCurvesChecked InCurves Tolerance
        = some (FindLoopsFromCurves InCurves Tolerance) ∧
      TablesInRange (BuildTables InCurves Tolerance) ∧
      ∀ (UsedHalfEdges : List Nat) (StartHalfEdgeId : Nat),
        StartHalfEdgeId < (BuildTables InCurves Tolerance).HalfEdges.length →
        ∃ r, TraceFaceChecked
            (SortVertices (BuildTables InCurves Tolerance).HalfEdges
              (BuildTables InCurves Tolerance).Vertices)
            (BuildTables InCurves Tolerance).HalfEdges UsedHalfEdges StartHalfEdgeId
            ((BuildTables InCurves Tolerance).HalfEdges.length + 1) StartHalfEdgeId [] []
            = TraceOutcome.done r ∧
          r.LoopHalfEdges.length ≤ (BuildTables InCurves Tolerance).HalfEdges.length + 1 ∧
          (r.bValidLoop = true → r.CurrentHalfEdgeId = StartHalfEdgeId) ∧
          (r.bValidLoop = false → r.CurrentHalfEdgeId ∈ UsedHalfEdges ∨
            r.CurrentLoop.length > (BuildTables InCurves Tolerance).HalfEdges.length ∨
            ReverseNotInList
              (SortVertices (BuildTables InCurves Tolerance).HalfEdges
                (BuildTables InCurves Tolerance).Vertices)
              (BuildTables InCurves Tolerance).HalfEdges r.CurrentHalfEdgeId) := by
  have hR := BuildTables_range InCurves Tolerance
  have hS := SortVertices_range (BuildTables InCurves Tolerance).HalfEdges
    (BuildTables InCurves Tolerance).Vertices hR.2.2
  have hb : ∀ e ∈ (BuildTables InCurves Tolerance).HalfEdges, e.EndVertexId <
      (SortVertices (BuildTables InCurves Tolerance).HalfEdges
        (BuildTables InCurves Tolerance).Vertices).length := by
    intro e he
    rw [hS.1]
    exact (hR.2.1 e he).2
  have hT : ∀ (U : List Nat) (s : Nat), s < (BuildTables InCurves Tolerance).HalfEdges.length →
      ∃ r, TraceFaceChecked
          (SortVertices (BuildTables InCurves Tolerance).HalfEdges
            (BuildTables InCurves Tolerance).Vertices)
          (BuildTables InCurves Tolerance).HalfEdges U s
          ((BuildTables InCurves Tolerance).HalfEdges.length + 1) s [] []
          = TraceOutcome.done r ∧
        r.LoopHalfEdges.length ≤ (BuildTables InCurves Tolerance).HalfEdges.length + 1 ∧
        (r.bValidLoop = true → r.CurrentHalfEdgeId = s) ∧
        (r.bValidLoop = false → r.CurrentHalfEdgeId ∈ U ∨
          r.CurrentLoop.length > (BuildTables InCurves Tolerance).HalfEdges.length ∨
          ReverseNotInList
            (SortVertices (BuildTables InCurves Tolerance).HalfEdges
              (BuildTables InCurves Tolerance).Vertices)
            (BuildTables InCurves Tolerance).HalfEdges r.CurrentHalfEdgeId) := by
    intro U s hs
    obtain ⟨r, h1, h2, _, h4, h5⟩ := TraceFaceChecked_done _ _ U s hb hS.2
      ((BuildTables InCurves Tolerance).HalfEdges.length + 1) s [] [] hs (by simp) (by simp) rfl
    exact ⟨r, h1, h2, h4, h5⟩
  refine ⟨?_, hR, hT⟩
  have e : InCurves.foldl (AddCurveToTables Tolerance) ⟨[], [], []⟩
      = BuildTables InCurves Tolerance := rfl
  unfold FindLoopsFromCurvesChecked FindLoopsFromCurves
  simp only [e]
  by_cases h3 : InCurves.length < 3
  · rw [if_pos h3, if_pos h3]
  · rw [if_neg h3, if_neg h3]
    by_cases h6 : (BuildTables InCurves Tolerance).HalfEdges.length < 6
    · rw [if_pos h6, if_pos h6]
    · rw [if_neg h6, if_neg h6]
      exact TraceAllFacesChecked_eq _ _
        (fun U s hs => by obtain ⟨r, h, _⟩ := hT U s hs; exact ⟨r, h⟩) _ _ _
        (fun s hs => List.mem_range.1 hs)

theorem GetClosed_eq_FoundLoops (sortGroups : List UGeomCurve → List UGeomCurve)
    (tolRep eps : ℚ) (InCurves : List UGeomCurve) :
    GetClosedCurvesListFromUnorderCurves sortGroups tolRep eps InCurves =
      RemoveRepeatedLoops ((FoundLoops sortGroups tolRep eps InCurves).filter
        (LoopIsValid eps
          (BuildConnectionMap eps (sortGroups (RemoveRepeatedLines tolRep InCurves))))) := by
  unfold GetClosedCurvesListFromUnorderCurves FoundLoops
  by_cases h : InCurves.length = 0
  · rw [if_pos h, if_pos h]
    simp [RemoveRepeatedLoops]
  · rw [if_neg h, if_neg h]

theorem FoundLoops_good (sortGroups : List UGeomCurve → List UGeomCurve)
    (tolRep eps : ℚ) (InCurves : List UGeomCurve) :
    ∀ L ∈ FoundLoops sortGroups tolRep eps InCurves,
      LoopGood (sortGroups (RemoveRepeatedLines tolRep InCurves)) L := by
  intro L hL
  unfold FoundLoops at hL
  by_cases h0 : InCurves.length = 0
  · rw [if_pos h0] at hL; cases hL
  rw [if_neg h0] at hL
  cases hs : SearchAll (BuildConnectionMap eps (sortGroups (RemoveRepeatedLines tolRep InCurves)))
      (DfsFuel (BuildConnectionMap eps (sortGroups (RemoveRepeatedLines tolRep InCurves))))
      [] (sortGroups (RemoveRepeatedLines tolRep InCurves)) [] with
  | none => rw [hs] at hL; simp at hL
  | some r =>
    rw [hs] at hL
    exact SearchAll_loops_good _ _ _ (fun c d h => Connections_subset eps _ c d h) _ _ _ _
      (fun c hc => hc) (by simp) hs L (by simpa using hL)

theorem mem_RemoveRepeatedLoops :
    ∀ (n : Nat) (l : List (List UGeomCurve)), l.length ≤ n →
      ∀ L ∈ RemoveRepeatedLoops l, L ∈ l := by
  intro n
  induction n with
  | zero =>
    intro l hl L hL
    have : l = [] := List.length_eq_zero.mp (Nat.le_zero.mp hl)
    subst this
    simp [RemoveRepeatedLoops] at hL
  | succ n ih =>
    intro l hl L hL
    cases l with
    | nil => simp [RemoveRepeatedLoops] at hL
    | cons A rest =>
      rw [RemoveRepeatedLoops] at hL
      rcases List.mem_cons.1 hL with h | h
      · rw [h]; exact List.mem_cons_self _ _
      · have hlen : (rest.filter (fun L2 => !IsSameLoop A L2)).length ≤ n := by
          have := List.length_filter_le (fun L2 => !IsSameLoop A L2) rest
          simp only [List.length_cons] at hl
          omega
        exact List.mem_cons_of_mem _ (List.mem_of_mem_filter (ih _ hlen L h))

theorem LoopIsValid_length (eps : ℚ) (cmap : List (Nat × List UGeomCurve))
    (L : List UGeomCurve) (h : LoopIsValid eps cmap L = true) : 2 ≤ L.length := by
  by_contra hlt
  unfold LoopIsValid at h
  rw [if_neg (by omega), if_neg (by omega), if_neg (by omega)] at h
  cases h

theorem LoopIsValid_two (eps : ℚ) (cmap : List (Nat × List UGeomCurve))
    (L : List UGeomCurve) (h : LoopIsValid eps cmap L = true) (h2 : L.length = 2) :
    ∀ c ∈ L, c.IsArcOfCircle = true := by
  obtain ⟨a, b, rfl⟩ := List.length_eq_two.1 h2
  simp only [LoopIsValid, List.length_cons, List.length_nil, Nat.reduceAdd, Nat.reduceEqDiff,
    if_false, gt_iff_lt, Nat.reduceLT, if_true, Bool.and_eq_true] at h
  intro c hc
  simp only [List.mem_cons, List.mem_singleton, List.not_mem_nil, or_false] at hc
  rcases hc with rfl | rfl
  · exact h.1
  · exact h.2

theorem LoopIsValid_three (eps : ℚ) (cmap : List (Nat × List UGeomCurve))
    (L : List UGeomCurve) (h : LoopIsValid eps cmap L = true) (h3 : L.length = 3) :
    IsValidTriangle eps L = true := by
  unfold LoopIsValid at h
  rw [if_pos h3] at h
  exact h

theorem LoopIsValid_four (eps : ℚ) (cmap : List (Nat × List UGeomCurve))
    (L : List UGeomCurve) (h : LoopIsValid eps cmap L = true) (h4 : 4 ≤ L.length)
    (j : Nat) (cj ck : UGeomCurve) (hj : L[j]? = some cj)
    (hk : L[(j + L.length - 2) % L.length]? = some ck) :
    ContainsPtr (Connections cmap cj) ck = false := by
  unfold LoopIsValid at h
  rw [if_neg (by omega), if_pos (by omega)] at h
  have hjl : j < L.length := (List.getElem?_eq_some.1 hj).1
  have hn : ∀ x ∈ List.range L.length,
      (match L[x]?, L[(x + L.length - 2) % L.length]? with
        | some cj, some ck => ContainsPtr (Connections cmap cj) ck
        | _, _ => false) = false := by
    simpa [List.any_eq_false] using h
  have hjk := hn j (List.mem_range.2 hjl)
  simp only [hj, hk] at hjk
  exact hjk

/-- C22. Every loop returned by `GetClosedCurvesListFromUnorderCurves` passes
the pre-filter `LoopIsValid`: it has at least two curves; a loop of two curves
is made of two arcs; a loop of three curves passes `IsValidTriangle`; and in a
loop of four or more curves no curve is connected (`AreCurvesConnectedNoOrder`
at the tolerance of the connection map) to the curve two positions before it in
the cycle. -/
theorem returned_loops_pass_prefilter (sortGroups : List UGeomCurve → List UGeomCurve)
    (tolRep eps : ℚ) (InCurves : List UGeomCurve) :
    ∀ L ∈ GetClosedCurvesListFromUnorderCurves sortGroups tolRep eps InCurves,
      LoopIsValid eps
        (BuildConnectionMap eps (sortGroups (RemoveRepeatedLines tolRep InCurves))) L = true ∧
      2 ≤ L.length ∧
      (L.length = 2 → ∀ c ∈ L, c.IsArcOfCircle = true) ∧
      (L.length = 3 → IsValidTriangle eps L = true) ∧
      (4 ≤ L.length → ∀ (j : Nat) cj ck, L[j]? = some cj →
        L[(j + L.length - 2) % L.length]? = some ck →
        AreCurvesConnectedNoOrder cj ck eps = false) := by
  intro L hL
  rw [GetClosed_eq_FoundLoops] at hL
  have hf := mem_RemoveRepeatedLoops _ _ le_rfl L hL
  obtain ⟨hfound, hvalid⟩ := List.mem_filter.1 hf
  have hgood := FoundLoops_good sortGroups tolRep eps InCurves L hfound
  refine ⟨hvalid, LoopIsValid_length _ _ _ hvalid, LoopIsValid_two _ _ _ hvalid,
    LoopIsValid_three _ _ _ hvalid, ?_⟩
  · intro h4 j cj ck hj hk
    have hjk := LoopIsValid_four _ _ _ hvalid h4 j cj ck hj hk
    have hjl : j < L.length := (List.getElem?_eq_some.1 hj).1
    by_contra hconn
    have hconn2 : AreCurvesConnectedNoOrder cj ck eps = true := by
      simpa using hconn
    have hcj := hgood.2 cj (mem_of_getElem?_some _ _ _ hj)
    have hck := hgood.2 ck (mem_of_getElem?_some _ _ _ hk)
    have hne : cj.id ≠ ck.id := by
      intro heq
      have hkl : (j + L.length - 2) % L.length < L.length := (List.getElem?_eq_some.1 hk).1
      have hjm : (L.map (fun c => c.id))[j]? = some cj.id := by
        rw [List.getElem?_map, hj]; rfl
      have hkm : (L.map (fun c => c.id))[(j + L.length - 2) % L.length]? = some cj.id := by
        rw [List.getElem?_map, hk, heq]; rfl
      have hidx := (List.getElem?_inj (by simpa using hjl) hgood.1 (hjm.trans hkm.symm))
      rcases Nat.lt_or_ge j 2 with h | h
      · rw [Nat.mod_eq_of_lt (by omega)] at hidx; omega
      · have e : j + L.length - 2 = (j - 2) + L.length := by omega
        rw [e, Nat.add_mod_right, Nat.mod_eq_of_lt (by omega)] at hidx
        omega
    have hmem := Connections_mem_of_connected eps _ cj ck hcj hck hne hconn2
    have hcp : ContainsPtr (Connections (BuildConnectionMap eps
        (sortGroups (RemoveRepeatedLines tolRep InCurves))) cj) ck = true :=
      (ContainsPtr_iff _ _).2 (List.mem_map_of_mem _ hmem)
    rw [hcp] at hjk
    cases hjk

theorem RemoveRepeatedLoops_pairwise :
    ∀ (n : Nat) (l : List (List UGeomCurve)), l.length ≤ n →
      (RemoveRepeatedLoops l).Pairwise (fun A B => IsSameLoop A B = false) := by
  intro n
  induction n with
  | zero =>
    intro l hl
    have : l = [] := List.length_eq_zero.mp (Nat.le_zero.mp hl)
    subst this
    simp [RemoveRepeatedLoops]
  | succ n ih =>
    intro l hl
    cases l with
    | nil => simp [RemoveRepeatedLoops]
    | cons A rest =>
      rw [RemoveRepeatedLoops]
      have hlen : (rest.filter (fun L2 => !IsSameLoop A L2)).length ≤ n := by
        have := List.length_filter_le (fun L2 => !IsSameLoop A L2) rest
        simp only [List.length_cons] at hl
        omega
      refine List.Pairwise.cons ?_ (ih _ hlen)
      intro B hB
      have := (List.mem_filter.1 (mem_RemoveRepeatedLoops _ _ le_rfl B hB)).2
      simpa using this

theorem RemoveRepeatedLoops_keeps_one :
    ∀ (n : Nat) (l : List (List UGeomCurve)), l.length ≤ n →
      ∀ L ∈ l, ∃ A ∈ RemoveRepeatedLoops l, A = L ∨ IsSameLoop A L = true := by
  intro n
  induction n with
  | zero =>
    intro l hl L hL
    have : l = [] := List.length_eq_zero.mp (Nat.le_zero.mp hl)
    subst this
    cases hL
  | succ n ih =>
    intro l hl L hL
    cases l with
    | nil => cases hL
    | cons A rest =>
      rw [RemoveRepeatedLoops]
      have hlen : (rest.filter (fun L2 => !IsSameLoop A L2)).length ≤ n := by
        have := List.length_filter_le (fun L2 => !IsSameLoop A L2) rest
        simp only [List.length_cons] at hl
        omega
      rcases List.mem_cons.1 hL with h | h
      · exact ⟨A, List.mem_cons_self _ _, Or.inl h.symm⟩
      · by_cases hs : IsSameLoop A L = true
        · exact ⟨A, List.mem_cons_self _ _, Or.inr hs⟩
        · obtain ⟨B, hB, hBL⟩ := ih _ hlen L (List.mem_filter.2 ⟨h, by simpa using hs⟩)
          exact ⟨B, List.mem_cons_of_mem _ hB, hBL⟩

theorem IsSameLoop_perm (A B : List UGeomCurve) (hB : (B.map (fun c => c.id)).Nodup)
    (h : IsSameLoop A B = true) : (A.map (fun c => c.id)).Perm (B.map (fun c => c.id)) := by
  unfold IsSameLoop at h
  simp only [Bool.and_eq_true, decide_eq_true_eq, List.all_eq_true] at h
  obtain ⟨hlen, hall⟩ := h
  have hsub : B.map (fun c => c.id) ⊆ A.map (fun c => c.id) := by
    intro x hx
    obtain ⟨c, hc, rfl⟩ := List.mem_map.1 hx
    exact (ContainsPtr_iff A c).1 (hall c hc)
  have hsp := List.subperm_of_subset hB hsub
  exact (hsp.perm_of_length_le (by simp [hlen])).symm

theorem IsSameLoop_of_same_set (A B : List UGeomCurve) (hA : (A.map (fun c => c.id)).Nodup)
    (hB : (B.map (fun c => c.id)).Nodup)
    (h : ∀ x, x ∈ A.map (fun c => c.id) ↔ x ∈ B.map (fun c => c.id)) :
    IsSameLoop A B = true := by
  have hp := (List.perm_ext_iff_of_nodup hA hB).2 h
  unfold IsSameLoop
  simp only [Bool.and_eq_true, decide_eq_true_eq, List.all_eq_true]
  refine ⟨by simpa using hp.length_eq, ?_⟩
  intro c hc
  exact (ContainsPtr_iff A c).2 ((h c.id).2 (List.mem_map_of_mem _ hc))

/-- C23. In the list returned by `GetClosedCurvesListFromUnorderCurves` no two
loops are made of the same set of curve objects; every returned loop is a loop
that the search found and the pre-filter kept; and for every loop that the
search found and the pre-filter kept, a loop made of the same curve objects is
in the returned list. -/
theorem duplicate_loops_removed (sortGroups : List UGeomCurve → List UGeomCurve)
    (tolRep eps : ℚ) (InCurves : List UGeomCurve) :
    (GetClosedCurvesListFromUnorderCurves sortGroups tolRep eps InCurves).Pairwise
        (fun A B => ¬ ∀ x, x ∈ A.map (fun c => c.id) ↔ x ∈ B.map (fun c => c.id)) ∧
      (∀ L ∈ GetClosedCurvesListFromUnorderCurves sortGroups tolRep eps InCurves,
        L ∈ FoundLoops sortGroups tolRep eps InCurves ∧
        LoopIsValid eps
          (BuildConnectionMap eps (sortGroups (RemoveRepeatedLines tolRep InCurves))) L = true) ∧
      (∀ L ∈ FoundLoops sortGroups tolRep eps InCurves,
        LoopIsValid eps
          (BuildConnectionMap eps (sortGroups (RemoveRepeatedLines tolRep InCurves))) L = true →
        ∃ A ∈ GetClosedCurvesListFromUnorderCurves sortGroups tolRep eps InCurves,
          (A.map (fun c => c.id)).Perm (L.map (fun c => c.id))) := by
  rw [GetClosed_eq_FoundLoops]
  have hmem : ∀ L ∈ RemoveRepeatedLoops ((FoundLoops sortGroups tolRep eps InCurves).filter
      (LoopIsValid eps
        (BuildConnectionMap eps (sortGroups (RemoveRepeatedLines tolRep InCurves))))),
      L ∈ FoundLoops sortGroups tolRep eps InCurves ∧
      LoopIsValid eps
        (BuildConnectionMap eps (sortGroups (RemoveRepeatedLines tolRep InCurves))) L = true :=
    fun L hL => List.mem_filter.1 (mem_RemoveRepeatedLoops _ _ le_rfl L hL)
  have hgood := FoundLoops_good sortGroups tolRep eps InCurves
  refine ⟨?_, hmem, ?_⟩
  · have hp := RemoveRepeatedLoops_pairwise _ _ (le_refl
      ((FoundLoops sortGroups tolRep eps InCurves).filter
        (LoopIsValid eps
          (BuildConnectionMap eps (sortGroups (RemoveRepeatedLines tolRep InCurves))))).length)
    rw [List.pairwise_iff_forall_sublist] at hp ⊢
    intro A B hAB hsame
    have hA := hmem A (hAB.subset (List.mem_cons_self _ _))
    have hB := hmem B (hAB.subset (List.mem_cons_of_mem _ (List.mem_cons_self _ _)))
    have := IsSameLoop_of_same_set A B (hgood A hA.1).1 (hgood B hB.1).1 hsame
    rw [hp hAB] at this
    cases this
  · intro L hL hv
    obtain ⟨A, hA, h⟩ := RemoveRepeatedLoops_keeps_one _ _ le_rfl L
      (List.mem_filter.2 ⟨hL, hv⟩)
    refine ⟨A, hA, ?_⟩
    rcases h with h | h
    · rw [h]
    · exact IsSameLoop_perm A L (hgood L hL).1 h

theorem Squares4_found :
    FoundLoops id (1 / 10000000) (1 / 10000000) (Outer4 ++ Inner2)
      = [Pick Outer4 [0, 3, 2, 1], Pick Outer4 [0, 1, 2, 3], Pick Inner2 [0, 3, 2, 1],
          Pick Inner2 [0, 1, 2, 3]] := by
  have hrep := Squares4_no_repeats (1 / 10000000) (by norm_num)
  have hfound : SearchAll (BuildConnectionMapWith TwoSqAdj (Outer4 ++ Inner2)) 80 []
      (Outer4 ++ Inner2) []
      = some [Pick Outer4 [0, 3, 2, 1], Pick Outer4 [0, 1, 2, 3], Pick Inner2 [0, 3, 2, 1],
              Pick Inner2 [0, 1, 2, 3]] := by rfl
  unfold FoundLoops
  rw [if_neg (by simp [Outer4, SquareSides])]
  simp only [id, hrep]
  rw [BuildConnectionMap_congr (1 / 10000000) TwoSqAdj _
    (Squares4_conn (1 / 10000000) (by norm_num) (by norm_num))]
  exact SearchAll_eq_of_some _ 80 _ _ hfound

/-- C22, instance: the loop around the outer square, returned for the two
nested squares. -/
theorem returned_loops_pass_prefilter_squares :
    Pick Outer4 [0, 3, 2, 1] ∈ GetClosedCurvesListFromUnorderCurves id (1 / 10000000)
        (1 / 10000000) (Outer4 ++ Inner2) ∧
      2 ≤ (Pick Outer4 [0, 3, 2, 1]).length ∧
      (4 ≤ (Pick Outer4 [0, 3, 2, 1]).length → ∀ (j : Nat) cj ck,
        (Pick Outer4 [0, 3, 2, 1])[j]? = some cj →
        (Pick Outer4 [0, 3, 2, 1])[(j + (Pick Outer4 [0, 3, 2, 1]).length - 2) %
          (Pick Outer4 [0, 3, 2, 1]).length]? = some ck →
        AreCurvesConnectedNoOrder cj ck (1 / 10000000) = false) :=
  have h : Pick Outer4 [0, 3, 2, 1] ∈ GetClosedCurvesListFromUnorderCurves id (1 / 10000000)
      (1 / 10000000) (Outer4 ++ Inner2) := by
    rw [GetClosed_squares4 id _ _ (by norm_num) (by norm_num) (by norm_num) rfl]
    exact List.mem_cons_self _ _
  ⟨h, (returned_loops_pass_prefilter id (1 / 10000000) (1 / 10000000) (Outer4 ++ Inner2) _ h).2.1,
    (returned_loops_pass_prefilter id (1 / 10000000) (1 / 10000000)
      (Outer4 ++ Inner2) _ h).2.2.2.2⟩

/-- C23, instance: for the two nested squares the search finds each square
twice, once in each direction, and one loop for each square is returned. -/
theorem duplicate_loops_removed_squares :
    FoundLoops id (1 / 10000000) (1 / 10000000) (Outer4 ++ Inner2)
      = [Pick Outer4 [0, 3, 2, 1], Pick Outer4 [0, 1, 2, 3], Pick Inner2 [0, 3, 2, 1],
          Pick Inner2 [0, 1, 2, 3]] ∧
    GetClosedCurvesListFromUnorderCurves id (1 / 10000000) (1 / 10000000) (Outer4 ++ Inner2)
      = [Pick Outer4 [0, 3, 2, 1], Pick Inner2 [0, 3, 2, 1]] ∧
    (GetClosedCurvesListFromUnorderCurves id (1 / 10000000) (1 / 10000000)
        (Outer4 ++ Inner2)).Pairwise
      (fun A B => ¬ ∀ x, x ∈ A.map (fun c => c.id) ↔ x ∈ B.map (fun c => c.id)) :=
  ⟨Squares4_found,
    GetClosed_squares4 id _ _ (by norm_num) (by norm_num) (by norm_num) rfl,
    (duplicate_loops_removed id (1 / 10000000) (1 / 10000000) (Outer4 ++ Inner2)).1⟩

theorem CheckPointOnCurve_some (K : Kernel) (tol : ℚ) (i j : Nat)
    (T : FVector × UGeomCurve × ℚ × ℚ) (tp : ℚ) (r : FCurveIntersectionInfo)
    (h : CheckPointOnCurve K tol i T.1 tp T.2.1 T.2.2.1 T.2.2.2 i j = some r) :
    TouchesInside K tol T ∧ r.Position = T.1 := by
  by_cases ht : TouchesInside K tol T
  · obtain ⟨r2, h2, hp⟩ := CheckPointOnCurve_of_touches K tol i j T tp ht
    rw [h] at h2
    cases h2
    exact ⟨ht, hp⟩
  · rw [CheckPointOnCurve_of_not_touches K tol i j T tp ht] at h
    cases h

/-- C24. `CheckEndpointOnSegmentIntersection` returns true only with exactly
one record, whose position is an end point that one of the four end point
tests found within `Tolerance` of the other curve at a parameter `t` with
`first + Tolerance < t < last - Tolerance`. When no end point passes this test,
as for two edges that only share an end point (its parameter on the other edge
is a domain end), the function returns false and no record. -/
theorem endpoint_fallback_reports_only_interior_touches (K : Kernel) (Tolerance : ℚ)
    (Edge1 Edge2 : UGeomCurve) (Curve1Index Curve2Index : Nat) :
    (∀ out, CheckEndpointOnSegmentIntersection K Edge1 Edge2 Curve1Index Curve2Index Tolerance
        = (true, out) →
      ∃ f1 l1 f2 l2 T r, K.EdgeCurve Edge1 = some (f1, l1) ∧ K.EdgeCurve Edge2 = some (f2, l2) ∧
        T ∈ EndpointTests K Edge1 Edge2 f1 l1 f2 l2 ∧ TouchesInside K Tolerance T ∧
        out = [r] ∧ r.Position = T.1) ∧
    (∀ f1 l1 f2 l2, K.EdgeCurve Edge1 = some (f1, l1) → K.EdgeCurve Edge2 = some (f2, l2) →
      (∀ T ∈ EndpointTests K Edge1 Edge2 f1 l1 f2 l2, ¬ TouchesInside K Tolerance T) →
      CheckEndpointOnSegmentIntersection K Edge1 Edge2 Curve1Index Curve2Index Tolerance
        = (false, [])) ∧
    (∀ out, CheckEndpointOnSegmentIntersection K Edge1 Edge2 Curve1Index Curve2Index Tolerance
        = (false, out) → out = []) := by
  refine ⟨?_, ?_, ?_⟩
  · intro out h
    unfold CheckEndpointOnSegmentIntersection at h
    cases h1 : K.EdgeCurve Edge1 with
    | none => rw [h1] at h; simp at h
    | some d1 =>
      cases h2 : K.EdgeCurve Edge2 with
      | none => rw [h1, h2] at h; simp at h
      | some d2 =>
        obtain ⟨f1, l1⟩ := d1
        obtain ⟨f2, l2⟩ := d2
        rw [h1, h2] at h
        simp only at h
        refine ⟨f1, l1, f2, l2, ?_⟩
        cases c0 : CheckPointOnCurve K Tolerance Curve1Index (K.Value Edge1 f1) f1 Edge2 f2 l2
            Curve1Index Curve2Index with
        | some r =>
          rw [c0] at h
          simp only [Prod.mk.injEq, true_and] at h
          have := CheckPointOnCurve_some K Tolerance Curve1Index Curve2Index
            (K.Value Edge1 f1, Edge2, f2, l2) f1 r c0
          exact ⟨_, r, rfl, rfl, by simp [EndpointTests], this.1, h.symm, this.2⟩
        | none =>
          rw [c0] at h
          simp only at h
          cases c1 : CheckPointOnCurve K Tolerance Curve1Index (K.Value Edge1 l1) l1 Edge2 f2 l2
              Curve1Index Curve2Index with
          | some r =>
            rw [c1] at h
            simp only [Prod.mk.injEq, true_and] at h
            have := CheckPointOnCurve_some K Tolerance Curve1Index Curve2Index
              (K.Value Edge1 l1, Edge2, f2, l2) l1 r c1
            exact ⟨_, r, rfl, rfl, by simp [EndpointTests], this.1, h.symm, this.2⟩
          | none =>
            rw [c1] at h
            simp only at h
            cases c2 : CheckPointOnCurve K Tolerance Curve1Index (K.Value Edge2 f2) f2 Edge1
                f1 l1 Curve1Index Curve2Index with
            | some r =>
              rw [c2] at h
              simp only [Prod.mk.injEq, true_and] at h
              have := CheckPointOnCurve_some K Tolerance Curve1Index Curve2Index
                (K.Value Edge2 f2, Edge1, f1, l1) f2 r c2
              exact ⟨_, r, rfl, rfl, by simp [EndpointTests], this.1, h.symm, this.2⟩
            | none =>
              rw [c2] at h
              simp only at h
              cases c3 : CheckPointOnCurve K Tolerance Curve1Index (K.Value Edge2 l2) l2 Edge1
                  f1 l1 Curve1Index Curve2Index with
              | some r =>
                rw [c3] at h
                simp only [Prod.mk.injEq, true_and] at h
                have := CheckPointOnCurve_some K Tolerance Curve1Index Curve2Index
                  (K.Value Edge2 l2, Edge1, f1, l1) l2 r c3
                exact ⟨_, r, rfl, rfl, by simp [EndpointTests], this.1, h.symm, this.2⟩
              | none =>
                rw [c3] at h
                simp at h
  · intro f1 l1 f2 l2 h1 h2 hno
    unfold CheckEndpointOnSegmentIntersection
    rw [h1, h2]
    simp only
    have n0 := CheckPointOnCurve_of_not_touches K Tolerance Curve1Index Curve2Index
      (K.Value Edge1 f1, Edge2, f2, l2) f1 (hno _ (by simp [EndpointTests]))
    have n1 := CheckPointOnCurve_of_not_touches K Tolerance Curve1Index Curve2Index
      (K.Value Edge1 l1, Edge2, f2, l2) l1 (hno _ (by simp [EndpointTests]))
    have n2 := CheckPointOnCurve_of_not_touches K Tolerance Curve1Index Curve2Index
      (K.Value Edge2 f2, Edge1, f1, l1) f2 (hno _ (by simp [EndpointTests]))
    have n3 := CheckPointOnCurve_of_not_touches K Tolerance Curve1Index Curve2Index
      (K.Value Edge2 l2, Edge1, f1, l1) l2 (hno _ (by simp [EndpointTests]))
    simp only at n0 n1 n2 n3
    rw [n0, n1, n2, n3]
  · intro out h
    unfold CheckEndpointOnSegmentIntersection at h
    repeat' split at h
    all_goals first
      | (simp only [Prod.mk.injEq] at h; exact h.2.symm)
      | (simp at h)

/-- C24, instance: the two sides `(0,0)-(1,0)` and `(1,0)-(1,1)` of the unit
square share the end point `(1, 0)`, which lies at a domain end of either
side; no record is produced. -/
theorem shared_end_point_gives_no_record :
    (∀ T ∈ EndpointTests SegKernel Sq0 Sq1 0 1 0 1, ¬ TouchesInside SegKernel (1 / 10000000) T) ∧
      CheckEndpointOnSegmentIntersection SegKernel Sq0 Sq1 0 1 (1 / 10000000) = (false, []) := by
  have hno : ∀ T ∈ EndpointTests SegKernel Sq0 Sq1 0 1 0 1,
      ¬ TouchesInside SegKernel (1 / 10000000) T := by
    intro T hT
    simp only [EndpointTests, List.mem_cons, List.mem_singleton, List.not_mem_nil,
      or_false] at hT
    rcases hT with rfl | rfl | rfl | rfl <;>
      · rintro ⟨d, t, hp, hd, h1, h2⟩
        norm_num [SegKernel, SegProject, SegValue, Sq0, Sq1, MakeSeg] at hp
        obtain ⟨rfl, rfl⟩ := hp
        norm_num at hd h1 h2
  exact ⟨hno, (endpoint_fallback_reports_only_interior_touches SegKernel (1 / 10000000) Sq0 Sq1
    0 1).2.1 0 1 0 1 rfl rfl hno⟩

theorem PolygonScan_of_strict (P : FVector2D) (tol : ℚ) :
    ∀ (es : List (FVector2D × FVector2D)) (b : Bool),
      PolygonScanStrict P es b = true → PolygonScan P tol es b = true := by
  intro es
  induction es with
  | nil => intro b h; exact h
  | cons e es ih =>
    intro b h
    obtain ⟨P1, P2⟩ := e
    unfold PolygonScanStrict at h
    unfold PolygonScan
    split_ifs at h ⊢ <;> first | rfl | exact ih _ h

theorem PolygonScan_eq_strict (P : FVector2D) (tol : ℚ) :
    ∀ (es : List (FVector2D × FVector2D)) (b : Bool),
      (∀ e ∈ es, ¬ BoundaryTest P tol e) →
      PolygonScan P tol es b = PolygonScanStrict P es b := by
  intro es
  induction es with
  | nil => intro b _; rfl
  | cons e es ih =>
    intro b h
    obtain ⟨P1, P2⟩ := e
    have he := h (P1, P2) (List.mem_cons_self _ _)
    have hrest : ∀ e ∈ es, ¬ BoundaryTest P tol e := fun e he => h e (List.mem_cons_of_mem _ he)
    unfold BoundaryTest at he
    simp only [not_or] at he
    unfold PolygonScanStrict PolygonScan
    rw [if_neg he.1, if_neg he.2.1, if_neg he.2.2]
    split_ifs <;> exact ih _ hrest

/-- C25, evaluation at the failing input: the point `(1, 2)` is the middle of
the slanted side from `(0,0)` to `(2,4)` of the triangle `(0,0)`, `(4,0)`,
`(2,4)`, and `IsPointInOrOnPolygon2D` returns false for it with every
tolerance up to 1; for the middle `(3, 2)` of the other slanted side it
returns true. -/
theorem point_on_slanted_edge_reported_outside (Tolerance : ℚ) (h : Tolerance ≤ 1) :
    (⟨1, 2⟩ : FVector2D) = ⟨(0 + 2) / 2, (0 + 4) / 2⟩ ∧
      IsPointInOrOnPolygon2D ⟨1, 2⟩ SlantTriangle Tolerance = false ∧
      IsPointInOrOnPolygon2D ⟨3, 2⟩ SlantTriangle Tolerance = true := by
  have h1 : ¬ (1 < Tolerance) := not_lt.2 h
  have h2 : ¬ (2 < Tolerance) := by linarith
  have h3 : ¬ (3 < Tolerance) := by linarith
  have h4 : ¬ (4 < Tolerance) := by linarith
  refine ⟨by norm_num, ?_, ?_⟩ <;>
    norm_num [IsPointInOrOnPolygon2D, PolygonEdges, SlantTriangle, PolygonScan, h1, h2, h3, h4]

/-- C25, instance: the tolerance `1e-4`. -/
theorem point_on_slanted_edge_instance :
    (1 : ℚ) / 10000 ≤ 1 ∧
      IsPointInOrOnPolygon2D ⟨1, 2⟩ SlantTriangle (1 / 10000) = false :=
  ⟨by norm_num, (point_on_slanted_edge_reported_outside (1 / 10000) (by norm_num)).2.1⟩

/-- C29 (amended). Whenever `IsPointInPolygon2D` returns true,
`IsPointInOrOnPolygon2D` returns true on the same input; and the two functions
agree whenever none of the three boundary tests of `IsPointInOrOnPolygon2D`
holds for an edge of the polygon: the point is not within the tolerance of a
vertex in both coordinates, and it is not within the tolerance of the height
of an edge that is level within the tolerance, between its ends, nor likewise
for an upright edge. -/
theorem strict_test_implies_tolerant_test (InPoint : FVector2D) (InPolygon : List FVector2D)
    (Tolerance : ℚ) :
    (IsPointInPolygon2D InPoint InPolygon Tolerance = true →
      IsPointInOrOnPolygon2D InPoint InPolygon Tolerance = true) ∧
    ((∀ e ∈ PolygonEdges InPolygon, ¬ BoundaryTest InPoint Tolerance e) →
      IsPointInOrOnPolygon2D InPoint InPolygon Tolerance
        = IsPointInPolygon2D InPoint InPolygon Tolerance) := by
  unfold IsPointInPolygon2D IsPointInOrOnPolygon2D
  constructor
  · intro h
    split_ifs at h ⊢
    exact PolygonScan_of_strict _ _ _ _ h
  · intro h
    split_ifs
    · rfl
    · exact PolygonScan_eq_strict _ _ _ _ h

/-- C29, counterexample to the claim as worded: the point `(-9/100, -9/100)`
outside the square `(0,0)-(4,4)`, with the tolerance `1/10`. Its distance to
every vertex and to every point of every edge of the square is greater than
the tolerance, all edges are axis-aligned, and yet the strict test returns
false and the tolerant test returns true: the vertex test compares each
coordinate with the tolerance, not the distance. -/
theorem polygon_tests_differ_near_corner :
    (∀ V ∈ Square4, (-9 / 100 - V.X) ^ 2 + (-9 / 100 - V.Y) ^ 2 > ((1 : ℚ) / 10) ^ 2) ∧
    (∀ e ∈ PolygonEdges Square4, ∀ t : ℚ, 0 ≤ t → t ≤ 1 →
      (-9 / 100 - (e.1.X + t * (e.2.X - e.1.X))) ^ 2 +
        (-9 / 100 - (e.1.Y + t * (e.2.Y - e.1.Y))) ^ 2 > ((1 : ℚ) / 10) ^ 2) ∧
    IsPointInPolygon2D ⟨-9 / 100, -9 / 100⟩ Square4 (1 / 10) = false ∧
    IsPointInOrOnPolygon2D ⟨-9 / 100, -9 / 100⟩ Square4 (1 / 10) = true := by
  refine ⟨?_, ?_, ?_, ?_⟩
  · intro V hV
    simp only [Square4, List.mem_cons, List.mem_singleton, List.not_mem_nil, or_false] at hV
    rcases hV with rfl | rfl | rfl | rfl <;> norm_num
  · intro e he t h0 h1
    simp only [PolygonEdges, Square4, List.getLast?, List.getLast, List.dropLast, List.zip,
      List.zipWith, List.mem_cons, List.mem_singleton, List.not_mem_nil, or_false] at he
    rcases he with rfl | rfl | rfl | rfl <;> norm_num <;> nlinarith
  · norm_num [IsPointInPolygon2D, PolygonEdges, Square4, PolygonScanStrict]
  · norm_num [IsPointInOrOnPolygon2D, PolygonEdges, Square4, PolygonScan, abs_lt]

theorem Sign_pos (x : ℚ) (h : 0 < x) : Sign x = 1 := by
  unfold Sign; rw [if_pos h]

theorem Sign_neg (x : ℚ) (h : x < 0) : Sign x = -1 := by
  unfold Sign; rw [if_neg (not_lt.2 h.le), if_pos h]

theorem Sign_zero : Sign 0 = 0 := by
  norm_num [Sign]

theorem Sign_eq_zero_iff (x : ℚ) : Sign x = 0 ↔ x = 0 := by
  unfold Sign
  split_ifs with h1 h2
  · constructor
    · intro h; norm_num at h
    · intro h; linarith
  · constructor
    · intro h; norm_num at h
    · intro h; linarith
  · constructor
    · intro _; linarith
    · intro _; rfl

theorem IsPointInTriangle_combine (A B C : FVector2D) (u v w : ℚ) (hs : u + v + w = 1) :
    IsPointInTriangle (Combine u v w A B C) A B C
      = (decide (Sign (-(w * Cross2D A B C)) = Sign (-(u * Cross2D A B C))) &&
         decide (Sign (-(u * Cross2D A B C)) = Sign (-(v * Cross2D A B C)))) := by
  have hu : u = 1 - v - w := by linarith
  subst hu
  unfold IsPointInTriangle VectorSign Combine Cross2D
  simp only
  congr 3 <;> ring_nf

theorem Sign_eq_iff (a b : ℚ) :
    Sign a = Sign b ↔ (0 < a ∧ 0 < b) ∨ (a < 0 ∧ b < 0) ∨ (a = 0 ∧ b = 0) := by
  rcases lt_trichotomy a 0 with ha | ha | ha <;> rcases lt_trichotomy b 0 with hb | hb | hb
  · simp only [Sign_neg a ha, Sign_neg b hb, true_iff]
    exact Or.inr (Or.inl ⟨ha, hb⟩)
  · subst hb
    rw [Sign_neg a ha, Sign_zero]
    constructor
    · intro h; norm_num at h
    · rintro (⟨_, h⟩ | ⟨_, h⟩ | ⟨h, _⟩) <;> linarith
  · rw [Sign_neg a ha, Sign_pos b hb]
    constructor
    · intro h; norm_num at h
    · rintro (⟨h, _⟩ | ⟨_, h⟩ | ⟨h, _⟩) <;> linarith
  · subst ha
    rw [Sign_neg b hb, Sign_zero]
    constructor
    · intro h; norm_num at h
    · rintro (⟨h, _⟩ | ⟨h, _⟩ | ⟨_, h⟩) <;> linarith
  · subst ha; subst hb
    simp
  · subst ha
    rw [Sign_pos b hb, Sign_zero]
    constructor
    · intro h; norm_num at h
    · rintro (⟨h, _⟩ | ⟨h, _⟩ | ⟨_, h⟩) <;> linarith
  · rw [Sign_pos a ha, Sign_neg b hb]
    constructor
    · intro h; norm_num at h
    · rintro (⟨_, h⟩ | ⟨h, _⟩ | ⟨h, _⟩) <;> linarith
  · subst hb
    rw [Sign_pos a ha, Sign_zero]
    constructor
    · intro h; norm_num at h
    · rintro (⟨_, h⟩ | ⟨h, _⟩ | ⟨h, _⟩) <;> linarith
  · simp only [Sign_pos a ha, Sign_pos b hb, true_iff]
    exact Or.inl ⟨ha, hb⟩

theorem Sign_scaled_eq_iff (x y D : ℚ) (hD : D ≠ 0) :
    Sign (-(x * D)) = Sign (-(y * D)) ↔ Sign x = Sign y := by
  rw [Sign_eq_iff, Sign_eq_iff]
  rcases lt_or_gt_of_ne hD with h | h
  · have e1 : ∀ z : ℚ, 0 < -(z * D) ↔ 0 < z := by
      intro z
      constructor
      · intro hz; by_contra hn; push_neg at hn; nlinarith
      · intro hz; nlinarith
    have e2 : ∀ z : ℚ, -(z * D) < 0 ↔ z < 0 := by
      intro z
      constructor
      · intro hz; by_contra hn; push_neg at hn; nlinarith
      · intro hz; nlinarith
    have e3 : ∀ z : ℚ, -(z * D) = 0 ↔ z = 0 := by
      intro z; simp [hD]
    simp only [e1, e2, e3]
  · have e1 : ∀ z : ℚ, 0 < -(z * D) ↔ z < 0 := by
      intro z
      constructor
      · intro hz; by_contra hn; push_neg at hn; nlinarith
      · intro hz; nlinarith
    have e2 : ∀ z : ℚ, -(z * D) < 0 ↔ 0 < z := by
      intro z
      constructor
      · intro hz; by_contra hn; push_neg at hn; nlinarith
      · intro hz; nlinarith
    have e3 : ∀ z : ℚ, -(z * D) = 0 ↔ z = 0 := by
      intro z; simp [hD]
    simp only [e1, e2, e3]
    tauto

theorem IsPointInTriangle_iff (A B C : FVector2D) (hD : Cross2D A B C ≠ 0) (u v w : ℚ)
    (hs : u + v + w = 1) :
    IsPointInTriangle (Combine u v w A B C) A B C = true ↔ 0 < u ∧ 0 < v ∧ 0 < w := by
  rw [IsPointInTriangle_combine A B C u v w hs]
  simp only [Bool.and_eq_true, decide_eq_true_eq]
  rw [Sign_scaled_eq_iff _ _ _ hD, Sign_scaled_eq_iff _ _ _ hD, Sign_eq_iff, Sign_eq_iff]
  constructor
  · rintro ⟨h1, h2⟩
    rcases h1 with ⟨hw, hu⟩ | ⟨hw, hu⟩ | ⟨hw, hu⟩ <;>
      rcases h2 with ⟨hu2, hv⟩ | ⟨hu2, hv⟩ | ⟨hu2, hv⟩ <;>
      first
        | exact ⟨hu, hv, hw⟩
        | (exfalso; linarith)
  · rintro ⟨hu, hv, hw⟩
    exact ⟨Or.inl ⟨hw, hu⟩, Or.inl ⟨hu, hv⟩⟩

/-- The part of C26 that holds. For a triangle `A`, `B`, `C` that is not
degenerate (its corners are not on one line), in either winding:
`IsPointInTriangle` returns
true for the point `u A + v B + w C`, `u + v + w = 1`, exactly when `u`, `v`
and `w` are positive, that is when the point is strictly inside the triangle;
it returns false for every point of the three sides, corners included. -/
theorem point_in_triangle_strictly_inside (A B C : FVector2D) (hD : Cross2D A B C ≠ 0) :
    (∀ u v w : ℚ, u + v + w = 1 →
      (IsPointInTriangle (Combine u v w A B C) A B C = true ↔ 0 < u ∧ 0 < v ∧ 0 < w)) ∧
    (∀ t : ℚ, 0 ≤ t → t ≤ 1 →
      IsPointInTriangle (Along t A B) A B C = false ∧
      IsPointInTriangle (Along t B C) A B C = false ∧
      IsPointInTriangle (Along t C A) A B C = false) := by
  refine ⟨fun u v w hs => IsPointInTriangle_iff A B C hD u v w hs, ?_⟩
  intro t _ _
  have e1 : Along t A B = Combine (1 - t) t 0 A B C := by
    unfold Along Combine; congr 1 <;> ring
  have e2 : Along t B C = Combine 0 (1 - t) t A B C := by
    unfold Along Combine; congr 1 <;> ring
  have e3 : Along t C A = Combine t 0 (1 - t) A B C := by
    unfold Along Combine; congr 1 <;> ring
  refine ⟨?_, ?_, ?_⟩
  · rw [e1, ← Bool.not_eq_true, IsPointInTriangle_iff A B C hD _ _ _ (by ring)]
    rintro ⟨_, _, h⟩; exact lt_irrefl _ h
  · rw [e2, ← Bool.not_eq_true, IsPointInTriangle_iff A B C hD _ _ _ (by ring)]
    rintro ⟨h, _, _⟩; exact lt_irrefl _ h
  · rw [e3, ← Bool.not_eq_true, IsPointInTriangle_iff A B C hD _ _ _ (by ring)]
    rintro ⟨_, h, _⟩; exact lt_irrefl _ h

/-- Instance of `point_in_triangle_strictly_inside`: the triangle `(0,0)`,
`(4,0)`, `(0,4)` with its inner point `(1, 1)` and the middle `(2, 0)` of a
side. -/
theorem point_in_triangle_instance :
    Cross2D ⟨0, 0⟩ ⟨4, 0⟩ ⟨0, 4⟩ ≠ 0 ∧
      IsPointInTriangle (Combine (1 / 2) (1 / 4) (1 / 4) ⟨0, 0⟩ ⟨4, 0⟩ ⟨0, 4⟩)
        ⟨0, 0⟩ ⟨4, 0⟩ ⟨0, 4⟩ = true ∧
      IsPointInTriangle (Along (1 / 2) ⟨0, 0⟩ ⟨4, 0⟩) ⟨0, 0⟩ ⟨4, 0⟩ ⟨0, 4⟩ = false :=
  have hD : Cross2D ⟨0, 0⟩ ⟨4, 0⟩ ⟨0, 4⟩ ≠ 0 := by norm_num [Cross2D]
  ⟨hD,
    ((point_in_triangle_strictly_inside ⟨0, 0⟩ ⟨4, 0⟩ ⟨0, 4⟩ hD).1 (1 / 2) (1 / 4) (1 / 4)
      (by norm_num)).2 ⟨by norm_num, by norm_num, by norm_num⟩,
    ((point_in_triangle_strictly_inside ⟨0, 0⟩ ⟨4, 0⟩ ⟨0, 4⟩ hD).2 (1 / 2) (by norm_num)
      (by norm_num)).1⟩

/-- C26, the function at the failing input: for the degenerate triangle
`(0,0)`, `(1,0)`, `(2,0)` the point `(1, 0)`, which is the corner `B` and lies
on the side from `A` to `C`, gives three signs 0 and the result true, against
the comment of the source that the function should not return true when the
point is on one of the edges. -/
theorem point_on_edge_of_flat_triangle_reported_inside :
    (⟨1, 0⟩ : FVector2D) = Along (1 / 2) ⟨0, 0⟩ ⟨2, 0⟩ ∧
      IsPointInTriangle ⟨1, 0⟩ ⟨0, 0⟩ ⟨1, 0⟩ ⟨2, 0⟩ = true := by
  constructor
  · norm_num [Along]
  · norm_num [IsPointInTriangle, VectorSign, Sign]

theorem ReverseVerticesWithBulge_length (vs : List FVertexWithBulge) :
    (ReverseVerticesWithBulge vs).length = vs.length := by
  unfold ReverseVerticesWithBulge
  split_ifs
  · rfl
  · simp

theorem ReverseVerticesWithBulge_getElem? (vs : List FVertexWithBulge) (h2 : 2 ≤ vs.length)
    (i : Nat) (hi : i < vs.length) :
    (ReverseVerticesWithBulge vs)[i]? = some
      ⟨(vs.getD (vs.length - 1 - i) ⟨⟨0, 0, 0⟩, 0⟩).Position,
        if i < vs.length - 1 then -((vs.getD (vs.length - 2 - i) ⟨⟨0, 0, 0⟩, 0⟩).Bulge)
        else 0⟩ := by
  unfold ReverseVerticesWithBulge
  rw [if_neg (by omega)]
  simp only [List.getElem?_zipWith, List.getElem?_range hi]
  have hr : vs.reverse[i]? = some (vs.getD (vs.length - 1 - i) ⟨⟨0, 0, 0⟩, 0⟩) := by
    rw [List.getElem?_reverse hi, List.getD_eq_getElem?_getD]
    have : vs.length - 1 - i < vs.length := by omega
    rw [List.getElem?_eq_getElem this]
    rfl
  rw [hr]
  simp only [Option.map_some', Option.bind_some, Option.some.injEq]
  by_cases h : i < vs.length - 1
  · rw [if_pos h, if_pos h]
    congr 2
    have hlt : vs.length - 2 - i < vs.length := by omega
    simp [List.getD_eq_getElem?_getD, List.getElem?_eq_getElem hlt]
  · rw [if_neg h, if_neg h]

theorem ReverseVerticesWithBulge_getD (vs : List FVertexWithBulge) (h2 : 2 ≤ vs.length)
    (i : Nat) (hi : i < vs.length) :
    (ReverseVerticesWithBulge vs).getD i ⟨⟨0, 0, 0⟩, 0⟩ =
      ⟨(vs.getD (vs.length - 1 - i) ⟨⟨0, 0, 0⟩, 0⟩).Position,
        if i < vs.length - 1 then -((vs.getD (vs.length - 2 - i) ⟨⟨0, 0, 0⟩, 0⟩).Bulge)
        else 0⟩ := by
  rw [List.getD_eq_getElem?_getD, ReverseVerticesWithBulge_getElem? vs h2 i hi]
  rfl

/-- C28. For a sequence whose last bulge is 0, applying
`ReverseVerticesWithBulge` twice gives back the sequence. A sequence of fewer
than two vertices is returned unchanged. For a longer sequence of `n` vertices
one application keeps the length, puts the position of vertex `n - 1 - i` at
index `i`, gives index `i < n - 1` the negated bulge of vertex `n - 2 - i`
(the start vertex of the reversed edge gets the negated bulge of the original
edge), and gives the last vertex the bulge 0. -/
theorem reverse_vertices_twice_is_identity (InOutVertices : List FVertexWithBulge)
    (hlast : ∀ v, InOutVertices.getLast? = some v → v.Bulge = 0) :
    ReverseVerticesWithBulge (ReverseVerticesWithBulge InOutVertices) = InOutVertices ∧
    (InOutVertices.length < 2 → ReverseVerticesWithBulge InOutVertices = InOutVertices) ∧
    (ReverseVerticesWithBulge InOutVertices).length = InOutVertices.length ∧
    (2 ≤ InOutVertices.length → ∀ i v, (ReverseVerticesWithBulge InOutVertices)[i]? = some v →
      (∃ p, InOutVertices[InOutVertices.length - 1 - i]? = some p ∧ v.Position = p.Position) ∧
      (i < InOutVertices.length - 1 →
        ∃ q, InOutVertices[InOutVertices.length - 2 - i]? = some q ∧ v.Bulge = -q.Bulge) ∧
      (i = InOutVertices.length - 1 → v.Bulge = 0)) := by
  have hsmall : InOutVertices.length < 2 →
      ReverseVerticesWithBulge InOutVertices = InOutVertices := by
    intro h
    unfold ReverseVerticesWithBulge
    rw [if_pos h]
  refine ⟨?_, hsmall, ReverseVerticesWithBulge_length _, ?_⟩
  · by_cases h2 : InOutVertices.length < 2
    · rw [hsmall h2, hsmall h2]
    · have hn : 2 ≤ InOutVertices.length := by omega
      have hn2 : 2 ≤ (ReverseVerticesWithBulge InOutVertices).length := by
        rw [ReverseVerticesWithBulge_length]; exact hn
      apply List.ext_getElem?
      intro i
      by_cases hi : i < InOutVertices.length
      · rw [ReverseVerticesWithBulge_getElem? _ hn2 i
          (by rw [ReverseVerticesWithBulge_length]; exact hi)]
        simp only [ReverseVerticesWithBulge_length]
        rw [ReverseVerticesWithBulge_getD _ hn _ (by omega)]
        rw [List.getElem?_eq_getElem hi]
        have e1 : InOutVertices.length - 1 - (InOutVertices.length - 1 - i) = i := by omega
        have hv : InOutVertices.getD i ⟨⟨0, 0, 0⟩, 0⟩ = InOutVertices[i] := by
          simp [List.getD_eq_getElem?_getD, List.getElem?_eq_getElem hi]
        simp only [e1, hv]
        by_cases hi1 : i < InOutVertices.length - 1
        · rw [if_pos hi1]
          rw [ReverseVerticesWithBulge_getD _ hn _ (by omega)]
          have e2 : InOutVertices.length - 2 - (InOutVertices.length - 2 - i) = i := by omega
          rw [if_pos (by omega)]
          simp only [e2, hv, neg_neg]
        · rw [if_neg hi1]
          have hil : i = InOutVertices.length - 1 := by omega
          have hl : InOutVertices.getLast? = some InOutVertices[i] := by
            rw [List.getLast?_eq_getElem?, List.getElem?_eq_getElem (by omega)]
            congr 1
            simp only [hil]
          rw [← hlast _ hl]
      · rw [List.getElem?_eq_none (by rw [ReverseVerticesWithBulge_length,
          ReverseVerticesWithBulge_length]; omega), List.getElem?_eq_none (by omega)]
  · intro hn i v hv
    have hi : i < InOutVertices.length := by
      have := (List.getElem?_eq_some.1 hv).1
      rwa [ReverseVerticesWithBulge_length] at this
    rw [ReverseVerticesWithBulge_getElem? _ hn i hi] at hv
    simp only [Option.some.injEq] at hv
    subst hv
    have h1 : InOutVertices.length - 1 - i < InOutVertices.length := by omega
    refine ⟨⟨InOutVertices[InOutVertices.length - 1 - i], List.getElem?_eq_getElem h1, ?_⟩,
      ?_, ?_⟩
    · simp [List.getD_eq_getElem?_getD, List.getElem?_eq_getElem h1]
    · intro hi1
      have h2 : InOutVertices.length - 2 - i < InOutVertices.length := by omega
      refine ⟨InOutVertices[InOutVertices.length - 2 - i], List.getElem?_eq_getElem h2, ?_⟩
      simp [hi1, List.getD_eq_getElem?_getD, List.getElem?_eq_getElem h2]
    · intro hi1
      simp [hi1]

/-- C28, instance: the arc of bulge 1 from the origin to `(2, 0)` followed by
the straight piece to `(2, 2)` is reversed into the straight piece from
`(2, 2)` to `(2, 0)` followed by the arc of bulge -1 to the origin; reversing
again gives the sequence back. -/
theorem reverse_vertices_mixed_instance :
    ReverseVerticesWithBulge MixedSequence
        = [⟨⟨2, 2, 0⟩, 0⟩, ⟨⟨2, 0, 0⟩, -1⟩, ⟨⟨0, 0, 0⟩, 0⟩] ∧
      ReverseVerticesWithBulge (ReverseVerticesWithBulge MixedSequence) = MixedSequence :=
  ⟨by norm_num [ReverseVerticesWithBulge, MixedSequence, List.range, List.range.loop],
    (reverse_vertices_twice_is_identity MixedSequence
      (by intro v hv; simp [MixedSequence] at hv; subst hv; rfl)).1⟩

theorem between_min_max (p q s : ℚ) (h0 : 0 ≤ s) (h1 : s ≤ 1) :
    min p q ≤ p + s * (q - p) ∧ p + s * (q - p) ≤ max p q := by
  rcases le_total p q with h | h
  · rw [min_eq_left h, max_eq_right h]
    constructor <;> nlinarith
  · rw [min_eq_right h, max_eq_left h]
    constructor <;> nlinarith

theorem crossing_params (a1 a2 b1 b2 : FVector2D) (h : IsLineIntersect2D a1 a2 b1 b2 = true) :
    LineDet a1 a2 b1 b2 ≠ 0 ∧
      0 < Cross2D b1 b2 a1 / LineDet a1 a2 b1 b2 ∧ Cross2D b1 b2 a1 / LineDet a1 a2 b1 b2 < 1 ∧
      0 < -(Cross2D a1 a2 b1) / LineDet a1 a2 b1 b2 ∧
      -(Cross2D a1 a2 b1) / LineDet a1 a2 b1 b2 < 1 := by
  unfold IsLineIntersect2D at h
  simp only [Bool.and_eq_true, decide_eq_true_eq] at h
  obtain ⟨h12, h34⟩ := h
  have e2 : Cross2D a1 a2 b2 = Cross2D a1 a2 b1 + LineDet a1 a2 b1 b2 := by
    unfold Cross2D LineDet; ring
  have e4 : Cross2D b1 b2 a2 = Cross2D b1 b2 a1 - LineDet a1 a2 b1 b2 := by
    unfold Cross2D LineDet; ring
  rw [e2] at h12
  rw [e4] at h34
  have hD : LineDet a1 a2 b1 b2 ≠ 0 := by
    intro h0
    rw [h0] at h12
    nlinarith [sq_nonneg (Cross2D a1 a2 b1)]
  refine ⟨hD, ?_⟩
  rcases lt_or_gt_of_ne hD with hneg | hpos
  · have c3 : Cross2D b1 b2 a1 < 0 := by
      by_contra hc; push_neg at hc; nlinarith
    have c3b : LineDet a1 a2 b1 b2 < Cross2D b1 b2 a1 := by
      by_contra hc; push_neg at hc; nlinarith
    have c1 : 0 < Cross2D a1 a2 b1 := by
      by_contra hc; push_neg at hc; nlinarith
    have c1b : Cross2D a1 a2 b1 + LineDet a1 a2 b1 b2 < 0 := by
      by_contra hc; push_neg at hc; nlinarith
    refine ⟨div_pos_of_neg_of_neg c3 hneg, ?_, div_pos_of_neg_of_neg (by linarith) hneg, ?_⟩
    · rw [div_lt_one_of_neg hneg]; exact c3b
    · rw [div_lt_one_of_neg hneg]; linarith
  · have c3 : 0 < Cross2D b1 b2 a1 := by
      by_contra hc; push_neg at hc; nlinarith
    have c3b : Cross2D b1 b2 a1 < LineDet a1 a2 b1 b2 := by
      by_contra hc; push_neg at hc; nlinarith
    have c1 : Cross2D a1 a2 b1 < 0 := by
      by_contra hc; push_neg at hc; nlinarith
    have c1b : 0 < Cross2D a1 a2 b1 + LineDet a1 a2 b1 b2 := by
      by_contra hc; push_neg at hc; nlinarith
    refine ⟨div_pos c3 hpos, ?_, div_pos (by linarith) hpos, ?_⟩
    · rw [div_lt_one hpos]; exact c3b
    · rw [div_lt_one hpos]; linarith

theorem GetLineIntersectPoint_crossing (a1 a2 b1 b2 : FVector2D)
    (h : IsLineIntersect2D a1 a2 b1 b2 = true) :
    GetLineIntersectPoint a1 a2 b1 b2
        = (true, Along (Cross2D b1 b2 a1 / LineDet a1 a2 b1 b2) a1 a2) ∧
      Along (Cross2D b1 b2 a1 / LineDet a1 a2 b1 b2) a1 a2
        = Along (-(Cross2D a1 a2 b1) / LineDet a1 a2 b1 b2) b1 b2 := by
  obtain ⟨hD, s0, s1, t0, t1⟩ := crossing_params a1 a2 b1 b2 h
  have hpt : Along (Cross2D b1 b2 a1 / LineDet a1 a2 b1 b2) a1 a2
      = Along (-(Cross2D a1 a2 b1) / LineDet a1 a2 b1 b2) b1 b2 := by
    unfold Along
    congr 1
    · unfold LineDet at hD; unfold Cross2D LineDet; field_simp; ring
    · unfold LineDet at hD; unfold Cross2D LineDet; field_simp; ring
  refine ⟨?_, hpt⟩
  have hx : ((b1.X - b2.X) * ((a2.Y - a1.Y) * a1.X + (a1.X - a2.X) * a1.Y) -
        (a1.X - a2.X) * ((b2.Y - b1.Y) * b1.X + (b1.X - b2.X) * b1.Y)) /
      ((a2.Y - a1.Y) * (b1.X - b2.X) - (b2.Y - b1.Y) * (a1.X - a2.X))
      = a1.X + Cross2D b1 b2 a1 / LineDet a1 a2 b1 b2 * (a2.X - a1.X) := by
    unfold LineDet at hD; unfold Cross2D LineDet; field_simp; ring
  have hy : ((a2.Y - a1.Y) * ((b2.Y - b1.Y) * b1.X + (b1.X - b2.X) * b1.Y) -
        (b2.Y - b1.Y) * ((a2.Y - a1.Y) * a1.X + (a1.X - a2.X) * a1.Y)) /
      ((a2.Y - a1.Y) * (b1.X - b2.X) - (b2.Y - b1.Y) * (a1.X - a2.X))
      = a1.Y + Cross2D b1 b2 a1 / LineDet a1 a2 b1 b2 * (a2.Y - a1.Y) := by
    unfold LineDet at hD; unfold Cross2D LineDet; field_simp; ring
  have hdet : ¬ ((a2.Y - a1.Y) * (b1.X - b2.X) - (b2.Y - b1.Y) * (a1.X - a2.X) = 0) := hD
  have ax := between_min_max a1.X a2.X _ s0.le s1.le
  have ay := between_min_max a1.Y a2.Y _ s0.le s1.le
  have bx := between_min_max b1.X b2.X _ t0.le t1.le
  have bY := between_min_max b1.Y b2.Y _ t0.le t1.le
  have hpx : a1.X + Cross2D b1 b2 a1 / LineDet a1 a2 b1 b2 * (a2.X - a1.X)
      = b1.X + -(Cross2D a1 a2 b1) / LineDet a1 a2 b1 b2 * (b2.X - b1.X) :=
    congrArg FVector2D.X hpt
  have hpy : a1.Y + Cross2D b1 b2 a1 / LineDet a1 a2 b1 b2 * (a2.Y - a1.Y)
      = b1.Y + -(Cross2D a1 a2 b1) / LineDet a1 a2 b1 b2 * (b2.Y - b1.Y) :=
    congrArg FVector2D.Y hpt
  unfold GetLineIntersectPoint
  simp only
  rw [if_neg hdet, hx, hy]
  rw [if_pos]
  · rfl
  · refine ⟨⟨by linarith [ax.1], by linarith [ax.2]⟩, ⟨by linarith [ay.1], by linarith [ay.2]⟩,
      ⟨?_, ?_⟩, ⟨?_, ?_⟩⟩
    · rw [hpx]; linarith [bx.1]
    · rw [hpx]; linarith [bx.2]
    · rw [hpy]; linarith [bY.1]
    · rw [hpy]; linarith [bY.2]

theorem GetLinePolygonIntersectPoints_eq (a1 a2 : FVector2D) (polygon : List FVector2D) :
    GetLinePolygonIntersectPoints a1 a2 polygon =
      (PolygonSides polygon).filterMap (fun e =>
        if IsLineIntersect2D a1 a2 e.1 e.2 then
          some (Along (Cross2D e.1 e.2 a1 / LineDet a1 a2 e.1 e.2) a1 a2)
        else none) := by
  unfold GetLinePolygonIntersectPoints PolygonSides
  rw [List.filterMap_filterMap]
  apply List.filterMap_congr
  intro i _
  cases h1 : polygon[i]? with
  | none => simp
  | some b1 =>
    cases h2 : polygon[(i + 1) % polygon.length]? with
    | none => simp
    | some b2 =>
      by_cases hc : IsLineIntersect2D a1 a2 b1 b2 = true
      · simp [hc, (GetLineIntersectPoint_crossing a1 a2 b1 b2 hc).1]
      · simp [hc]

theorem filterMap_ite_eq_map_filter {α β : Type} (p : α → Bool) (f : α → β) (l : List α) :
    l.filterMap (fun e => if p e then some (f e) else none) = (l.filter p).map f := by
  induction l with
  | nil => rfl
  | cons a l ih =>
    by_cases h : p a = true
    · simp [List.filterMap_cons, List.filter_cons, h, ih]
    · simp [List.filterMap_cons, List.filter_cons, h, ih]

/-- C30. In exact arithmetic, whenever `IsLineIntersect2D` is true,
`GetLineIntersectPoint` returns true with a point that lies strictly inside
both segments; `GetLineIntersectPoint` returns false whenever the determinant
is 0; and `GetLinePolygonIntersectPoints` returns, in the order of the sides,
exactly one point for each side of the polygon that the segment properly
crosses, the crossing point, and nothing else. -/
theorem proper_crossing_is_never_lost (a1 a2 : FVector2D) :
    (∀ b1 b2, IsLineIntersect2D a1 a2 b1 b2 = true →
      ∃ s t : ℚ, 0 < s ∧ s < 1 ∧ 0 < t ∧ t < 1 ∧
        GetLineIntersectPoint a1 a2 b1 b2 = (true, Along s a1 a2) ∧
        Along s a1 a2 = Along t b1 b2) ∧
    (∀ b1 b2, LineDet a1 a2 b1 b2 = 0 → (GetLineIntersectPoint a1 a2 b1 b2).1 = false) ∧
    (∀ polygon, GetLinePolygonIntersectPoints a1 a2 polygon =
      ((PolygonSides polygon).filter (fun e => IsLineIntersect2D a1 a2 e.1 e.2)).map
        (fun e => (GetLineIntersectPoint a1 a2 e.1 e.2).2)) := by
  refine ⟨?_, ?_, ?_⟩
  · intro b1 b2 h
    obtain ⟨_, s0, s1, t0, t1⟩ := crossing_params a1 a2 b1 b2 h
    obtain ⟨hp, he⟩ := GetLineIntersectPoint_crossing a1 a2 b1 b2 h
    exact ⟨_, _, s0, s1, t0, t1, hp, he⟩
  · intro b1 b2 h
    unfold LineDet at h
    unfold GetLineIntersectPoint
    simp only
    rw [if_pos h]
  · intro polygon
    rw [GetLinePolygonIntersectPoints_eq, filterMap_ite_eq_map_filter]
    apply List.map_congr_left
    intro e he
    have hc := (List.mem_filter.1 he).2
    rw [(GetLineIntersectPoint_crossing a1 a2 e.1 e.2 hc).1]

/-- C30, instance: the segment from `(-1, 2)` to `(5, 2)` crosses two sides of
the square `(0,0)-(4,4)`, the right one at `(4, 2)` and the left one at
`(0, 2)`. -/
theorem line_through_square_instance :
    GetLinePolygonIntersectPoints ⟨-1, 2⟩ ⟨5, 2⟩ Square4 = [⟨4, 2⟩, ⟨0, 2⟩] := by
  rw [(proper_crossing_is_never_lost ⟨-1, 2⟩ ⟨5, 2⟩).2.2 Square4]
  norm_num [PolygonSides, Square4, List.range, List.range.loop, IsLineIntersect2D, Cross2D,
    GetLineIntersectPoint, List.filter]

theorem DfsLoop_round (cmap : List (Nat × List UGeomCurve)) (start : UGeomCurve) (fuel : Nat)
    (top : StackItem) (rest : List StackItem) (rpath : List UGeomCurve)
    (acc : List (List UGeomCurve)) :
    DfsLoop cmap start (fuel + 1) (top :: rest) rpath acc =
      DfsLoop cmap start fuel (DfsRound cmap start top rest rpath acc).1
        (DfsRound cmap start top rest rpath acc).2.1
        (DfsRound cmap start top rest rpath acc).2.2 := by
  unfold DfsRound
  rw [DfsLoop]
  rcases hpm : PopMarks top rest rpath with ⟨oc, s1, r1⟩
  cases oc with
  | none => rfl
  | some c =>
    simp only
    split_ifs <;> rfl

theorem PathFrom_tail (cmap : List (Nat × List UGeomCurve)) (start : UGeomCurve)
    (p : UGeomCurve) (rp : List UGeomCurve) (h : PathFrom cmap start (p :: rp)) :
    PathFrom cmap start rp := by
  refine ⟨h.1.tail, ?_⟩
  intro z hz
  cases rp with
  | nil => cases hz
  | cons q rp => exact h.2 z (by rw [List.getLast?_cons_cons]; exact hz)

theorem PathFrom_cons (cmap : List (Nat × List UGeomCurve)) (start : UGeomCurve)
    (c : UGeomCurve) (rp : List UGeomCurve) (h : PathFrom cmap start rp)
    (hc : MayFollow cmap start c rp) : PathFrom cmap start (c :: rp) := by
  cases rp with
  | nil =>
    refine ⟨List.chain'_singleton _, ?_⟩
    intro z hz
    simp only [List.getLast?_singleton, Option.some.injEq] at hz
    rw [← hz]; exact hc
  | cons p rp =>
    refine ⟨List.chain'_cons.2 ⟨hc, h.1⟩, ?_⟩
    intro z hz
    rw [List.getLast?_cons_cons] at hz
    exact h.2 z hz

theorem PopMarks_fits (cmap : List (Nat × List UGeomCurve)) (start : UGeomCurve) :
    ∀ (rest : List StackItem) (top : StackItem) (rpath : List UGeomCurve),
      PathFrom cmap start rpath → StackFits cmap start (top :: rest) rpath →
      PathFrom cmap start (PopMarks top rest rpath).2.2 ∧
        StackFits cmap start (PopMarks top rest rpath).2.1 (PopMarks top rest rpath).2.2 ∧
        ∀ c, (PopMarks top rest rpath).1 = some c →
          MayFollow cmap start c (PopMarks top rest rpath).2.2 := by
  intro rest
  induction rest with
  | nil =>
    intro top rpath hp hs
    cases top with
    | curve c =>
      simp only [PopMarks]
      exact ⟨hp, hs.2, fun d hd => by cases hd; exact hs.1⟩
    | mark =>
      simp only [PopMarks]
      exact ⟨hp, trivial, fun d hd => by cases hd⟩
  | cons x rest ih =>
    intro top rpath hp hs
    cases top with
    | curve c =>
      simp only [PopMarks]
      exact ⟨hp, hs.2, fun d hd => by cases hd; exact hs.1⟩
    | mark =>
      cases rpath with
      | nil => exact absurd hs (by simp [StackFits])
      | cons p rp =>
        simp only [PopMarks, List.tail_cons]
        exact ih x rp (PathFrom_tail cmap start p rp hp) hs

theorem StackFits_push (cmap : List (Nat × List UGeomCurve)) (start : UGeomCurve)
    (s : List StackItem) (rp : List UGeomCurve) (hs : StackFits cmap start s rp) :
    ∀ pushed : List UGeomCurve, (∀ d ∈ pushed, MayFollow cmap start d rp) →
      StackFits cmap start (pushed.map StackItem.curve ++ s) rp := by
  intro pushed
  induction pushed with
  | nil => intro _; exact hs
  | cons d pushed ih =>
    intro h
    simp only [List.map_cons, List.cons_append]
    exact ⟨h d (List.mem_cons_self _ _), ih (fun e he => h e (List.mem_cons_of_mem _ he))⟩

theorem VisitConnected_fold_closing (cmap : List (Nat × List UGeomCurve)) (start : UGeomCurve)
    (rpath : List UGeomCurve) (nbrs : List UGeomCurve) (s : List StackItem)
    (acc : List (List UGeomCurve)) :
    ∀ L ∈ (nbrs.foldl (VisitConnected cmap start rpath) (s, acc)).2,
      L ∈ acc ∨ (L = rpath.reverse ∧ ∃ d ∈ nbrs, d.id = start.id) := by
  induction nbrs generalizing s acc with
  | nil => intro L hL; exact Or.inl hL
  | cons n nbrs ih =>
    intro L hL
    simp only [List.foldl_cons] at hL
    have hstep : ∀ L2 ∈ (VisitConnected cmap start rpath (s, acc) n).2,
        L2 ∈ acc ∨ (L2 = rpath.reverse ∧ n.id = start.id) := by
      intro L2 hL2
      unfold VisitConnected at hL2
      split_ifs at hL2 with h1
      · simp only [List.mem_append, List.mem_singleton] at hL2
        rcases hL2 with h | h
        · exact Or.inl h
        · exact Or.inr ⟨h, h1⟩
      · split at hL2
        · split_ifs at hL2
          · simp only [List.mem_append, List.mem_singleton] at hL2
            rcases hL2 with h | h
            · exact Or.inl h
            · exact Or.inr ⟨h, h1⟩
          · exact Or.inl hL2
        · exact Or.inl hL2
      · exact Or.inl hL2
      · split at hL2
        · split_ifs at hL2
          · exact Or.inl hL2
          · exact Or.inl hL2
        · exact Or.inl hL2
    rcases ih _ _ L hL with h | h
    · rcases hstep L h with h2 | h2
      · exact Or.inl h2
      · exact Or.inr ⟨h2.1, n, List.mem_cons_self _ _, h2.2⟩
    · obtain ⟨h1, d, hd, hds⟩ := h
      exact Or.inr ⟨h1, d, List.mem_cons_of_mem _ hd, hds⟩

theorem DfsRound_inv (cmap : List (Nat × List UGeomCurve)) (start : UGeomCurve)
    (top : StackItem) (rest : List StackItem) (rpath : List UGeomCurve)
    (acc : List (List UGeomCurve)) (hp : PathFrom cmap start rpath)
    (hs : StackFits cmap start (top :: rest) rpath) :
    PathFrom cmap start (DfsRound cmap start top rest rpath acc).2.1 ∧
      StackFits cmap start (DfsRound cmap start top rest rpath acc).1
        (DfsRound cmap start top rest rpath acc).2.1 ∧
      ∀ L ∈ (DfsRound cmap start top rest rpath acc).2.2,
        L ∈ acc ∨ ClosedPathFrom cmap start L := by
  obtain ⟨h1, h2, h3⟩ := PopMarks_fits cmap start rest top rpath hp hs
  unfold DfsRound
  rcases hpm : PopMarks top rest rpath with ⟨oc, stack1, rpath1⟩
  rw [hpm] at h1 h2 h3
  simp only at h1 h2 h3
  cases oc with
  | none => exact ⟨h1, h2, fun L hL => Or.inl hL⟩
  | some c =>
    simp only
    split_ifs with hcont
    · exact ⟨h1, h2, fun L hL => Or.inl hL⟩
    · have hpc : PathFrom cmap start (c :: rpath1) :=
        PathFrom_cons cmap start c rpath1 h1 (h3 c rfl)
      obtain ⟨pushed, hp1, -, hp3⟩ := VisitConnected_fold_stack cmap start (c :: rpath1)
        (Connections cmap c) (StackItem.mark :: stack1) acc
      refine ⟨hpc, ?_, ?_⟩
      · simp only
        rw [hp1]
        exact StackFits_push cmap start (StackItem.mark :: stack1) (c :: rpath1) h2 pushed
          (fun d hd => hp3 d hd)
      · intro L hL
        rcases VisitConnected_fold_closing cmap start (c :: rpath1) (Connections cmap c)
            (StackItem.mark :: stack1) acc L hL with h | ⟨h, d, hd, hds⟩
        · exact Or.inl h
        · right
          subst h
          refine ⟨by rw [List.reverse_reverse]; exact hpc, c, d, ?_, hd, hds⟩
          rw [List.getLast?_reverse]
          rfl

theorem DfsLoop_closed (cmap : List (Nat × List UGeomCurve)) (start : UGeomCurve) :
    ∀ (fuel : Nat) (stack : List StackItem) (rpath : List UGeomCurve)
      (acc r : List (List UGeomCurve)),
      PathFrom cmap start rpath → StackFits cmap start stack rpath →
      DfsLoop cmap start fuel stack rpath acc = some r →
      ∀ L ∈ r, L ∈ acc ∨ ClosedPathFrom cmap start L := by
  intro fuel
  induction fuel with
  | zero =>
    intro stack rpath acc r _ _ h
    cases stack with
    | nil => simp only [DfsLoop, Option.some.injEq] at h; subst h; exact fun L hL => Or.inl hL
    | cons top rest => simp [DfsLoop] at h
  | succ fuel ih =>
    intro stack rpath acc r hp hs h
    cases stack with
    | nil => simp only [DfsLoop, Option.some.injEq] at h; subst h; exact fun L hL => Or.inl hL
    | cons top rest =>
      rw [DfsLoop_round] at h
      obtain ⟨h1, h2, h3⟩ := DfsRound_inv cmap start top rest rpath acc hp hs
      intro L hL
      rcases ih _ _ _ _ h1 h2 h L hL with h4 | h4
      · exact h3 L h4
      · exact Or.inr h4

theorem SearchAll_closed (cs : List UGeomCurve) (cmap : List (Nat × List UGeomCurve))
    (fuel : Nat) :
    ∀ (rest before : List UGeomCurve) (acc r : List (List UGeomCurve)),
      (∀ c ∈ rest, c ∈ cs) → (∀ L ∈ acc, ∃ start ∈ cs, ClosedPathFrom cmap start L) →
      SearchAll cmap fuel before rest acc = some r →
      ∀ L ∈ r, ∃ start ∈ cs, ClosedPathFrom cmap start L := by
  intro rest
  induction rest with
  | nil =>
    intro before acc r _ hacc h
    simp only [SearchAll, Option.some.injEq] at h
    subst h; exact hacc
  | cons c rest ih =>
    intro before acc r hrest hacc h
    unfold SearchAll at h
    have hrest2 : ∀ d ∈ rest, d ∈ cs := fun d hd => hrest d (List.mem_cons_of_mem _ hd)
    split_ifs at h with hn
    · cases hd : DfsLoop cmap c fuel [StackItem.curve c] [] acc with
      | none => rw [hd] at h; simp at h
      | some acc1 =>
        rw [hd] at h
        refine ih _ _ _ hrest2 ?_ h
        intro L hL
        rcases DfsLoop_closed cmap c fuel _ _ _ _
            ⟨List.chain'_nil, fun z hz => by cases hz⟩ (by simp [StackFits, MayFollow]) hd L hL with h1 | h1
        · exact hacc L h1
        · exact ⟨c, hrest c (List.mem_cons_self _ _), h1⟩
    · exact ih _ _ _ hrest2 hacc h

theorem Connections_connected (eps : ℚ) (cs : List UGeomCurve)
    (hid : ∀ a ∈ cs, ∀ b ∈ cs, a.id = b.id → a = b) (a d : UGeomCurve) (ha : a ∈ cs)
    (hd : d ∈ Connections (BuildConnectionMap eps cs) a) :
    d ∈ cs ∧ a.id ≠ d.id ∧ AreCurvesConnectedNoOrder a d eps = true := by
  rw [Connections_BuildConnectionMap] at hd
  obtain ⟨c1, hc1, h2⟩ := List.mem_flatMap.mp hd
  split_ifs at h2 with hidc
  · have e : c1 = a := hid c1 hc1 a ha hidc
    subst e
    unfold ConnectedTo at h2
    obtain ⟨hdcs, hcond⟩ := List.mem_filter.mp h2
    simp only [Bool.and_eq_true, decide_eq_true_eq] at hcond
    exact ⟨hdcs, hcond.1, hcond.2⟩
  · simp at h2

theorem ClosedPathFrom_head (cmap : List (Nat × List UGeomCurve)) (start : UGeomCurve)
    (L : List UGeomCurve) (h : ClosedPathFrom cmap start L) : L.head? = some start := by
  obtain ⟨⟨_, hlast⟩, z, d, hz, _, _⟩ := h
  cases hh : L.head? with
  | none =>
    rw [List.head?_eq_none_iff] at hh
    subst hh
    cases hz
  | some x =>
    have := hlast x (by rw [List.getLast?_reverse]; exact hh)
    rw [this]

theorem ClosedPathFrom_cycle (eps : ℚ) (cs : List UGeomCurve)
    (hid : ∀ a ∈ cs, ∀ b ∈ cs, a.id = b.id → a = b) (start : UGeomCurve)
    (L : List UGeomCurve) (hgood : LoopGood cs L) (hstart : start ∈ cs)
    (h : ClosedPathFrom (BuildConnectionMap eps cs) start L) :
    List.Chain' (fun a b => AreCurvesConnectedNoOrder a b eps = true) L ∧
      ∃ z, L.getLast? = some z ∧ AreCurvesConnectedNoOrder z start eps = true := by
  obtain ⟨⟨hchain, _⟩, z, d, hz, hd, hds⟩ := h
  constructor
  · have h1 := List.chain'_reverse.1 hchain
    have h2 := List.Chain'.iff_mem.1 h1
    refine h2.imp ?_
    intro a b hab
    exact (Connections_connected eps cs hid a b (hgood.2 a hab.1) hab.2.2).2.2
  · have hzL : z ∈ L := List.mem_of_mem_getLast? (by rw [hz]; exact rfl)
    obtain ⟨hdcs, _, hconn⟩ := Connections_connected eps cs hid z d (hgood.2 z hzL) hd
    have e : d = start := hid d hdcs start hstart hds
    rw [e] at hconn
    exact ⟨z, hz, hconn⟩

theorem FoundLoops_closed (sortGroups : List UGeomCurve → List UGeomCurve)
    (tolRep eps : ℚ) (InCurves : List UGeomCurve) :
    ∀ L ∈ FoundLoops sortGroups tolRep eps InCurves,
      ∃ start ∈ sortGroups (RemoveRepeatedLines tolRep InCurves),
        ClosedPathFrom (BuildConnectionMap eps (sortGroups (RemoveRepeatedLines tolRep InCurves)))
          start L := by
  intro L hL
  unfold FoundLoops at hL
  by_cases h0 : InCurves.length = 0
  · rw [if_pos h0] at hL; cases hL
  rw [if_neg h0] at hL
  cases hs : SearchAll (BuildConnectionMap eps (sortGroups (RemoveRepeatedLines tolRep InCurves)))
      (DfsFuel (BuildConnectionMap eps (sortGroups (RemoveRepeatedLines tolRep InCurves))))
      [] (sortGroups (RemoveRepeatedLines tolRep InCurves)) [] with
  | none => rw [hs] at hL; simp at hL
  | some r =>
    rw [hs] at hL
    exact SearchAll_closed _ _ _ _ _ _ _ (fun c hc => hc) (by simp) hs L (by simpa using hL)

/-- C27. When different curve objects of the input have different identities
and the grouping step returns curves of its input, every loop recorded by the
search of `GetClosedCurvesListFromUnorderCurves` is a simple cycle of the end
point connectivity graph: it is made of input curves, contains no curve twice,
every curve in it is connected (`AreCurvesConnectedNoOrder`) to the next one,
and its last curve is connected to its first. A loop recorded by the search
started from the curve `start` begins with `start`. The backtracking with the
marker keeps the current path a connected path from the start curve and the
stack fitting it: this holds at the start of a search and is kept by every
round of the search loop. -/
theorem recorded_loops_are_simple_cycles (sortGroups : List UGeomCurve → List UGeomCurve)
    (tolRep eps : ℚ) (InCurves : List UGeomCurve)
    (hid : ∀ a ∈ InCurves, ∀ b ∈ InCurves, a.id = b.id → a = b)
    (hsort : ∀ l c, c ∈ sortGroups l → c ∈ l) :
    (∀ L ∈ FoundLoops sortGroups tolRep eps InCurves,
      (L.map (fun c => c.id)).Nodup ∧ (∀ c ∈ L, c ∈ InCurves) ∧
      List.Chain' (fun a b => AreCurvesConnectedNoOrder a b eps = true) L ∧
      ∃ start z, L.head? = some start ∧ L.getLast? = some z ∧
        AreCurvesConnectedNoOrder z start eps = true) ∧
    (∀ (cmap : List (Nat × List UGeomCurve)) (start : UGeomCurve) (fuel : Nat)
      (acc r : List (List UGeomCurve)),
      DfsLoop cmap start fuel [StackItem.curve start] [] acc = some r →
      ∀ L ∈ r, L ∈ acc ∨ (L.head? = some start ∧ ClosedPathFrom cmap start L)) ∧
    (∀ (cmap : List (Nat × List UGeomCurve)) (start : UGeomCurve),
      PathFrom cmap start [] ∧ StackFits cmap start [StackItem.curve start] [] ∧
      ∀ (top : StackItem) (rest : List StackItem) (rpath : List UGeomCurve)
        (acc : List (List UGeomCurve)) (fuel : Nat),
        PathFrom cmap start rpath → StackFits cmap start (top :: rest) rpath →
        PathFrom cmap start (DfsRound cmap start top rest rpath acc).2.1 ∧
        StackFits cmap start (DfsRound cmap start top rest rpath acc).1
          (DfsRound cmap start top rest rpath acc).2.1 ∧
        DfsLoop cmap start (fuel + 1) (top :: rest) rpath acc =
          DfsLoop cmap start fuel (DfsRound cmap start top rest rpath acc).1
            (DfsRound cmap start top rest rpath acc).2.1
            (DfsRound cmap start top rest rpath acc).2.2) := by
  have hsub : ∀ c ∈ sortGroups (RemoveRepeatedLines tolRep InCurves), c ∈ InCurves :=
    fun c hc => RemoveRepeatedLines_subset tolRep _ _ le_rfl c (hsort _ c hc)
  have hid2 : ∀ a ∈ sortGroups (RemoveRepeatedLines tolRep InCurves),
      ∀ b ∈ sortGroups (RemoveRepeatedLines tolRep InCurves), a.id = b.id → a = b :=
    fun a ha b hb h => hid a (hsub a ha) b (hsub b hb) h
  have hinit : ∀ (cmap : List (Nat × List UGeomCurve)) (start : UGeomCurve),
      PathFrom cmap start [] ∧ StackFits cmap start [StackItem.curve start] [] :=
    fun cmap start => ⟨⟨List.chain'_nil, fun z hz => by cases hz⟩, by simp [StackFits, MayFollow]⟩
  refine ⟨?_, ?_, ?_⟩
  · intro L hL
    have hgood := FoundLoops_good sortGroups tolRep eps InCurves L hL
    obtain ⟨start, hstart, hclosed⟩ := FoundLoops_closed sortGroups tolRep eps InCurves L hL
    obtain ⟨hchain, z, hz, hconn⟩ := ClosedPathFrom_cycle eps _ hid2 start L hgood hstart hclosed
    exact ⟨hgood.1, fun c hc => hsub c (hgood.2 c hc), hchain, start, z,
      ClosedPathFrom_head _ _ _ hclosed, hz, hconn⟩
  · intro cmap start fuel acc r h L hL
    rcases DfsLoop_closed cmap start fuel _ _ _ _ (hinit cmap start).1 (hinit cmap start).2 h L hL
      with h1 | h1
    · exact Or.inl h1
    · exact Or.inr ⟨ClosedPathFrom_head _ _ _ h1, h1⟩
  · intro cmap start
    refine ⟨(hinit cmap start).1, (hinit cmap start).2, ?_⟩
    intro top rest rpath acc fuel hp hs
    obtain ⟨h1, h2, _⟩ := DfsRound_inv cmap start top rest rpath acc hp hs
    exact ⟨h1, h2, DfsLoop_round cmap start fuel top rest rpath acc⟩

theorem consistent_of_nodup_ids (cs : List UGeomCurve) (h : (cs.map (fun c => c.id)).Nodup) :
    ∀ a ∈ cs, ∀ b ∈ cs, a.id = b.id → a = b :=
  fun _ ha _ hb hab => List.inj_on_of_nodup_map h ha hb hab

/-- C27, instance: the loop around the outer square, recorded for the two
nested squares. -/
theorem recorded_loops_squares_instance :
    (∀ a ∈ Outer4 ++ Inner2, ∀ b ∈ Outer4 ++ Inner2, a.id = b.id → a = b) ∧
      Pick Outer4 [0, 3, 2, 1] ∈ FoundLoops id (1 / 10000000) (1 / 10000000) (Outer4 ++ Inner2) ∧
      List.Chain' (fun a b => AreCurvesConnectedNoOrder a b (1 / 10000000) = true)
        (Pick Outer4 [0, 3, 2, 1]) :=
  have hid : ∀ a ∈ Outer4 ++ Inner2, ∀ b ∈ Outer4 ++ Inner2, a.id = b.id → a = b :=
    consistent_of_nodup_ids _ (by decide)
  have hmem : Pick Outer4 [0, 3, 2, 1]
      ∈ FoundLoops id (1 / 10000000) (1 / 10000000) (Outer4 ++ Inner2) := by
    rw [Squares4_found]; exact List.mem_cons_self _ _
  ⟨hid, hmem,
    ((recorded_loops_are_simple_cycles id (1 / 10000000) (1 / 10000000) (Outer4 ++ Inner2) hid
      (fun _ _ h => h)).1 _ hmem).2.2.1⟩

end GeoUtils
